import Mathlib

/-!
# Integer circle explorer: lattice map, orbit trace, parameter and note control, audio

A shallow embedding of the numerical core of `integer_circle.c` (and of the older
variant `main.c`), followed by theorems about it.

Numeric model. The C code stores every number in a `float`. The embedding has two
layers.

The namespace `Binary32` models the arithmetic the compiled program performs: a `float`
is a binary32 number, an infinity or a NaN; every operation rounds its exact result to
the nearest number of its format, ties to even; an operation with a `double` operand is
carried out in binary64 and rounded again when the result is stored in a `float`; the
library function `sqrt` is correctly rounded. Whatever depends on the values computed
is stated in this layer: the lattice map and its iterates, the radius of the orbit, the
parameter drift, the volume envelopes, and the domain of the period.

The namespaces `IntegerCircle` and `Main` compute in exact arithmetic: there a `float`
is a rational (`ℚ`) wherever the code adds, subtracts, multiplies, divides, compares
and takes `floor`, and a real (`ℝ`) where the code calls `sqrt`, `sin`, `asin` or
`cos`. This layer carries the statements about the structure of the code (the loop of
the orbit trace, the counting of samples and steps, the key and pointer handlers, the
items of the info display) and the identities of real analysis; its theorems are
statements about the exact arithmetic the code approximates. Two places of it say
more: where the key handler stores the result of `other_parameter` into the state,
whose fields are rationals, the stored value is `to_float` of the real result, a
conversion of which nothing is assumed; and `calculate_period_nan` decides on the
argument as the code rounds it (`period_arg`) whether the period is a number, NaN and
infinite results being `none`.

`size_t` counters are natural numbers (none of them can overflow: they are bounded by
`MAX_ITERS` or by the audio request).
-/

namespace IntegerCircle

/-! ## Data model (`integer_circle.c`, lines 15-66) -/

/-- The macro `MAX_FREQ`. -/
def MAX_FREQ : ℕ := 3200

/-- The macro `MAX_ITERS`: capacity of the orbit array. -/
def MAX_ITERS : ℕ := 16384

/-- The struct `point_t`: two `float` coordinates. -/
structure point_t where
  x : ℚ
  y : ℚ
deriving DecidableEq

/-! ## Pure helpers (`integer_circle.c`, lines 120-162) -/

/-- One iteration of the integer circle algorithm (`ic_iter`, lines 121-126): three
assignments to the by-value copy `p`, each reading the fields as already updated. -/
def ic_iter (p : point_t) (delta epsilon : ℚ) : point_t :=
  let p1 : point_t := { p with x := p.x - ⌊delta * p.y⌋ }
  let p2 : point_t := { p1 with y := p1.y + ⌊epsilon * p1.x⌋ }
  let p3 : point_t := { p2 with x := p2.x - ⌊delta * p2.y⌋ }
  p3

/-- The function `floor_pt` (lines 146-151). -/
def floor_pt (p : point_t) : point_t :=
  { x := ⌊p.x⌋, y := ⌊p.y⌋ }

/-- The function `eq_pt` (lines 160-162): exact comparison of both coordinates. -/
def eq_pt (p q : point_t) : Bool :=
  (p.x == q.x) && (p.y == q.y)

/-- The `n`-fold application of `ic_iter` with fixed parameters. -/
def ic_iterate (delta epsilon : ℚ) (n : ℕ) (p : point_t) : point_t :=
  (fun q => ic_iter q delta epsilon)^[n] p

/-! ## The orbit trace in `frame` (`integer_circle.c`, lines 424-435) -/

/-- The variables the orbit loop reads and writes: the local `p`, and `state.orbit`,
`state.orbit_len`, `state.radius`. During the loop `state.radius` holds a squared
norm; the square root is taken afterwards (line 438). -/
structure orbit_vars where
  p : point_t
  orbit : ℕ → point_t
  orbit_len : ℕ
  radius : ℚ

/-- The `for` loop of lines 427-435. The first argument bounds the number of loop
tests; `MAX_ITERS` of them always suffice because `orbit_len` starts at `1` and grows
by one per pass (`orbit_loop_fuel`: more of them change nothing). A `break` leaves `orbit_len` as it is. -/
def orbit_loop (delta epsilon : ℚ) (orig : point_t) : ℕ → orbit_vars → orbit_vars
  | 0, s => s
  | fuel + 1, s =>
    if s.orbit_len < MAX_ITERS then
      let p := ic_iter s.p delta epsilon
      if eq_pt p orig then { s with p := p }
      else
        let r := p.x * p.x + p.y * p.y
        orbit_loop delta epsilon orig fuel
          { p := p
            orbit := Function.update s.orbit s.orbit_len p
            orbit_len := s.orbit_len + 1
            radius := if r > s.radius then r else s.radius }
    else s

/-- Lines 424-435 of `frame`: trace the orbit of the seed `p` (chosen at lines
417-423). `orbit0` is the content of `state.orbit` before the trace. -/
def trace_orbit (orbit0 : ℕ → point_t) (p : point_t) (delta epsilon : ℚ) : orbit_vars :=
  let orig := p
  let r := p.x * p.x + p.y * p.y
  orbit_loop delta epsilon orig MAX_ITERS
    { p := p
      orbit := Function.update orbit0 0 p
      orbit_len := 1
      radius := if r > 0 then r else 1 / 10 ^ 12 }

/-- What holds of the loop variables at every loop test: the stored prefix consists
of the iterates of the seed, none of which (after the seed itself) equals the seed,
and `radius` is a positive upper bound of the stored squared norms. -/
structure orbit_inv (delta epsilon : ℚ) (orig : point_t) (s : orbit_vars) : Prop where
  len_pos : 1 ≤ s.orbit_len
  len_le : s.orbit_len ≤ MAX_ITERS
  stored : ∀ i, i < s.orbit_len → s.orbit i = ic_iterate delta epsilon i orig
  no_return : ∀ k, 1 ≤ k → k < s.orbit_len → ic_iterate delta epsilon k orig ≠ orig
  rad_pos : 0 < s.radius
  rad_ge : ∀ i, i < s.orbit_len →
    (s.orbit i).x * (s.orbit i).x + (s.orbit i).y * (s.orbit i).y ≤ s.radius
  rad_attained : (∃ i, i < s.orbit_len ∧
      s.radius = (s.orbit i).x * (s.orbit i).x + (s.orbit i).y * (s.orbit i).y)
    ∨ (orig.x * orig.x + orig.y * orig.y ≤ 0 ∧ s.radius = 1 / 10 ^ 12)
  rad_init : (if orig.x * orig.x + orig.y * orig.y > 0 then orig.x * orig.x + orig.y * orig.y
      else 1 / 10 ^ 12) ≤ s.radius

/-- Line 438 of `frame`: after the loop, `state.radius = sqrt(state.radius)`. -/
noncomputable def frame_radius (s : orbit_vars) : ℝ :=
  Real.sqrt (s.radius : ℝ)

/-! ## Period conversions (`integer_circle.c`, lines 128-144) -/

/-- Calculate the period of oscillation if no flooring was done (`calculate_period`,
lines 129-131). Outside the domain of `asin` the C function yields a NaN; `Real.arcsin`
is clamped there instead, so this definition is the code only for arguments of `asin`
in `[-1, 1]`. -/
noncomputable def calculate_period (delta epsilon : ℝ) : ℝ :=
  Real.pi / Real.arcsin (Real.sqrt (delta * epsilon / 2))

/-- Calculate the second parameter with the given period (`other_parameter`, lines
141-144). -/
noncomputable def other_parameter (period delta : ℝ) : ℝ :=
  let s := Real.sin (Real.pi / period)
  2 * s * s / delta

/-! ## Audio stepping in `frame` (`integer_circle.c`, lines 491-521) -/

/-- The state the sample loop carries from one sample to the next and from one pass to
the next: `state.play_pt`, `state.old.p`, `state.volume`, `state.start_volume`,
`state.old.volume`. -/
structure audio_vars where
  play_pt : point_t
  old_p : point_t
  volume : ℚ
  start_volume : ℚ
  old_volume : ℚ
deriving DecidableEq

/-- Line 493: `steps = saudio_sample_rate() / (float) MAX_FREQ`, truncated to
`size_t`. -/
def audio_steps (sample_rate : ℕ) : ℕ :=
  sample_rate / MAX_FREQ

/-- Line 494: `nsamples = steps * (nsamples / steps)`, where `nsamples` was the value
of `saudio_expect()`. -/
def audio_nsamples (steps expect : ℕ) : ℕ :=
  steps * (expect / steps)

/-- The body of the sample loop at index `i` (lines 501-519), as far as it writes the
carried state. The remaining statements (lines 520-529) only read it and write
`state.audio_buffer`. -/
def audio_sample (delta epsilon : ℚ) (dampen : Bool) (steps i : ℕ) (s : audio_vars) :
    audio_vars :=
  let s1 : audio_vars :=
    if i % steps = 0 then
      { s with
        play_pt := ic_iter s.play_pt delta epsilon
        old_p := ic_iter s.old_p delta epsilon }
    else s
  let s2 : audio_vars :=
    if dampen then { s1 with volume := s1.volume * (99995 / 100000) } else s1
  let s3 : audio_vars :=
    if s2.start_volume < 1 then { s2 with start_volume := s2.start_volume * (102 / 100) }
    else s2
  { s3 with old_volume := s3.old_volume * (999 / 1000) }

/-- The sample loop `for (size_t i = 0; i < nsamples; i++)` of lines 500-530. -/
def audio_loop (delta epsilon : ℚ) (dampen : Bool) (steps nsamples : ℕ) (s : audio_vars) :
    audio_vars :=
  (List.range nsamples).foldl (fun st i => audio_sample delta epsilon dampen steps i st) s

/-- One audio-fill pass (lines 492-530): `expect` is the host request
`saudio_expect()`. -/
def audio_fill (delta epsilon : ℚ) (dampen : Bool) (steps expect : ℕ) (s : audio_vars) :
    audio_vars :=
  audio_loop delta epsilon dampen steps (audio_nsamples steps expect) s

/-- The number of `ic_iter` advances of the playing point in a loop of `nsamples`
samples: the number of indices `i < nsamples` that pass the guard `i % steps == 0` of
line 501. -/
def advances (steps nsamples : ℕ) : ℕ :=
  (List.range nsamples).countP (fun i => i % steps = 0)

/-! ## Cosine interpolation (`integer_circle.c`, lines 523-529) -/

/-- Line 524: `t = (float) (i % steps) / (float) steps`. -/
noncomputable def interp_t (steps i : ℕ) : ℝ :=
  ((i % steps : ℕ) : ℝ) / (steps : ℝ)

/-- Line 525: `t = 0.5 - 0.5*cos(M_PI*t)`. -/
noncomputable def interp_weight (t : ℝ) : ℝ :=
  0.5 - 0.5 * Real.cos (Real.pi * t)

/-- The interpolated coordinate `(1 - t)*prev + t*p` of lines 526-529. -/
noncomputable def interp_value (w prev next : ℝ) : ℝ :=
  (1 - w) * prev + w * next

end IntegerCircle

namespace Main

open IntegerCircle (point_t)

/-- The function `ic_iter` of `main.c` (lines 92-96), which updates `*x` and `*y` in
place; the pair of final values is returned. -/
def ic_iter (x y delta epsilon : ℚ) : ℚ × ℚ :=
  let x1 := x - ⌊delta * y⌋
  let y1 := y + ⌊epsilon * x1⌋
  let x2 := x1 - ⌊delta * y1⌋
  (x2, y1)

/-- Lines 416-417 of `main.c`: `nsamples = steps * (1 + nsamples / steps)`, where
`nsamples` was the frame duration times the sample rate. -/
def audio_nsamples (steps n : ℕ) : ℕ :=
  steps * (1 + n / steps)

/-- The state the sample loop of `main.c` carries: `state.play_pt`, `state.volume`. -/
structure audio_vars where
  play_pt : point_t
  volume : ℚ
deriving DecidableEq

/-- The body of the sample loop of `main.c` at index `i` (lines 422-431), as far as it
writes the carried state. -/
def audio_sample (delta epsilon : ℚ) (dampen : Bool) (steps i : ℕ) (s : audio_vars) :
    audio_vars :=
  let s1 : audio_vars :=
    if i % steps = 0 then
      let r := ic_iter s.play_pt.x s.play_pt.y delta epsilon
      { s with play_pt := ⟨r.1, r.2⟩ }
    else s
  if dampen then { s1 with volume := s1.volume * (99995 / 100000) } else s1

/-- The sample loop of `main.c` (lines 421-438). -/
def audio_loop (delta epsilon : ℚ) (dampen : Bool) (steps nsamples : ℕ) (s : audio_vars) :
    audio_vars :=
  (List.range nsamples).foldl (fun st i => audio_sample delta epsilon dampen steps i st) s

/-- One audio-fill pass of `main.c` (lines 414-438) for a frame of `n` samples. -/
def audio_fill (delta epsilon : ℚ) (dampen : Bool) (steps n : ℕ) (s : audio_vars) :
    audio_vars :=
  audio_loop delta epsilon dampen steps (audio_nsamples steps n) s

end Main

/-! ## Binary floating point

The definitions above compute in exact arithmetic. This section models the arithmetic
the compiled program performs: every `float` operation rounds its exact result to the
nearest binary32 number (ties to even), an operation with a `double` operand is carried
out in binary64 and converted to binary32 when stored, and a result too large for the
format is an infinity. Products and sums are taken as the C standard evaluates them for
`FLT_EVAL_METHOD` 0, without fused multiply-add. A zero carries no sign. -/

namespace Binary32

/-- The integer nearest to `q`, the even one of the two at a tie. -/
def rne (q : ℚ) : ℤ :=
  if q - ⌊q⌋ < 1 / 2 then ⌊q⌋
  else if 1 / 2 < q - ⌊q⌋ then ⌊q⌋ + 1
  else if ⌊q⌋ % 2 = 0 then ⌊q⌋ else ⌊q⌋ + 1

/-- The number of halvings that bring `n` below `2`, at most `fuel` of them. -/
def log2_fuel : ℕ → ℕ → ℕ
  | 0, _ => 0
  | fuel + 1, n => if n < 2 then 0 else log2_fuel fuel (n / 2) + 1

/-- The position of the leading binary digit of `n`. -/
def nat_log2 (n : ℕ) : ℕ :=
  log2_fuel n n

/-- The exponent `e` of the leading binary digit of `q ≠ 0`: `2^e ≤ |q| < 2^(e+1)`. -/
def fexp (q : ℚ) : ℤ :=
  if (2 : ℚ) ^ ((nat_log2 q.num.natAbs : ℤ) - (nat_log2 q.den : ℤ)) ≤ |q| then
    (nat_log2 q.num.natAbs : ℤ) - (nat_log2 q.den : ℤ)
  else (nat_log2 q.num.natAbs : ℤ) - (nat_log2 q.den : ℤ) - 1

/-- Rounding to the nearest number of the binary format with `prec` significant bits
and least normal exponent `emin`, ties to even, with gradual underflow and no upper
limit. -/
def round_fmt (prec : ℕ) (emin : ℤ) (q : ℚ) : ℚ :=
  (rne (q / 2 ^ (max (fexp q) emin - ((prec : ℤ) - 1))) : ℚ)
    * 2 ^ (max (fexp q) emin - ((prec : ℤ) - 1))

/-- Rounding to binary32, the format of `float`. -/
def round32 (q : ℚ) : ℚ :=
  round_fmt 24 (-126) q

/-- Rounding to binary64, the format of `double`. -/
def round64 (q : ℚ) : ℚ :=
  round_fmt 53 (-1022) q

/-- A value of the C type `float`: a finite number, an infinity, or a NaN. -/
inductive float where
  | fin (q : ℚ)
  | inf (neg : Bool)
  | nan
deriving DecidableEq

/-- The `float` that stores the exact result `q` of an operation: `q` rounded to
binary32, or the infinity of its sign when the rounded value is out of range. -/
def to_float (q : ℚ) : float :=
  if 2 ^ 128 ≤ |round32 q| then float.inf (decide (q < 0)) else float.fin (round32 q)

/-- Unary minus. -/
def float.neg : float → float
  | float.fin q => float.fin (-q)
  | float.inf s => float.inf (!s)
  | float.nan => float.nan

/-- The product `a * b` of two `float`s. -/
def float.mul : float → float → float
  | float.fin a, float.fin b => to_float (a * b)
  | float.fin a, float.inf s => if a = 0 then float.nan else float.inf (xor (decide (a < 0)) s)
  | float.inf s, float.fin b => if b = 0 then float.nan else float.inf (xor s (decide (b < 0)))
  | float.inf s, float.inf t => float.inf (xor s t)
  | _, _ => float.nan

/-- The sum `a + b` of two `float`s. -/
def float.add : float → float → float
  | float.fin a, float.fin b => to_float (a + b)
  | float.fin _, float.inf s => float.inf s
  | float.inf s, float.fin _ => float.inf s
  | float.inf s, float.inf t => if s = t then float.inf s else float.nan
  | _, _ => float.nan

/-- The quotient `a / b` of two `float`s; a non-zero number divided by zero is the
infinity with the sign of the dividend. -/
def float.div : float → float → float
  | float.fin a, float.fin b =>
    if b = 0 then (if a = 0 then float.nan else float.inf (decide (a < 0)))
    else to_float (a / b)
  | float.fin _, float.inf _ => float.fin 0
  | float.inf s, float.fin b => float.inf (xor s (decide (b < 0)))
  | _, _ => float.nan

/-- The sum `(float) ((double) a + b)` of a `float` and a `double` that holds a `float`
value, stored into a `float`: the exact sum is rounded to binary64, then to binary32.
This is `a += b` for a `double` `b`. -/
def float.add_d : float → float → float
  | float.fin a, float.fin b => to_float (round64 (a + b))
  | float.fin _, float.inf s => float.inf s
  | float.inf s, float.fin _ => float.inf s
  | float.inf s, float.inf t => if s = t then float.inf s else float.nan
  | _, _ => float.nan

/-- The difference `(float) ((double) a - b)`: `a -= b` for a `double` `b`. -/
def float.sub_d (a b : float) : float :=
  float.add_d a (float.neg b)

/-- The product `(float) ((double) a * c)` of a `float` and a finite `double` constant
`c`: `a *= c`. -/
def float.mul_d : float → ℚ → float
  | float.fin a, c => to_float (round64 (a * c))
  | float.inf s, c => if c = 0 then float.nan else float.inf (xor s (decide (c < 0)))
  | float.nan, _ => float.nan

/-- The library function `floor` on the `double` that holds a `float`; the result is an
integer, or the argument itself when that is not finite. -/
def float.floor : float → float
  | float.fin q => float.fin ⌊q⌋
  | v => v

/-- The comparison `a == b`. -/
def float.eq : float → float → Bool
  | float.fin a, float.fin b => decide (a = b)
  | float.inf s, float.inf t => decide (s = t)
  | _, _ => false

/-- The comparison `a < b`. -/
def float.lt : float → float → Bool
  | float.fin a, float.fin b => decide (a < b)
  | float.fin _, float.inf t => !t
  | float.inf s, float.fin _ => s
  | float.inf s, float.inf t => s && !t
  | _, _ => false

/-- Binary search for the integer square root of `n`: the bits `k - 1, ..., 0` are
tried in turn on top of `r`. -/
def isqrt_bits (n : ℕ) : ℕ → ℕ → ℕ
  | 0, r => r
  | k + 1, r =>
    if (r + 2 ^ k) ^ 2 ≤ n then isqrt_bits n k (r + 2 ^ k) else isqrt_bits n k r

/-- The integer square root of `n`: the greatest `s` with `s^2 ≤ n`. -/
def isqrt (n : ℕ) : ℕ :=
  isqrt_bits n (nat_log2 n / 2 + 1) 0

/-- The square root of `q > 0` rounded to the nearest number with 53 significant bits,
ties to even: the value of the library function `sqrt` on a `double` argument, which
IEC 60559 requires to be correctly rounded. With `2^(2e) ≤ q < 2^(2e+2)` the root lies
in `[2^e, 2^(e+1))`, where the binary64 numbers are the multiples of `2^(e-52)`; the
nearest multiple is found from the integer square root of `q / 4^(e-52)`. -/
def sqrt64 (q : ℚ) : ℚ :=
  let s : ℤ := fexp q / 2 - 52
  let t : ℚ := q / 2 ^ (2 * s)
  let m0 : ℕ := isqrt ⌊t⌋.toNat
  let m : ℕ :=
    if t < ((m0 : ℚ) + 1 / 2) ^ 2 then m0
    else if ((m0 : ℚ) + 1 / 2) ^ 2 < t then m0 + 1
    else if m0 % 2 = 0 then m0 else m0 + 1
  (m : ℚ) * 2 ^ s

/-- The expression `(float) sqrt((double) a)`: the square root is taken in `double`
and stored into a `float`. The root of a negative number is a NaN. -/
def float.sqrt : float → float
  | float.fin q =>
    if q < 0 then float.nan else if q = 0 then float.fin 0 else to_float (sqrt64 q)
  | float.inf false => float.inf false
  | _ => float.nan

end Binary32

namespace IntegerCircle

/-! ## The program state (`integer_circle.c`, lines 23-93)

Every numeric field is a `float`, hence a rational. The fields `audio_buffer` (written
only by the sample loop, see `synth_vars`) and `gfx` are left out. -/

/-- The struct `params_t`. The field `view` is only tested for truth and negated, so
it is a truth value here; likewise `color`. -/
structure params_t where
  resolution : point_t
  cam : point_t
  zoom : ℚ
  delta : ℚ
  epsilon : ℚ
  p : point_t
  view : Bool
  color : Bool

/-- The anonymous struct of the field `old` of `state_t`. -/
structure old_t where
  p : point_t
  delta : ℚ
  epsilon : ℚ
  radius : ℚ
  volume : ℚ

/-- The struct `state_t`. A `float complex` entry of `spectrum` is the pair of its real
and imaginary parts. -/
structure state_t where
  params : params_t
  other_zoom : ℚ
  play_pt : point_t
  volume : ℚ
  start_volume : ℚ
  dampen : Bool
  octave : ℚ
  move : Bool
  pointer : point_t
  show_info : Bool
  show_help : Bool
  params_changed : Bool
  smooth_change : Bool
  orbit : ℕ → point_t
  spectrum : ℕ → ℚ × ℚ
  orbit_len : ℕ
  radius : ℚ
  old : old_t

/-- The initial value of `state` (lines 68-93); members the initializer does not name
are zero. -/
def state_init : state_t :=
  { params :=
      { resolution := ⟨0, 0⟩
        cam := ⟨0, 0⟩
        zoom := 1
        delta := 1 / 2
        epsilon := 1381966 / 1000000
        p := ⟨0, 0⟩
        view := true
        color := false }
    other_zoom := 5000
    play_pt := ⟨0, 0⟩
    volume := 1
    start_volume := 1
    dampen := false
    octave := 1
    move := false
    pointer := ⟨0, 0⟩
    show_info := false
    show_help := true
    params_changed := false
    smooth_change := false
    orbit := fun _ => ⟨0, 0⟩
    spectrum := fun _ => (0, 0)
    orbit_len := 0
    radius := 0
    old := { p := ⟨0, 0⟩, delta := 0, epsilon := 0, radius := 0, volume := 0 } }

/-- Ratios of the musical notes in just intonation (the table `NOTES`, lines
117-118). -/
def NOTES : Fin 10 → ℚ :=
  ![4 / 6, 3 / 4, 8 / 10, 5 / 6, 9 / 10, 1, 9 / 8, 6 / 5, 5 / 4, 4 / 3]

/-- The function `scale_pt` (lines 153-158). -/
def scale_pt (p : point_t) (scale : ℚ) : point_t :=
  { x := scale * p.x, y := scale * p.y }

/-- The function `screen_to_pt` (lines 164-170). -/
def screen_to_pt (s : state_t) (x y : ℤ) : point_t :=
  let par := s.params
  { x := ((x : ℚ) - par.resolution.x / 2) / par.zoom - par.cam.x
    y := ((y : ℚ) - par.resolution.y / 2) / par.zoom - par.cam.y }

/-! ## Point selection (`integer_circle.c`, lines 172-197) -/

/-- Store the old parameters in `state.old` (`remember_old_params`, lines 173-179). -/
def remember_old_params (s : state_t) : state_t :=
  { s with
    old :=
      { p := s.play_pt
        delta := s.params.delta
        epsilon := s.params.epsilon
        radius := s.radius
        volume := s.volume * s.start_volume } }

/-- Set the current playing point (`set_point`, lines 182-197). -/
def set_point (s : state_t) (p : point_t) : state_t :=
  let s1 := remember_old_params s
  let s2 : state_t :=
    if s1.params.view then
      let floored := floor_pt p
      if !eq_pt s1.params.p floored then
        { s1 with params := { s1.params with p := floored }, play_pt := floored }
      else s1
    else
      { s1 with
        params := { s1.params with delta := p.x, epsilon := p.y }
        play_pt := s1.params.p }
  { s2 with volume := 1, params_changed := true }

/-! ## Key handling in `input` (`integer_circle.c`, lines 284-341) -/

/-- The case `SAPP_KEYCODE_SPACE` of a key-down event (lines 305-311). -/
def key_down_space (s : state_t) : state_t :=
  let s1 : state_t := { s with play_pt := ⟨0, 0⟩ }
  let s2 : state_t :=
    if s1.params.view then { s1 with params := { s1.params with p := ⟨0, 0⟩ } } else s1
  { s2 with orbit_len := 0 }

/-- Lines 322-323: the index into `NOTES` for the digit key `d`, where
`d = ev->key_code - SAPP_KEYCODE_0`: `code = (code + 9) % 10`. -/
def note_code (d : ℕ) : Fin 10 :=
  ⟨(d + 9) % 10, Nat.mod_lt _ (by decide)⟩

/-- Line 325, the period that plays the desired note:
`period = 6.0 * state.octave / NOTES[code]`. -/
def note_period (octave : ℚ) (d : ℕ) : ℚ :=
  6 * octave / NOTES (note_code d)

/-- Line 326: `pertrubation = ((float) rand() / (float) RAND_MAX - 0.5) * 0.01`, where
`r0` is the value `rand()` returned. -/
def note_pertrubation (RAND_MAX r0 : ℕ) : ℚ :=
  ((r0 : ℚ) / (RAND_MAX : ℚ) - 1 / 2) * (1 / 100)

/-- Line 327: `(float) (rand() % 12 + 1) / (float) (rand() % 16 + 4) + 0.5`, where `r1`
and `r2` are the values the two calls of `rand()` returned. -/
def note_delta (r1 r2 : ℕ) : ℚ :=
  ((r1 % 12 + 1 : ℕ) : ℚ) / ((r2 % 16 + 4 : ℕ) : ℚ) + 1 / 2

/-- The case `SAPP_KEYCODE_0 ... SAPP_KEYCODE_9` of a key-down event (lines 320-337)
for the digit `d = ev->key_code - SAPP_KEYCODE_0`. `r0`, `r1`, `r2` are the values of
the three calls of `rand()`, `mouse_x`, `mouse_y` the event position converted to
`int`. The value `other_parameter` returns is a real number; `to_float` is the
conversion to the `float` stored in `state.params.epsilon`, of which nothing is
assumed. -/
noncomputable def key_down_digit (to_float : ℝ → ℚ) (RAND_MAX r0 r1 r2 : ℕ)
    (mouse_x mouse_y : ℤ) (d : ℕ) (key_repeat : Bool) (s : state_t) : state_t :=
  if key_repeat then s
  else
    let period := note_period s.octave d
    let pertrubation := note_pertrubation RAND_MAX r0
    let delta := note_delta r1 r2
    let epsilon := to_float (other_parameter ((period + pertrubation : ℚ) : ℝ) (delta : ℝ))
    let s1 : state_t :=
      { s with
        params := { s.params with delta := delta, epsilon := epsilon }
        dampen := false
        volume := 1 }
    let s2 : state_t :=
      if s1.params.view then
        let p := floor_pt (screen_to_pt s1 mouse_x mouse_y)
        { s1 with params := { s1.params with p := p }, play_pt := p }
      else s1
    { s2 with params_changed := true }

/-! ## The info display (`integer_circle.c`, lines 357-388) -/

/-- The argument `delta*epsilon/2` of `sqrt` in `calculate_period` (line 130) as the
code computes it: the `float` product `delta*epsilon`, divided by `2` in `float`. -/
def period_arg (delta epsilon : ℚ) : Binary32.float :=
  Binary32.float.div
    (Binary32.float.mul (Binary32.float.fin delta) (Binary32.float.fin epsilon))
    (Binary32.float.fin 2)

/-- The value of `M_PI / asin(sqrt(a))` for a finite argument `a`, with the non-numbers
of C arithmetic made explicit: `sqrt` of a negative number and `asin` of a number above
`1` are NaN, and `M_PI` divided by zero is infinite. `none` stands for a NaN or an
infinity; a number is given by its value in exact arithmetic. -/
noncomputable def period_of_arg (a : ℝ) : Option ℝ :=
  if a < 0 then none
  else if 1 < Real.sqrt a then none
  else if Real.arcsin (Real.sqrt a) = 0 then none
  else some (Real.pi / Real.arcsin (Real.sqrt a))

/-- The value `calculate_period` returns (lines 129-131), with the non-numbers made
explicit: the argument is `period_arg`, rounded as the code rounds it, and an infinite
or NaN argument gives a NaN. -/
noncomputable def calculate_period_nan (delta epsilon : ℚ) : Option ℝ :=
  match period_arg delta epsilon with
  | Binary32.float.fin a => period_of_arg (a : ℝ)
  | _ => none

/-- The library function `cabsf` on a `float complex` given by its two parts. -/
noncomputable def cabsf (z : ℚ × ℚ) : ℝ :=
  Real.sqrt ((z.1 * z.1 + z.2 * z.2 : ℚ) : ℝ)

/-- The conversion `(int) v` of a `float`: truncation towards zero. -/
def int_of_float (v : ℚ) : ℤ :=
  if 0 ≤ v then ⌊v⌋ else ⌈v⌉

/-- One item of the text `print_info` emits: one constructor per `sdtx_printf` or
`sdtx_puts` call, carrying the values printed. -/
inductive info_line where
  | x (v : ℤ)
  | y (v : ℤ)
  | d (v : ℚ)
  | e (v : ℚ)
  | period (v : Option ℝ)
  | orbit_too_long
  | orbit (n : ℕ)
  | cycle (cycle : ℚ) (period_ratio : Option ℝ) (amplitude : ℝ) (frequency : ℚ)

/-- The spectrum line of `print_info` for the bin `i` (lines 382-384). -/
noncomputable def cycle_line (s : state_t) (period : Option ℝ) (i : ℕ) : info_line :=
  let cycle : ℚ := (s.orbit_len : ℚ) / (i : ℚ)
  info_line.cycle cycle (period.map (fun v => v / (cycle : ℝ))) (cabsf (s.spectrum i))
    ((MAX_FREQ : ℚ) / cycle)

/-- The function `print_info` (lines 357-388): the items it prints, in order. -/
noncomputable def print_info (s : state_t) : List info_line :=
  let period := calculate_period_nan s.params.delta s.params.epsilon
  let head : List info_line :=
    if s.params.view then
      [info_line.x ⌊s.pointer.x⌋, info_line.y ⌊s.pointer.y⌋,
        info_line.d s.params.delta, info_line.e s.params.epsilon,
        info_line.period period]
    else
      [info_line.x (int_of_float s.params.p.x), info_line.y (int_of_float s.params.p.y),
        info_line.d s.pointer.x, info_line.e s.pointer.y,
        info_line.period (calculate_period_nan s.pointer.x s.pointer.y)]
  let orbit : List info_line :=
    if s.orbit_len = MAX_ITERS then [info_line.orbit_too_long]
    else [info_line.orbit s.orbit_len]
  let spectrum : List info_line :=
    (List.range' 1 (s.orbit_len - 1)).filterMap
      (fun i => if cabsf (s.spectrum i) > 5 / 100 then some (cycle_line s period i) else none)
  head ++ orbit ++ spectrum

/-! ## Sample synthesis in `frame` (`integer_circle.c`, lines 496-530) -/

/-- The carried state of `audio_vars` as found in the program state. -/
def audio_of_state (s : state_t) : audio_vars :=
  { play_pt := s.play_pt
    old_p := s.old.p
    volume := s.volume
    start_volume := s.start_volume
    old_volume := s.old.volume }

/-- Everything the sample loop writes: the carried state, the locals `prev`, `p`,
`oprev`, `op`, and `state.audio_buffer`. -/
structure synth_vars where
  st : audio_vars
  prev : point_t
  p : point_t
  oprev : point_t
  op : point_t
  audio_buffer : ℕ → ℝ

/-- The body of the sample loop at index `i` (lines 501-529). The carried state is
updated as in `audio_sample`; on a step boundary `prev`, `oprev` take the old `p`, `op`
and `p`, `op` the scaled new points; then the two buffer entries are written. -/
noncomputable def synth_sample (delta epsilon : ℚ) (dampen : Bool) (scale old_scale : ℚ)
    (steps i : ℕ) (s : synth_vars) : synth_vars :=
  let st := audio_sample delta epsilon dampen steps i s.st
  let prev := if i % steps = 0 then s.p else s.prev
  let p := if i % steps = 0 then scale_pt st.play_pt scale else s.p
  let oprev := if i % steps = 0 then s.op else s.oprev
  let op := if i % steps = 0 then scale_pt st.old_p old_scale else s.op
  let v : ℚ := st.volume * st.start_volume
  let ov : ℚ := st.old_volume
  let t : ℝ := interp_weight (interp_t steps i)
  { st := st
    prev := prev
    p := p
    oprev := oprev
    op := op
    audio_buffer :=
      Function.update
        (Function.update s.audio_buffer (2 * i)
          ((v : ℝ) * interp_value t prev.x p.x + (ov : ℝ) * interp_value t oprev.x op.x))
        (2 * i + 1)
        ((v : ℝ) * interp_value t prev.y p.y + (ov : ℝ) * interp_value t oprev.y op.y) }

/-- The sample loop of lines 500-530 with its buffer writes. -/
noncomputable def synth_loop (delta epsilon : ℚ) (dampen : Bool) (scale old_scale : ℚ)
    (steps nsamples : ℕ) (s : synth_vars) : synth_vars :=
  (List.range nsamples).foldl
    (fun st i => synth_sample delta epsilon dampen scale old_scale steps i st) s

/-- One audio-fill pass with its buffer writes (lines 492-530): `radius` is
`state.radius`, `expect` the host request, `audio_buffer` the buffer content before the
pass. -/
noncomputable def synth_fill (delta epsilon : ℚ) (dampen : Bool) (radius : ℚ)
    (steps expect : ℕ) (st : audio_vars) (audio_buffer : ℕ → ℝ) : synth_vars :=
  let nsamples := audio_nsamples steps expect
  let scale := 1 / radius
  let p := scale_pt st.play_pt scale
  let old_scale := 1 / radius
  let op := scale_pt st.old_p old_scale
  synth_loop delta epsilon dampen scale old_scale steps nsamples
    { st := st, prev := p, p := p, oprev := op, op := op, audio_buffer := audio_buffer }

/-- The term a trajectory contributes to sample `i` of a pass, in closed form: the
volume `vol` times the interpolation between the scaled iterates number `k - 1` and `k`
of the point `q` the trajectory started the pass from, where `k` is the number of
advances up to and including sample `i`. -/
noncomputable def trajectory_term (coord : point_t → ℚ) (delta epsilon : ℚ) (scale : ℚ)
    (steps i : ℕ) (vol : ℚ) (q : point_t) : ℝ :=
  (vol : ℝ) * interp_value (interp_weight (interp_t steps i))
    (coord (scale_pt (ic_iterate delta epsilon (advances steps (i + 1) - 1) q) scale))
    (coord (scale_pt (ic_iterate delta epsilon (advances steps (i + 1)) q) scale))

/-- What holds of the loop variables after `n` samples of a pass that started from the
carried state `st0`. -/
structure synth_inv (delta epsilon : ℚ) (dampen : Bool) (scale old_scale : ℚ)
    (steps : ℕ) (st0 : audio_vars) (n : ℕ) (s : synth_vars) : Prop where
  carried : s.st = audio_loop delta epsilon dampen steps n st0
  cur : s.p = scale_pt s.st.play_pt scale
  old_cur : s.op = scale_pt s.st.old_p old_scale
  before : 1 ≤ n →
    s.prev = scale_pt (ic_iterate delta epsilon (advances steps n - 1) st0.play_pt) scale
  old_before : 1 ≤ n →
    s.oprev = scale_pt (ic_iterate delta epsilon (advances steps n - 1) st0.old_p) old_scale
  left : ∀ i, i < n → s.audio_buffer (2 * i)
    = trajectory_term point_t.x delta epsilon scale steps i
        ((audio_loop delta epsilon dampen steps (i + 1) st0).volume
          * (audio_loop delta epsilon dampen steps (i + 1) st0).start_volume) st0.play_pt
      + trajectory_term point_t.x delta epsilon old_scale steps i
        (audio_loop delta epsilon dampen steps (i + 1) st0).old_volume st0.old_p
  right : ∀ i, i < n → s.audio_buffer (2 * i + 1)
    = trajectory_term point_t.y delta epsilon scale steps i
        ((audio_loop delta epsilon dampen steps (i + 1) st0).volume
          * (audio_loop delta epsilon dampen steps (i + 1) st0).start_volume) st0.play_pt
      + trajectory_term point_t.y delta epsilon old_scale steps i
        (audio_loop delta epsilon dampen steps (i + 1) st0).old_volume st0.old_p

/-- The state after three events that arrive before the first frame: a left click on
the lattice point `(1, 0)`, a left click on `(2, 0)`, and the Space key. -/
def space_after_clicks : state_t :=
  key_down_space (set_point (set_point state_init ⟨1, 0⟩) ⟨2, 0⟩)

/-- A state whose parameters are outside the domain of the period: `delta = 3/4`,
`epsilon = 3` (so `delta*epsilon/2 = 9/8`) and seed `(0, -1)`, whose orbit is
`(0, -1), (0, 2)`, of radius `2`; the spectrum is the transform of the normalised orbit
divided by its length, `0.25i` and `-0.75i`. -/
def out_of_domain_state : state_t :=
  { state_init with
    params := { state_init.params with delta := 3 / 4, epsilon := 3, p := ⟨0, -1⟩ }
    play_pt := ⟨0, -1⟩
    orbit := fun i => if i = 0 then ⟨0, -1⟩ else if i = 1 then ⟨0, 2⟩ else ⟨0, 0⟩
    spectrum := fun i => if i = 0 then (0, 1 / 4) else if i = 1 then (0, -3 / 4) else (0, 0)
    orbit_len := 2
    radius := 2 }

end IntegerCircle

namespace Binary32

/-- The struct `point_t` with `float` coordinates. -/
structure point_t where
  x : float
  y : float
deriving DecidableEq

/-- One iteration of the integer circle algorithm (`ic_iter`, lines 121-126 of
`integer_circle.c`) in `float` arithmetic: `delta * p.y` is a `float` product, `floor`
yields a `double`, and `p.x -= ...` subtracts in `double` and stores a `float`. -/
def ic_iter (p : point_t) (delta epsilon : float) : point_t :=
  let p1 : point_t := { p with x := float.sub_d p.x (float.floor (float.mul delta p.y)) }
  let p2 : point_t := { p1 with y := float.add_d p1.y (float.floor (float.mul epsilon p1.x)) }
  let p3 : point_t := { p2 with x := float.sub_d p2.x (float.floor (float.mul delta p2.y)) }
  p3

/-- The function `ic_iter` of `main.c` (lines 92-96) in `float` arithmetic; the pair of
final values of `*x` and `*y` is returned. -/
def main_ic_iter (x y delta epsilon : float) : float × float :=
  let x1 := float.sub_d x (float.floor (float.mul delta y))
  let y1 := float.add_d y (float.floor (float.mul epsilon x1))
  let x2 := float.sub_d x1 (float.floor (float.mul delta y1))
  (x2, y1)

/-- The `n`-fold application of `ic_iter` with fixed parameters. -/
def ic_iterate (delta epsilon : float) (n : ℕ) (p : point_t) : point_t :=
  (fun q => ic_iter q delta epsilon)^[n] p

/-- The value is a finite integer. -/
def float.is_int : float → Prop
  | float.fin q => (⌊q⌋ : ℚ) = q
  | _ => False

/-- The value is an integer or is not finite (an infinity or a NaN). -/
def float.int_or_nonfinite : float → Prop
  | float.fin q => (⌊q⌋ : ℚ) = q
  | _ => True

instance (v : float) : Decidable (float.is_int v) := by
  cases v <;> unfold float.is_int <;> infer_instance

instance (v : float) : Decidable (float.int_or_nonfinite v) := by
  cases v <;> unfold float.int_or_nonfinite <;> infer_instance

/-- Both coordinates are finite integers. -/
def integer_valued (p : point_t) : Prop :=
  p.x.is_int ∧ p.y.is_int

instance (p : point_t) : Decidable (integer_valued p) := by
  unfold integer_valued
  infer_instance

/-- Each coordinate is an integer or is not finite. -/
def point_t.int_or_nonfinite (p : point_t) : Prop :=
  p.x.int_or_nonfinite ∧ p.y.int_or_nonfinite

instance (p : point_t) : Decidable (point_t.int_or_nonfinite p) := by
  unfold point_t.int_or_nonfinite
  infer_instance

/-- The lattice point `(m, n)` as a `point_t`. -/
def lattice_pt (p : ℤ × ℤ) : point_t :=
  { x := float.fin p.1, y := float.fin p.2 }

/-- The first of the three shear-floor steps on a lattice point, with the product
rounded to `float` and the difference exact: `x1 = x - floor(fl(delta*y))`. -/
def shear_x1 (delta : ℚ) (p : ℤ × ℤ) : ℤ :=
  p.1 - ⌊round32 (delta * p.2)⌋

/-- The three shear-floor steps on a lattice point, with every product rounded to
`float` and every sum exact: `x1 = x - floor(fl(delta*y))`,
`y1 = y + floor(fl(epsilon*x1))`, `x2 = x1 - floor(fl(delta*y1))`; the value is
`(x2, y1)`. -/
def shear_floor (delta epsilon : ℚ) (p : ℤ × ℤ) : ℤ × ℤ :=
  let x1 := p.1 - ⌊round32 (delta * p.2)⌋
  let y1 := p.2 + ⌊round32 (epsilon * x1)⌋
  let x2 := x1 - ⌊round32 (delta * y1)⌋
  (x2, y1)

/-- The three shear-floor steps on a lattice point in exact arithmetic, no product being
rounded: `x1 = x - floor(delta*y)`, `y1 = y + floor(epsilon*x1)`,
`x2 = x1 - floor(delta*y1)`; the value is `(x2, y1)`. -/
def shear_floor_exact (delta epsilon : ℚ) (p : ℤ × ℤ) : ℤ × ℤ :=
  let x1 := p.1 - ⌊delta * p.2⌋
  let y1 := p.2 + ⌊epsilon * x1⌋
  let x2 := x1 - ⌊delta * y1⌋
  (x2, y1)

/-- The lattice point stays in the range where `float` sums are exact through one
iteration: its coordinates and the three results `x1`, `y1`, `x2` are below `2^24` in
magnitude. -/
def in_range (delta epsilon : ℚ) (p : ℤ × ℤ) : Prop :=
  |p.1| < 2 ^ 24 ∧ |p.2| < 2 ^ 24 ∧ |shear_x1 delta p| < 2 ^ 24
    ∧ |(shear_floor delta epsilon p).1| < 2 ^ 24
    ∧ |(shear_floor delta epsilon p).2| < 2 ^ 24

instance (delta epsilon : ℚ) (p : ℤ × ℤ) : Decidable (in_range delta epsilon p) := by
  unfold in_range
  infer_instance

/-- The inverse of `shear_floor`: `x1 = x' + floor(fl(delta*y'))`,
`y = y' - floor(fl(epsilon*x1))`, `x = x1 + floor(fl(delta*y))`. -/
def shear_floor_inv (delta epsilon : ℚ) (p : ℤ × ℤ) : ℤ × ℤ :=
  let x1 := p.1 + ⌊round32 (delta * p.2)⌋
  let y := p.2 - ⌊round32 (epsilon * x1)⌋
  let x := x1 + ⌊round32 (delta * y)⌋
  (x, y)

/-- The function `eq_pt` (lines 160-162 of `integer_circle.c`) on `float`
coordinates. -/
def eq_pt (p q : point_t) : Bool :=
  float.eq p.x q.x && float.eq p.y q.y

/-- Both coordinates are finite. -/
def point_t.finite (p : point_t) : Prop :=
  (∃ a, p.x = float.fin a) ∧ (∃ b, p.y = float.fin b)

/-! ### The orbit trace in `float` arithmetic (`integer_circle.c`, lines 424-438) -/

/-- The expression `p.x*p.x + p.y*p.y` of lines 425 and 431: two `float` products and
a `float` sum. -/
def sq_norm (p : point_t) : float :=
  float.add (float.mul p.x p.x) (float.mul p.y p.y)

/-- The value `state.radius` takes from the `double` constant `1e-12` at line 426. -/
def radius_floor : float :=
  to_float (round64 (1 / 10 ^ 12))

/-- Line 438 of `frame`: after the loop, `state.radius = sqrt(state.radius)`; the
argument is the value the loop left in `state.radius`. -/
def frame_radius (radius : float) : float :=
  float.sqrt radius

/-- The variables of the orbit loop: the local `p`, `state.orbit`, `state.orbit_len`
and `state.radius`, which holds a squared norm during the loop. -/
structure orbit_vars where
  p : point_t
  orbit : ℕ → point_t
  orbit_len : ℕ
  radius : float

/-- The `for` loop of lines 427-435 in `float` arithmetic; the first argument bounds
the number of loop tests, of which `MAX_ITERS` suffice. -/
def orbit_loop (delta epsilon : float) (orig : point_t) : ℕ → orbit_vars → orbit_vars
  | 0, s => s
  | fuel + 1, s =>
    if s.orbit_len < IntegerCircle.MAX_ITERS then
      let p := ic_iter s.p delta epsilon
      if eq_pt p orig then { s with p := p }
      else
        let r := sq_norm p
        orbit_loop delta epsilon orig fuel
          { p := p
            orbit := Function.update s.orbit s.orbit_len p
            orbit_len := s.orbit_len + 1
            radius := if float.lt s.radius r then r else s.radius }
    else s

/-- Lines 424-435 of `frame` in `float` arithmetic: the trace from the seed `p`. -/
def trace_orbit (orbit0 : ℕ → point_t) (p : point_t) (delta epsilon : float) :
    orbit_vars :=
  let orig := p
  let r := sq_norm p
  orbit_loop delta epsilon orig IntegerCircle.MAX_ITERS
    { p := p
      orbit := Function.update orbit0 0 p
      orbit_len := 1
      radius := if float.lt (float.fin 0) r then r else radius_floor }

/-- What holds of the loop variables at every loop test. -/
structure orbit_inv (delta epsilon : float) (orig : point_t) (s : orbit_vars) : Prop where
  len_pos : 1 ≤ s.orbit_len
  len_le : s.orbit_len ≤ IntegerCircle.MAX_ITERS
  stored : ∀ i, i < s.orbit_len → s.orbit i = ic_iterate delta epsilon i orig
  rad_pos : float.lt (float.fin 0) s.radius = true
  rad_ge : ∀ i, i < s.orbit_len → float.lt s.radius (sq_norm (s.orbit i)) = false
  rad_attained : (∃ i, i < s.orbit_len ∧ s.radius = sq_norm (s.orbit i))
    ∨ (float.lt (float.fin 0) (sq_norm orig) = false ∧ s.radius = radius_floor)
  rad_init : float.lt s.radius
    (if float.lt (float.fin 0) (sq_norm orig) then sq_norm orig else radius_floor) = false

/-! ### The carried audio state in `float` arithmetic (lines 500-519) -/

/-- The state the sample loop carries, with `float` fields. -/
structure audio_vars where
  play_pt : point_t
  old_p : point_t
  volume : float
  start_volume : float
  old_volume : float
deriving DecidableEq

/-- The `double` constant `0.99995` of line 514. -/
def dampen_factor : ℚ :=
  round64 (99995 / 100000)

/-- The `double` constant `1.02` of line 517. -/
def attack_factor : ℚ :=
  round64 (102 / 100)

/-- The `double` constant `0.999` of line 519. -/
def old_factor : ℚ :=
  round64 (999 / 1000)

/-- The body of the sample loop at index `i` (lines 501-519) in `float` arithmetic: the
volumes are multiplied in `double` and stored as `float`. -/
def audio_sample (delta epsilon : float) (dampen : Bool) (steps i : ℕ) (s : audio_vars) :
    audio_vars :=
  let s1 : audio_vars :=
    if i % steps = 0 then
      { s with
        play_pt := ic_iter s.play_pt delta epsilon
        old_p := ic_iter s.old_p delta epsilon }
    else s
  let s2 : audio_vars :=
    if dampen then { s1 with volume := float.mul_d s1.volume dampen_factor } else s1
  let s3 : audio_vars :=
    if float.lt s2.start_volume (float.fin 1) then
      { s2 with start_volume := float.mul_d s2.start_volume attack_factor }
    else s2
  { s3 with old_volume := float.mul_d s3.old_volume old_factor }

/-- The sample loop of lines 500-530 in `float` arithmetic. -/
def audio_loop (delta epsilon : float) (dampen : Bool) (steps nsamples : ℕ)
    (s : audio_vars) : audio_vars :=
  (List.range nsamples).foldl (fun st i => audio_sample delta epsilon dampen steps i st) s

/-- One audio-fill pass (lines 492-530) in `float` arithmetic: `expect` is the host
request `saudio_expect()`. -/
def audio_fill (delta epsilon : float) (dampen : Bool) (steps expect : ℕ)
    (s : audio_vars) : audio_vars :=
  audio_loop delta epsilon dampen steps (IntegerCircle.audio_nsamples steps expect) s

/-! ### Parameter drift in `float` arithmetic (lines 134-138 and 404) -/

/-- Update the parameters to keep the period constant (`update_parameter`, lines
134-138) in `float` arithmetic: a `float` product, a `float` sum and a `float`
quotient. The two pointer arguments are passed in and returned as a pair. -/
def update_parameter (delta epsilon change : float) : float × float :=
  let product := float.mul delta epsilon
  let delta1 := float.add delta change
  let epsilon1 := float.div product delta1
  (delta1, epsilon1)

/-- A run of calls of `update_parameter`, one per entry of `changes`, each applied to
the pair the previous call left. -/
def update_parameter_seq (changes : List float) (pe : float × float) : float × float :=
  changes.foldl (fun q c => update_parameter q.1 q.2 c) pe

/-- The argument `state.move*0.00002` of line 404: the flag times the `double`
constant, converted to the `float` parameter `change`. -/
def move_change (move : Bool) : float :=
  to_float (round64 ((if move then 1 else 0) * round64 (2 / 100000)))

/-- Line 404 of `frame`:
`update_parameter(&state.params.epsilon, &state.params.delta, state.move*0.00002)`.
The call passes `epsilon` in the first position. Returns the new `(delta, epsilon)`. -/
def frame_move (delta epsilon : float) (move : Bool) : float × float :=
  let r := update_parameter epsilon delta (move_change move)
  (r.2, r.1)

/-- A call of `update_parameter` stays in the normal range of `float`: both arguments
and both results are finite, and the product of the arguments and the quotient of the
rounded product by the new first parameter are at least `2^-126` in magnitude, so that
neither is rounded with the reduced precision of a subnormal number. -/
def normal_call (delta epsilon change : float) : Bool :=
  match delta, epsilon, update_parameter delta epsilon change with
  | float.fin d, float.fin e, (float.fin d1, float.fin _) =>
    decide ((2 : ℚ) ^ (-126 : ℤ) ≤ |d * e|)
      && decide ((2 : ℚ) ^ (-126 : ℤ) ≤ |round32 (d * e) / d1|)
  | _, _, _ => false

/-- Every call of the run stays in the normal range. -/
def normal_run : float × float → List float → Bool
  | _, [] => true
  | pe, c :: cs =>
    normal_call pe.1 pe.2 c && normal_run (update_parameter pe.1 pe.2 c) cs

end Binary32

namespace IntegerCircle

/-! ## Basic facts -/

theorem eq_pt_iff (p q : point_t) : eq_pt p q = true ↔ p = q := by
  cases p; cases q
  simp [eq_pt]

theorem ic_iterate_zero (delta epsilon : ℚ) (p : point_t) :
    ic_iterate delta epsilon 0 p = p := rfl

theorem ic_iterate_succ (delta epsilon : ℚ) (n : ℕ) (p : point_t) :
    ic_iterate delta epsilon (n + 1) p
      = ic_iter (ic_iterate delta epsilon n p) delta epsilon := by
  unfold ic_iterate
  rw [Function.iterate_succ_apply']

theorem ic_iterate_add (delta epsilon : ℚ) (m n : ℕ) (p : point_t) :
    ic_iterate delta epsilon (m + n) p
      = ic_iterate delta epsilon m (ic_iterate delta epsilon n p) := by
  unfold ic_iterate
  rw [Function.iterate_add_apply]

/-! ## The orbit loop: invariant and exit condition -/

theorem orbit_loop_spec (delta epsilon : ℚ) (orig : point_t) :
    ∀ (fuel : ℕ) (s : orbit_vars), orbit_inv delta epsilon orig s →
      s.p = ic_iterate delta epsilon (s.orbit_len - 1) orig →
      MAX_ITERS ≤ fuel + s.orbit_len →
      orbit_inv delta epsilon orig (orbit_loop delta epsilon orig fuel s)
        ∧ ((orbit_loop delta epsilon orig fuel s).orbit_len < MAX_ITERS →
            ic_iterate delta epsilon (orbit_loop delta epsilon orig fuel s).orbit_len orig
              = orig) := by
  intro fuel
  induction fuel with
  | zero =>
    intro s hinv _ hfuel
    have hlen := hinv.len_le
    refine ⟨hinv, fun h => ?_⟩
    simp only [orbit_loop] at h
    omega
  | succ fuel ih =>
    intro s hinv hp hfuel
    have hpos := hinv.len_pos
    have hnext : ic_iter s.p delta epsilon = ic_iterate delta epsilon s.orbit_len orig := by
      rw [hp, ← ic_iterate_succ]
      congr 1
      omega
    by_cases hlt : s.orbit_len < MAX_ITERS
    · by_cases heq : eq_pt (ic_iter s.p delta epsilon) orig = true
      · have hres : orbit_loop delta epsilon orig (fuel + 1) s
            = { s with p := ic_iter s.p delta epsilon } := by
          simp [orbit_loop, hlt, heq]
        rw [hres]
        refine ⟨⟨hinv.len_pos, hinv.len_le, hinv.stored, hinv.no_return, hinv.rad_pos,
          hinv.rad_ge, hinv.rad_attained, hinv.rad_init⟩, fun _ => ?_⟩
        rw [← hnext]
        exact (eq_pt_iff _ _).1 heq
      · have hne : ic_iter s.p delta epsilon ≠ orig := fun h => heq ((eq_pt_iff _ _).2 h)
        have hres : orbit_loop delta epsilon orig (fuel + 1) s
            = orbit_loop delta epsilon orig fuel
                { p := ic_iter s.p delta epsilon
                  orbit := Function.update s.orbit s.orbit_len (ic_iter s.p delta epsilon)
                  orbit_len := s.orbit_len + 1
                  radius :=
                    if (ic_iter s.p delta epsilon).x * (ic_iter s.p delta epsilon).x
                        + (ic_iter s.p delta epsilon).y * (ic_iter s.p delta epsilon).y
                        > s.radius
                    then (ic_iter s.p delta epsilon).x * (ic_iter s.p delta epsilon).x
                        + (ic_iter s.p delta epsilon).y * (ic_iter s.p delta epsilon).y
                    else s.radius } := by
          simp [orbit_loop, hlt, heq]
        rw [hres]
        apply ih
        · generalize ic_iter s.p delta epsilon = q at hnext hne
          refine ⟨by simp, by simpa using hlt, ?_, ?_, ?_, ?_, ?_, ?_⟩
          · intro i hi
            simp only at hi ⊢
            by_cases hi2 : i = s.orbit_len
            · subst hi2
              simpa using hnext
            · rw [Function.update_noteq hi2]
              exact hinv.stored i (by omega)
          · intro k hk1 hk2
            simp only at hk2
            by_cases hk3 : k = s.orbit_len
            · subst hk3
              rw [← hnext]
              exact hne
            · exact hinv.no_return k hk1 (by omega)
          · simp only
            split_ifs with h
            · exact lt_trans hinv.rad_pos h
            · exact hinv.rad_pos
          · intro i hi
            simp only at hi ⊢
            by_cases hi2 : i = s.orbit_len
            · subst hi2
              simp only [Function.update_same]
              split_ifs with h
              · exact le_refl _
              · exact not_lt.1 h
            · rw [Function.update_noteq hi2]
              have := hinv.rad_ge i (by omega)
              split_ifs with h
              · exact le_trans this (le_of_lt h)
              · exact this
          · simp only
            split_ifs with h
            · exact Or.inl ⟨s.orbit_len, by omega, by simp⟩
            · rcases hinv.rad_attained with ⟨i, hi, hr⟩ | hr
              · refine Or.inl ⟨i, by omega, ?_⟩
                rw [Function.update_noteq (by omega)]
                exact hr
              · exact Or.inr hr
          · refine le_trans hinv.rad_init ?_
            simp only
            split_ifs with h
            · exact le_of_lt h
            · exact le_refl _
        · simpa using hnext
        · simp only
          omega
    · have hres : orbit_loop delta epsilon orig (fuel + 1) s = s := by
        simp [orbit_loop, hlt]
      rw [hres]
      exact ⟨hinv, fun h => absurd h hlt⟩

theorem trace_orbit_inv (orbit0 : ℕ → point_t) (p : point_t) (delta epsilon : ℚ) :
    orbit_inv delta epsilon p (trace_orbit orbit0 p delta epsilon)
      ∧ ((trace_orbit orbit0 p delta epsilon).orbit_len < MAX_ITERS →
          ic_iterate delta epsilon (trace_orbit orbit0 p delta epsilon).orbit_len p = p) := by
  unfold trace_orbit
  apply orbit_loop_spec
  · refine ⟨le_refl _, (by decide : 1 ≤ MAX_ITERS), ?_, ?_, ?_, ?_, ?_, le_refl _⟩
    · intro i hi
      simp only at hi
      have : i = 0 := by omega
      subst this
      simp [ic_iterate_zero]
    · intro k hk1 hk2
      simp only at hk2
      omega
    · simp only
      split_ifs with h
      · exact h
      · norm_num
    · intro i hi
      simp only at hi
      have : i = 0 := by omega
      subst this
      simp only [Function.update_same]
      split_ifs with h
      · exact le_refl _
      · exact le_trans (not_lt.1 h) (by norm_num)
    · simp only
      split_ifs with h
      · exact Or.inl ⟨0, by omega, by simp⟩
      · exact Or.inr ⟨not_lt.1 h, rfl⟩
  · simp [ic_iterate_zero]
  · simp

theorem orbit_loop_break (delta epsilon : ℚ) (orig : point_t) (fuel : ℕ) (s : orbit_vars)
    (hlt : s.orbit_len < MAX_ITERS) (h : ic_iter s.p delta epsilon = orig) :
    orbit_loop delta epsilon orig (fuel + 1) s = { s with p := orig } := by
  have heq : eq_pt (ic_iter s.p delta epsilon) orig = true := (eq_pt_iff _ _).2 h
  simp only [orbit_loop, hlt, heq, if_true]
  rw [h]

theorem orbit_loop_fuel (delta epsilon : ℚ) (orig : point_t) (extra : ℕ) :
    ∀ (fuel : ℕ) (s : orbit_vars), MAX_ITERS ≤ fuel + s.orbit_len →
      orbit_loop delta epsilon orig (fuel + extra) s
        = orbit_loop delta epsilon orig fuel s := by
  intro fuel
  induction fuel with
  | zero =>
    intro s hs
    have hnot : ¬ s.orbit_len < MAX_ITERS := by omega
    cases extra with
    | zero => rfl
    | succ e =>
      rw [show 0 + (e + 1) = e + 1 by omega]
      simp only [orbit_loop, hnot, if_false]
  | succ fuel ih =>
    intro s hs
    rw [show fuel + 1 + extra = (fuel + extra) + 1 by omega]
    by_cases h1 : s.orbit_len < MAX_ITERS
    · by_cases h2 : eq_pt (ic_iter s.p delta epsilon) orig = true
      · simp only [orbit_loop, h1, h2, if_true]
      · simp only [orbit_loop, h1, h2, if_true, if_false]
        exact ih _ (by simp only; omega)
    · simp only [orbit_loop, h1, if_false]

theorem ic_iter_origin (delta epsilon : ℚ) : ic_iter ⟨0, 0⟩ delta epsilon = ⟨0, 0⟩ := by
  simp [ic_iter]

/-- C5: for all real `delta`, `epsilon` with `delta*epsilon/2` in `(0, 1)`, in exact
real arithmetic `other_parameter (calculate_period delta epsilon) delta = epsilon`, and
hence `calculate_period delta (other_parameter (calculate_period delta epsilon) delta)
= calculate_period delta epsilon`. -/
theorem period_roundtrip (delta epsilon : ℝ) (h0 : 0 < delta * epsilon / 2)
    (h1 : delta * epsilon / 2 < 1) :
    calculate_period delta (other_parameter (calculate_period delta epsilon) delta)
        = calculate_period delta epsilon
      ∧ other_parameter (calculate_period delta epsilon) delta = epsilon := by
  have hback : other_parameter (calculate_period delta epsilon) delta = epsilon := by
    have hd : delta ≠ 0 := by
      rintro rfl
      simp at h0
    have hsqrt_pos : 0 < Real.sqrt (delta * epsilon / 2) := Real.sqrt_pos.2 h0
    have hsqrt_le : Real.sqrt (delta * epsilon / 2) ≤ 1 := by
      have h := Real.sqrt_le_sqrt (le_of_lt h1)
      rwa [Real.sqrt_one] at h
    have hasin_pos : 0 < Real.arcsin (Real.sqrt (delta * epsilon / 2)) :=
      Real.arcsin_pos.2 hsqrt_pos
    have hangle : Real.pi / calculate_period delta epsilon
        = Real.arcsin (Real.sqrt (delta * epsilon / 2)) := by
      unfold calculate_period
      field_simp
    unfold other_parameter
    simp only
    rw [hangle, Real.sin_arcsin (by linarith) hsqrt_le, mul_assoc,
      Real.mul_self_sqrt (le_of_lt h0)]
    field_simp
  exact ⟨by rw [hback], hback⟩

/-- Witness for C5: `delta = epsilon = 1`, where `delta*epsilon/2 = 1/2`. -/
theorem period_roundtrip_witness :
    (0 : ℝ) < 1 * 1 / 2 ∧ (1 : ℝ) * 1 / 2 < 1
      ∧ other_parameter (calculate_period 1 1) 1 = 1 :=
  ⟨by norm_num, by norm_num, (period_roundtrip 1 1 (by norm_num) (by norm_num)).2⟩

/-! ## Audio stepping -/

theorem advances_succ (steps n : ℕ) :
    advances steps (n + 1) = advances steps n + (if n % steps = 0 then 1 else 0) := by
  unfold advances
  rw [List.range_succ, List.countP_append]
  by_cases h : n % steps = 0 <;> simp [h]

theorem advances_eq (steps : ℕ) (hs : 0 < steps) (n : ℕ) :
    advances steps n = (n + steps - 1) / steps := by
  induction n with
  | zero =>
    have h : (0 + steps - 1) / steps = 0 := Nat.div_eq_of_lt (by omega)
    rw [h]
    rfl
  | succ n ih =>
    rw [advances_succ, ih]
    have hdm := Nat.div_add_mod n steps
    have hr := Nat.mod_lt n hs
    have hexp : (n / steps + 1) * steps = steps * (n / steps) + steps := by ring
    have hexp2 : (n / steps + 1 + 1) * steps = steps * (n / steps) + steps + steps := by ring
    have hexp3 : n / steps * steps = steps * (n / steps) := by ring
    by_cases h : n % steps = 0
    · rw [if_pos h]
      have ha : (n + steps - 1) / steps = n / steps :=
        Nat.div_eq_of_lt_le (by omega) (by omega)
      have hb : (n + 1 + steps - 1) / steps = n / steps + 1 :=
        Nat.div_eq_of_lt_le (by omega) (by omega)
      rw [ha, hb]
    · rw [if_neg h]
      have ha : (n + steps - 1) / steps = n / steps + 1 :=
        Nat.div_eq_of_lt_le (by omega) (by omega)
      have hb : (n + 1 + steps - 1) / steps = n / steps + 1 :=
        Nat.div_eq_of_lt_le (by omega) (by omega)
      rw [ha, hb]

theorem advances_mul (steps : ℕ) (hs : 0 < steps) (k : ℕ) :
    advances steps (steps * k) = k := by
  rw [advances_eq steps hs]
  have hexp : (k + 1) * steps = steps * k + steps := by ring
  have hexp2 : k * steps = steps * k := by ring
  exact Nat.div_eq_of_lt_le (by omega) (by omega)

theorem audio_loop_succ (delta epsilon : ℚ) (dampen : Bool) (steps n : ℕ) (s : audio_vars) :
    audio_loop delta epsilon dampen steps (n + 1) s
      = audio_sample delta epsilon dampen steps n
          (audio_loop delta epsilon dampen steps n s) := by
  unfold audio_loop
  rw [List.range_succ, List.foldl_append]
  rfl

theorem audio_sample_play_pt (delta epsilon : ℚ) (dampen : Bool) (steps i : ℕ)
    (s : audio_vars) :
    (audio_sample delta epsilon dampen steps i s).play_pt
      = if i % steps = 0 then ic_iter s.play_pt delta epsilon else s.play_pt := by
  unfold audio_sample
  by_cases h : i % steps = 0 <;> simp only [h, if_true, if_false] <;>
    split_ifs <;> rfl

theorem audio_loop_play_pt (delta epsilon : ℚ) (dampen : Bool) (steps n : ℕ)
    (s : audio_vars) :
    (audio_loop delta epsilon dampen steps n s).play_pt
      = ic_iterate delta epsilon (advances steps n) s.play_pt := by
  induction n with
  | zero => rfl
  | succ n ih =>
    rw [audio_loop_succ, audio_sample_play_pt, ih, advances_succ]
    by_cases h : n % steps = 0
    · rw [if_pos h, if_pos h, ic_iterate_succ]
    · rw [if_neg h, if_neg h]
      rfl

theorem main_audio_loop_succ (delta epsilon : ℚ) (dampen : Bool) (steps n : ℕ)
    (s : Main.audio_vars) :
    Main.audio_loop delta epsilon dampen steps (n + 1) s
      = Main.audio_sample delta epsilon dampen steps n
          (Main.audio_loop delta epsilon dampen steps n s) := by
  unfold Main.audio_loop
  rw [List.range_succ, List.foldl_append]
  rfl

theorem main_audio_sample_play_pt (delta epsilon : ℚ) (dampen : Bool) (steps i : ℕ)
    (s : Main.audio_vars) :
    (Main.audio_sample delta epsilon dampen steps i s).play_pt
      = if i % steps = 0 then ic_iter s.play_pt delta epsilon else s.play_pt := by
  unfold Main.audio_sample
  by_cases h : i % steps = 0 <;> simp only [h, if_true, if_false] <;>
    split_ifs <;> rfl

theorem main_audio_loop_play_pt (delta epsilon : ℚ) (dampen : Bool) (steps n : ℕ)
    (s : Main.audio_vars) :
    (Main.audio_loop delta epsilon dampen steps n s).play_pt
      = ic_iterate delta epsilon (advances steps n) s.play_pt := by
  induction n with
  | zero => rfl
  | succ n ih =>
    rw [main_audio_loop_succ, main_audio_sample_play_pt, ih, advances_succ]
    by_cases h : n % steps = 0
    · rw [if_pos h, if_pos h, ic_iterate_succ]
    · rw [if_neg h, if_neg h]
      rfl

/-- C7, as the code has it: with a positive step length, an audio-fill pass of
`integer_circle.c` for a host request of `n` samples renders `steps * floor(n/steps)`
samples, at most `n`, and advances the playing point exactly `floor(n/steps)` times,
once per rendered step, so two consecutive passes with requests `n1` then `n2` advance it
`floor(n1/steps) + floor(n2/steps)` times, which is `floor((n1+n2)/steps)` or one
less; a pass of `main.c` advances it `1 + floor(n/steps)` times. No sample count is
carried from one pass to the next. -/
theorem audio_fill_advances (delta epsilon : ℚ) (dampen : Bool) (steps n1 n2 : ℕ)
    (s : audio_vars) (m : Main.audio_vars) (hs : 0 < steps) :
    advances steps (audio_nsamples steps n1) = n1 / steps
      ∧ advances steps (audio_nsamples steps n2) = n2 / steps
      ∧ (audio_fill delta epsilon dampen steps n1 s).play_pt
          = ic_iterate delta epsilon (n1 / steps) s.play_pt
      ∧ (audio_fill delta epsilon dampen steps n2
            (audio_fill delta epsilon dampen steps n1 s)).play_pt
          = ic_iterate delta epsilon (n1 / steps + n2 / steps) s.play_pt
      ∧ n1 / steps + n2 / steps ≤ (n1 + n2) / steps
      ∧ (n1 + n2) / steps ≤ n1 / steps + n2 / steps + 1
      ∧ audio_nsamples steps n1 ≤ n1
      ∧ audio_nsamples steps n1 = steps * advances steps (audio_nsamples steps n1)
      ∧ advances steps (Main.audio_nsamples steps n1) = 1 + n1 / steps
      ∧ (Main.audio_fill delta epsilon dampen steps n1 m).play_pt
          = ic_iterate delta epsilon (1 + n1 / steps) m.play_pt := by
  have h1 : advances steps (audio_nsamples steps n1) = n1 / steps :=
    advances_mul steps hs _
  have h2 : advances steps (audio_nsamples steps n2) = n2 / steps :=
    advances_mul steps hs _
  have h3 : advances steps (Main.audio_nsamples steps n1) = 1 + n1 / steps :=
    advances_mul steps hs _
  refine ⟨h1, h2, ?_, ?_, ?_, ?_, ?_, ?_, h3, ?_⟩
  · unfold audio_fill
    rw [audio_loop_play_pt, h1]
  · unfold audio_fill
    rw [audio_loop_play_pt, audio_loop_play_pt, h1, h2, add_comm, ic_iterate_add]
  · rw [Nat.add_div hs]
    omega
  · rw [Nat.add_div hs]
    split_ifs <;> omega
  · exact Nat.mul_div_le n1 steps
  · rw [h1]
    rfl
  · unfold Main.audio_fill
    rw [main_audio_loop_play_pt, h3]

/-- Witness for C7 as amended: `steps = 15` (48000 Hz), requests of `20` and `25`
samples, from the point `(1, 0)` with the start-up parameters. -/
theorem audio_fill_advances_witness :
    0 < audio_steps 48000
      ∧ advances (audio_steps 48000) (audio_nsamples (audio_steps 48000) 20) = 20 / audio_steps 48000
      ∧ advances (audio_steps 48000) (audio_nsamples (audio_steps 48000) 25) = 25 / audio_steps 48000 :=
  ⟨by decide,
    (audio_fill_advances (1 / 2) (1381966 / 1000000) false (audio_steps 48000) 20 25
      ⟨⟨1, 0⟩, ⟨0, 0⟩, 1, 1, 0⟩ ⟨⟨1, 0⟩, 1⟩ (by decide)).1,
    (audio_fill_advances (1 / 2) (1381966 / 1000000) false (audio_steps 48000) 20 25
      ⟨⟨1, 0⟩, ⟨0, 0⟩, 1, 1, 0⟩ ⟨⟨1, 0⟩, 1⟩ (by decide)).2.1⟩

/-- C7 as stated fails: at 48000 Hz (`steps = 15`) two consecutive requests of `8`
samples (`8` is not a multiple of `15`) advance the playing point `0 + 0` times, not
`floor((8+8)/15) = 1` time: from `(1, 0)` with the start-up parameters the playing
point is still `(1, 0)`, while one advance would have moved it to `(1, 1)`. -/
theorem audio_fill_advances_counterexample :
    audio_steps 48000 = 15
      ∧ 8 % audio_steps 48000 ≠ 0
      ∧ advances (audio_steps 48000) (audio_nsamples (audio_steps 48000) 8)
          + advances (audio_steps 48000) (audio_nsamples (audio_steps 48000) 8)
          ≠ (8 + 8) / audio_steps 48000
      ∧ (audio_fill (1 / 2) (1381966 / 1000000) false (audio_steps 48000) 8
          (audio_fill (1 / 2) (1381966 / 1000000) false (audio_steps 48000) 8
            ⟨⟨1, 0⟩, ⟨0, 0⟩, 1, 1, 0⟩)).play_pt = ⟨1, 0⟩
      ∧ ic_iterate (1 / 2) (1381966 / 1000000) ((8 + 8) / audio_steps 48000) ⟨1, 0⟩
          = ⟨1, 1⟩ := by
  refine ⟨by decide, by decide, by decide, by decide!, by decide!⟩

/-! ## Cosine interpolation -/

theorem interp_weight_continuous : Continuous interp_weight := by
  unfold interp_weight
  fun_prop

theorem interp_weight_one : interp_weight 1 = 1 := by
  unfold interp_weight
  rw [mul_one, Real.cos_pi]
  norm_num

theorem interp_weight_mono : MonotoneOn interp_weight (Set.Icc 0 1) := by
  intro a ha b hb hab
  have hpi := Real.pi_pos
  have hcos : Real.cos (Real.pi * b) ≤ Real.cos (Real.pi * a) := by
    apply Real.cos_le_cos_of_nonneg_of_le_pi
    · exact mul_nonneg hpi.le ha.1
    · nlinarith [hb.2]
    · exact mul_le_mul_of_nonneg_left hab hpi.le
  unfold interp_weight
  linarith

theorem interp_weight_lt_one (t : ℝ) (h0 : 0 ≤ t) (h1 : t < 1) : interp_weight t < 1 := by
  have hpi := Real.pi_pos
  have hcos : Real.cos Real.pi < Real.cos (Real.pi * t) := by
    apply Real.strictAntiOn_cos
    · exact ⟨mul_nonneg hpi.le h0, by nlinarith⟩
    · exact ⟨hpi.le, le_refl _⟩
    · nlinarith
  rw [Real.cos_pi] at hcos
  unfold interp_weight
  linarith

theorem interp_weight_nonneg (t : ℝ) : 0 ≤ interp_weight t := by
  have := Real.cos_le_one (Real.pi * t)
  unfold interp_weight
  linarith

theorem interp_t_mem (steps i : ℕ) (hs : 0 < steps) :
    0 ≤ interp_t steps i ∧ interp_t steps i < 1 := by
  have hsR : (0 : ℝ) < (steps : ℝ) := by exact_mod_cast hs
  have hlt : ((i % steps : ℕ) : ℝ) < (steps : ℝ) := by exact_mod_cast Nat.mod_lt i hs
  unfold interp_t
  exact ⟨div_nonneg (Nat.cast_nonneg _) hsR.le, (div_lt_one hsR).2 hlt⟩

/-- C8: the weight `w(t) = 0.5 - 0.5*cos(pi*t)` has `w(0) = 0`, so the interpolated
value `(1-w)*prev + w*next` at `t = 0` is `prev` exactly; `w(t)` tends to `1` as
`t → 1`, so the value tends to `next`; `w` is monotone non-decreasing on `[0, 1]`;
hence, for a positive step length, the weights at the sample offsets
`i % steps` within a step (`t = offset/steps`) are non-decreasing in the offset and lie
in `[0, 1)`. -/
theorem interp_weight_spec (prev next : ℝ) (steps i j : ℕ) (hs : 0 < steps)
    (hij : i % steps ≤ j % steps) :
    interp_weight 0 = 0
      ∧ interp_value (interp_weight 0) prev next = prev
      ∧ Filter.Tendsto interp_weight (nhds 1) (nhds 1)
      ∧ Filter.Tendsto (fun t => interp_value (interp_weight t) prev next) (nhds 1)
          (nhds next)
      ∧ MonotoneOn interp_weight (Set.Icc 0 1)
      ∧ interp_weight (interp_t steps i) ≤ interp_weight (interp_t steps j)
      ∧ 0 ≤ interp_weight (interp_t steps i)
      ∧ interp_weight (interp_t steps i) < 1 := by
  have hzero : interp_weight 0 = 0 := by
    unfold interp_weight
    rw [mul_zero, Real.cos_zero]
    norm_num
  have hlim : Filter.Tendsto interp_weight (nhds 1) (nhds 1) := by
    have h := interp_weight_continuous.tendsto 1
    rwa [interp_weight_one] at h
  have hi := interp_t_mem steps i hs
  have hj := interp_t_mem steps j hs
  refine ⟨hzero, ?_, hlim, ?_, interp_weight_mono, ?_, interp_weight_nonneg _,
    interp_weight_lt_one _ hi.1 hi.2⟩
  · rw [hzero]
    unfold interp_value
    ring
  · have hcont : Continuous (fun t => interp_value (interp_weight t) prev next) := by
      unfold interp_value
      have := interp_weight_continuous
      fun_prop
    have h := hcont.tendsto 1
    simp only [interp_weight_one, interp_value] at h
    simpa using h
  · apply interp_weight_mono ⟨hi.1, hi.2.le⟩ ⟨hj.1, hj.2.le⟩
    have hsR : (0 : ℝ) < (steps : ℝ) := by exact_mod_cast hs
    have hle : ((i % steps : ℕ) : ℝ) ≤ ((j % steps : ℕ) : ℝ) := by exact_mod_cast hij
    unfold interp_t
    exact div_le_div_of_nonneg_right hle hsR.le

/-- Witness for C8: `steps = 15`, sample indices `18` and `22` (offsets `3` and `7`). -/
theorem interp_weight_spec_witness :
    0 < 15 ∧ 18 % 15 ≤ 22 % 15
      ∧ interp_weight (interp_t 15 18) ≤ interp_weight (interp_t 15 22)
      ∧ interp_weight (interp_t 15 18) < 1 :=
  ⟨by decide, by decide,
    (interp_weight_spec 0 1 15 18 22 (by decide) (by decide)).2.2.2.2.2.1,
    (interp_weight_spec 0 1 15 18 22 (by decide) (by decide)).2.2.2.2.2.2.2⟩

/-! ## The start-up orbit -/

theorem trace_orbit_len_of_first_return (orbit0 : ℕ → point_t) (s : point_t)
    (delta epsilon : ℚ) (n : ℕ) (hn1 : 1 ≤ n) (hn : n < MAX_ITERS)
    (hret : ic_iterate delta epsilon n s = s)
    (hfirst : ∀ k, k < n → 1 ≤ k → ic_iterate delta epsilon k s ≠ s) :
    (trace_orbit orbit0 s delta epsilon).orbit_len = n := by
  obtain ⟨hinv, hclosed⟩ := trace_orbit_inv orbit0 s delta epsilon
  have hpos := hinv.len_pos
  have hle : (trace_orbit orbit0 s delta epsilon).orbit_len ≤ n := by
    by_contra hcon
    exact hinv.no_return n hn1 (by omega) hret
  have hback := hclosed (by omega)
  by_contra hne
  exact hfirst _ (by omega) hpos hback

/-- C9: tracing from the seed `(1, 0)` with `delta = 0.5`, `epsilon = 1.381966` and cap
`16384` terminates closed with `orbit_len = 24`: the 24th iterate of `(1, 0)` is
`(1, 0)` and no smaller positive iterate is. The same holds when `epsilon` is the
`float` nearest to `1.381966`, which is `11592771 / 2^23`. -/
theorem default_orbit_closed (orbit0 : ℕ → point_t) :
    (trace_orbit orbit0 ⟨1, 0⟩ (1 / 2) (1381966 / 1000000)).orbit_len = 24
      ∧ 1 ≤ 24 ∧ 24 < 16384
      ∧ ic_iterate (1 / 2) (1381966 / 1000000) 24 ⟨1, 0⟩ = ⟨1, 0⟩
      ∧ (∀ k, k < 24 → 1 ≤ k → ic_iterate (1 / 2) (1381966 / 1000000) k ⟨1, 0⟩ ≠ ⟨1, 0⟩)
      ∧ (trace_orbit orbit0 ⟨1, 0⟩ (1 / 2) (11592771 / 8388608)).orbit_len = 24 := by
  have hret : ic_iterate (1 / 2) (1381966 / 1000000) 24 ⟨1, 0⟩ = ⟨1, 0⟩ := by decide!
  have hfirst : ∀ k, k < 24 → 1 ≤ k →
      ic_iterate (1 / 2) (1381966 / 1000000) k ⟨1, 0⟩ ≠ ⟨1, 0⟩ := by decide!
  have hret2 : ic_iterate (1 / 2) (11592771 / 8388608) 24 ⟨1, 0⟩ = ⟨1, 0⟩ := by decide!
  have hfirst2 : ∀ k, k < 24 → 1 ≤ k →
      ic_iterate (1 / 2) (11592771 / 8388608) k ⟨1, 0⟩ ≠ ⟨1, 0⟩ := by decide!
  have hcap : 24 < MAX_ITERS := by decide
  exact ⟨trace_orbit_len_of_first_return orbit0 _ _ _ 24 (by decide) hcap hret hfirst,
    by decide, by decide, hret, hfirst,
    trace_orbit_len_of_first_return orbit0 _ _ _ 24 (by decide) hcap hret2 hfirst2⟩

/-! ## Note keys -/

theorem note_code_val (d : ℕ) : (note_code d : ℕ) = (d + 9) % 10 := rfl

theorem key_down_digit_params (to_float : ℝ → ℚ) (RAND_MAX r0 r1 r2 : ℕ)
    (mouse_x mouse_y : ℤ) (d : ℕ) (s : state_t) :
    (key_down_digit to_float RAND_MAX r0 r1 r2 mouse_x mouse_y d false s).params.delta
        = note_delta r1 r2
      ∧ (key_down_digit to_float RAND_MAX r0 r1 r2 mouse_x mouse_y d false s).params.epsilon
        = to_float (other_parameter
            ((note_period s.octave d + note_pertrubation RAND_MAX r0 : ℚ) : ℝ)
            ((note_delta r1 r2 : ℚ) : ℝ)) := by
  unfold key_down_digit
  by_cases hv : s.params.view = true <;> simp [hv]

/-- C11: on a non-repeat key-down of the digit key `d` (`0..9`) the note index is
`(d + 9) mod 10`, so digits `1..9` select `NOTES[d-1]` and digit `0` selects the last
entry `NOTES[9] = 4/3`; the target period before perturbation is
`6 * octave / NOTES[index]`, which for key `6` (ratio `1`) is exactly `6 * octave`, and
it is this period, perturbed, that the handler passes to `other_parameter`; a key-down
with the repeat flag set returns the state unchanged. -/
theorem key_down_digit_spec (to_float : ℝ → ℚ) (RAND_MAX r0 r1 r2 : ℕ)
    (mouse_x mouse_y : ℤ) (d : ℕ) (s : state_t) (hd : d ≤ 9) :
    (note_code d : ℕ) = (d + 9) % 10
      ∧ (1 ≤ d → (note_code d : ℕ) = d - 1)
      ∧ (note_code 0 : ℕ) = 9
      ∧ NOTES (note_code 0) = 4 / 3
      ∧ note_period s.octave d = 6 * s.octave / NOTES (note_code d)
      ∧ NOTES (note_code 6) = 1
      ∧ note_period s.octave 6 = 6 * s.octave
      ∧ (key_down_digit to_float RAND_MAX r0 r1 r2 mouse_x mouse_y d false s).params.epsilon
          = to_float (other_parameter
              ((note_period s.octave d + note_pertrubation RAND_MAX r0 : ℚ) : ℝ)
              ((note_delta r1 r2 : ℚ) : ℝ))
      ∧ key_down_digit to_float RAND_MAX r0 r1 r2 mouse_x mouse_y d true s = s := by
  have h6 : NOTES (note_code 6) = 1 := by decide!
  refine ⟨rfl, ?_, rfl, by decide!, rfl, h6, ?_,
    (key_down_digit_params to_float RAND_MAX r0 r1 r2 mouse_x mouse_y d s).2, ?_⟩
  · intro h1
    rw [note_code_val]
    omega
  · unfold note_period
    rw [h6, div_one]
  · simp [key_down_digit]

/-- Witness for C11: the key `6` pressed in the initial state, where `octave = 1`. -/
theorem key_down_digit_spec_witness :
    6 ≤ 9 ∧ (1 ≤ 6 → (note_code 6 : ℕ) = 6 - 1)
      ∧ note_period state_init.octave 6 = 6 * state_init.octave :=
  ⟨by decide,
    (key_down_digit_spec (fun _ => 0) 2147483647 0 0 0 0 0 6 state_init (by decide)).2.1,
    (key_down_digit_spec (fun _ => 0) 2147483647 0 0 0 0 0 6 state_init
      (by decide)).2.2.2.2.2.2.1⟩

/-- C12: for every pair of pseudo-random draws `r1`, `r2` the delta chosen on a note
trigger, `(r1 mod 12 + 1)/(r2 mod 16 + 4) + 0.5`, lies in `[0.5, 3.5]` and is strictly
positive; the upper bound `3.5` is attained (at `r1 = 11`, `r2 = 0`); this value is the
`delta` the key handler stores and passes to `other_parameter`. -/
theorem note_delta_range (to_float : ℝ → ℚ) (RAND_MAX r0 r1 r2 : ℕ)
    (mouse_x mouse_y : ℤ) (d : ℕ) (s : state_t) :
    1 / 2 ≤ note_delta r1 r2
      ∧ note_delta r1 r2 ≤ 7 / 2
      ∧ 0 < note_delta r1 r2
      ∧ note_delta 11 0 = 7 / 2
      ∧ (key_down_digit to_float RAND_MAX r0 r1 r2 mouse_x mouse_y d false s).params.delta
          = note_delta r1 r2 := by
  have hn1 : r1 % 12 + 1 ≤ 12 := by
    have := Nat.mod_lt r1 (by decide : 0 < 12)
    omega
  have hm1 : 4 ≤ r2 % 16 + 4 := by omega
  have hn : ((r1 % 12 + 1 : ℕ) : ℚ) ≤ 12 := by exact_mod_cast hn1
  have hm : (4 : ℚ) ≤ ((r2 % 16 + 4 : ℕ) : ℚ) := by exact_mod_cast hm1
  have hmpos : (0 : ℚ) < ((r2 % 16 + 4 : ℕ) : ℚ) := by linarith
  have hq0 : (0 : ℚ) ≤ ((r1 % 12 + 1 : ℕ) : ℚ) / ((r2 % 16 + 4 : ℕ) : ℚ) :=
    div_nonneg (Nat.cast_nonneg _) hmpos.le
  have hq3 : ((r1 % 12 + 1 : ℕ) : ℚ) / ((r2 % 16 + 4 : ℕ) : ℚ) ≤ 3 := by
    rw [div_le_iff₀ hmpos]
    linarith
  refine ⟨?_, ?_, ?_, by decide!,
    (key_down_digit_params to_float RAND_MAX r0 r1 r2 mouse_x mouse_y d s).1⟩
  · unfold note_delta
    linarith
  · unfold note_delta
    linarith
  · unfold note_delta
    linarith

/-! ## Point selection -/

/-- C13: `set_point p` stores the playback state it finds in the old slot,
`old.p = play_pt` and `old.volume = volume * start_volume` as they were before the
call, and leaves `volume = 1` and `params_changed = true`, for every `p` and in both
views; in the lattice view it leaves `params.p = floor_pt p`. -/
theorem set_point_spec (s : state_t) (p : point_t) :
    (set_point s p).old.p = s.play_pt
      ∧ (set_point s p).old.volume = s.volume * s.start_volume
      ∧ (set_point s p).volume = 1
      ∧ (set_point s p).params_changed = true
      ∧ (s.params.view = true → (set_point s p).params.p = floor_pt p) := by
  unfold set_point remember_old_params
  by_cases hv : s.params.view = true
  · by_cases he : eq_pt s.params.p (floor_pt p) = true
    · have hpe := (eq_pt_iff _ _).1 he
      simp [hv, he]
      exact hpe
    · simp [hv, he]
  · simp [hv]

/-- Witness for C13: a click at `(5/2, -1/3)` in the initial state, which is in the
lattice view. -/
theorem set_point_spec_witness :
    state_init.params.view = true
      ∧ (set_point state_init ⟨5 / 2, -1 / 3⟩).params.p = floor_pt ⟨5 / 2, -1 / 3⟩ :=
  ⟨rfl, (set_point_spec state_init ⟨5 / 2, -1 / 3⟩).2.2.2.2 rfl⟩

/-! ## Volume envelopes -/

theorem audio_sample_old_volume (delta epsilon : ℚ) (dampen : Bool) (steps i : ℕ)
    (s : audio_vars) :
    (audio_sample delta epsilon dampen steps i s).old_volume
      = s.old_volume * (999 / 1000) := by
  unfold audio_sample
  simp only
  split_ifs <;> rfl

theorem audio_sample_old_p (delta epsilon : ℚ) (dampen : Bool) (steps i : ℕ)
    (s : audio_vars) :
    (audio_sample delta epsilon dampen steps i s).old_p
      = if i % steps = 0 then ic_iter s.old_p delta epsilon else s.old_p := by
  unfold audio_sample
  simp only
  split_ifs <;> rfl

theorem audio_loop_old_volume (delta epsilon : ℚ) (dampen : Bool) (steps n : ℕ)
    (s : audio_vars) :
    (audio_loop delta epsilon dampen steps n s).old_volume
      = s.old_volume * (999 / 1000) ^ n := by
  induction n with
  | zero => simp [audio_loop]
  | succ n ih =>
    rw [audio_loop_succ, audio_sample_old_volume, ih, pow_succ, mul_assoc]

theorem audio_loop_old_p (delta epsilon : ℚ) (dampen : Bool) (steps n : ℕ)
    (s : audio_vars) :
    (audio_loop delta epsilon dampen steps n s).old_p
      = ic_iterate delta epsilon (advances steps n) s.old_p := by
  induction n with
  | zero => rfl
  | succ n ih =>
    rw [audio_loop_succ, audio_sample_old_p, ih, advances_succ]
    by_cases h : n % steps = 0
    · rw [if_pos h, if_pos h, ic_iterate_succ]
    · rw [if_neg h, if_neg h]
      rfl

/-! ## Sample synthesis: closed form of the buffer -/

theorem synth_loop_succ (delta epsilon : ℚ) (dampen : Bool) (scale old_scale : ℚ)
    (steps n : ℕ) (s : synth_vars) :
    synth_loop delta epsilon dampen scale old_scale steps (n + 1) s
      = synth_sample delta epsilon dampen scale old_scale steps n
          (synth_loop delta epsilon dampen scale old_scale steps n s) := by
  unfold synth_loop
  rw [List.range_succ, List.foldl_append]
  rfl

theorem advances_pos (steps n : ℕ) : 1 ≤ advances steps (n + 1) := by
  induction n with
  | zero =>
    rw [advances_succ]
    simp [advances]
  | succ n ih =>
    rw [advances_succ]
    omega

theorem synth_sample_inv (delta epsilon : ℚ) (dampen : Bool) (scale old_scale : ℚ)
    (steps : ℕ) (st0 : audio_vars) (n : ℕ) (s : synth_vars)
    (h : synth_inv delta epsilon dampen scale old_scale steps st0 n s) :
    synth_inv delta epsilon dampen scale old_scale steps st0 (n + 1)
      (synth_sample delta epsilon dampen scale old_scale steps n s) := by
  have hst : (synth_sample delta epsilon dampen scale old_scale steps n s).st
      = audio_loop delta epsilon dampen steps (n + 1) st0 := by
    rw [audio_loop_succ, ← h.carried]
    rfl
  have hplay := audio_loop_play_pt delta epsilon dampen steps (n + 1) st0
  have hplay0 := audio_loop_play_pt delta epsilon dampen steps n st0
  have hold := audio_loop_old_p delta epsilon dampen steps (n + 1) st0
  have hold0 := audio_loop_old_p delta epsilon dampen steps n st0
  have hadv := advances_succ steps n
  have hcur : (synth_sample delta epsilon dampen scale old_scale steps n s).p
      = scale_pt (ic_iterate delta epsilon (advances steps (n + 1)) st0.play_pt) scale := by
    show (if n % steps = 0 then
        scale_pt (audio_sample delta epsilon dampen steps n s.st).play_pt scale
      else s.p) = _
    by_cases hg : n % steps = 0
    · rw [if_pos hg, h.carried, ← audio_loop_succ, hplay]
    · rw [if_neg hg, h.cur, h.carried, hplay0, hadv, if_neg hg]
      rfl
  have hocur : (synth_sample delta epsilon dampen scale old_scale steps n s).op
      = scale_pt (ic_iterate delta epsilon (advances steps (n + 1)) st0.old_p) old_scale := by
    show (if n % steps = 0 then
        scale_pt (audio_sample delta epsilon dampen steps n s.st).old_p old_scale
      else s.op) = _
    by_cases hg : n % steps = 0
    · rw [if_pos hg, h.carried, ← audio_loop_succ, hold]
    · rw [if_neg hg, h.old_cur, h.carried, hold0, hadv, if_neg hg]
      rfl
  have hprev : (synth_sample delta epsilon dampen scale old_scale steps n s).prev
      = scale_pt (ic_iterate delta epsilon (advances steps (n + 1) - 1) st0.play_pt)
          scale := by
    show (if n % steps = 0 then s.p else s.prev) = _
    by_cases hg : n % steps = 0
    · rw [if_pos hg, h.cur, h.carried, hplay0, hadv, if_pos hg]
      rfl
    · have hn : 1 ≤ n := by
        rcases Nat.eq_zero_or_pos n with h0 | h0
        · exact absurd (by rw [h0]; exact Nat.zero_mod steps) hg
        · exact h0
      rw [if_neg hg, h.before hn, hadv, if_neg hg]
      rfl
  have hoprev : (synth_sample delta epsilon dampen scale old_scale steps n s).oprev
      = scale_pt (ic_iterate delta epsilon (advances steps (n + 1) - 1) st0.old_p)
          old_scale := by
    show (if n % steps = 0 then s.op else s.oprev) = _
    by_cases hg : n % steps = 0
    · rw [if_pos hg, h.old_cur, h.carried, hold0, hadv, if_pos hg]
      rfl
    · have hn : 1 ≤ n := by
        rcases Nat.eq_zero_or_pos n with h0 | h0
        · exact absurd (by rw [h0]; exact Nat.zero_mod steps) hg
        · exact h0
      rw [if_neg hg, h.old_before hn, hadv, if_neg hg]
      rfl
  have hbuf : (synth_sample delta epsilon dampen scale old_scale steps n s).audio_buffer
      = Function.update
          (Function.update s.audio_buffer (2 * n)
            ((((synth_sample delta epsilon dampen scale old_scale steps n s).st.volume
                * (synth_sample delta epsilon dampen scale old_scale steps n s).st.start_volume
                : ℚ) : ℝ)
              * interp_value (interp_weight (interp_t steps n))
                  (synth_sample delta epsilon dampen scale old_scale steps n s).prev.x
                  (synth_sample delta epsilon dampen scale old_scale steps n s).p.x
            + ((synth_sample delta epsilon dampen scale old_scale steps n s).st.old_volume : ℝ)
              * interp_value (interp_weight (interp_t steps n))
                  (synth_sample delta epsilon dampen scale old_scale steps n s).oprev.x
                  (synth_sample delta epsilon dampen scale old_scale steps n s).op.x))
          (2 * n + 1)
          ((((synth_sample delta epsilon dampen scale old_scale steps n s).st.volume
                * (synth_sample delta epsilon dampen scale old_scale steps n s).st.start_volume
                : ℚ) : ℝ)
              * interp_value (interp_weight (interp_t steps n))
                  (synth_sample delta epsilon dampen scale old_scale steps n s).prev.y
                  (synth_sample delta epsilon dampen scale old_scale steps n s).p.y
            + ((synth_sample delta epsilon dampen scale old_scale steps n s).st.old_volume : ℝ)
              * interp_value (interp_weight (interp_t steps n))
                  (synth_sample delta epsilon dampen scale old_scale steps n s).oprev.y
                  (synth_sample delta epsilon dampen scale old_scale steps n s).op.y) := rfl
  refine ⟨hst, ?_, ?_, fun _ => hprev, fun _ => hoprev, ?_, ?_⟩
  · rw [hcur, hst, hplay]
  · rw [hocur, hst, hold]
  · intro i hi
    rw [hbuf]
    by_cases hin : i = n
    · subst hin
      rw [Function.update_noteq (by omega), Function.update_same, hst, hprev, hcur,
        hoprev, hocur]
      rfl
    · rw [Function.update_noteq (by omega), Function.update_noteq (by omega)]
      exact h.left i (by omega)
  · intro i hi
    rw [hbuf]
    by_cases hin : i = n
    · subst hin
      rw [Function.update_same, hst, hprev, hcur, hoprev, hocur]
      rfl
    · rw [Function.update_noteq (by omega), Function.update_noteq (by omega)]
      exact h.right i (by omega)

theorem synth_loop_inv (delta epsilon : ℚ) (dampen : Bool) (scale old_scale : ℚ)
    (steps : ℕ) (s0 : synth_vars) (hp : s0.p = scale_pt s0.st.play_pt scale)
    (hop : s0.op = scale_pt s0.st.old_p old_scale) (n : ℕ) :
    synth_inv delta epsilon dampen scale old_scale steps s0.st n
      (synth_loop delta epsilon dampen scale old_scale steps n s0) := by
  induction n with
  | zero =>
    exact ⟨rfl, hp, hop, fun h => absurd h (by decide), fun h => absurd h (by decide),
      fun i hi => absurd hi (Nat.not_lt_zero i), fun i hi => absurd hi (Nat.not_lt_zero i)⟩
  | succ n ih =>
    rw [synth_loop_succ]
    exact synth_sample_inv _ _ _ _ _ _ _ _ _ ih

theorem synth_fill_inv (delta epsilon : ℚ) (dampen : Bool) (radius : ℚ)
    (steps expect : ℕ) (st : audio_vars) (audio_buffer : ℕ → ℝ) :
    synth_inv delta epsilon dampen (1 / radius) (1 / radius) steps st
      (audio_nsamples steps expect)
      (synth_fill delta epsilon dampen radius steps expect st audio_buffer) := by
  unfold synth_fill
  exact synth_loop_inv delta epsilon dampen (1 / radius) (1 / radius) steps
    { st := st
      prev := scale_pt st.play_pt (1 / radius)
      p := scale_pt st.play_pt (1 / radius)
      oprev := scale_pt st.old_p (1 / radius)
      op := scale_pt st.old_p (1 / radius)
      audio_buffer := audio_buffer } rfl rfl (audio_nsamples steps expect)

/-! ## The Space key -/

theorem ic_iterate_origin (delta epsilon : ℚ) (n : ℕ) :
    ic_iterate delta epsilon n ⟨0, 0⟩ = ⟨0, 0⟩ := by
  induction n with
  | zero => rfl
  | succ n ih => rw [ic_iterate_succ, ih, ic_iter_origin]

theorem trajectory_term_x_origin (delta epsilon scale : ℚ) (steps i : ℕ) (vol : ℚ) :
    trajectory_term point_t.x delta epsilon scale steps i vol ⟨0, 0⟩ = 0 := by
  simp [trajectory_term, ic_iterate_origin, scale_pt, interp_value]

theorem trajectory_term_y_origin (delta epsilon scale : ℚ) (steps i : ℕ) (vol : ℚ) :
    trajectory_term point_t.y delta epsilon scale steps i vol ⟨0, 0⟩ = 0 := by
  simp [trajectory_term, ic_iterate_origin, scale_pt, interp_value]

theorem trajectory_term_silent (coord : point_t → ℚ) (delta epsilon scale : ℚ)
    (steps i : ℕ) (q : point_t) :
    trajectory_term coord delta epsilon scale steps i 0 q = 0 := by
  simp [trajectory_term]

theorem trajectory_term_first (coord : point_t → ℚ) (delta epsilon scale : ℚ)
    (steps : ℕ) (vol : ℚ) (q : point_t) :
    trajectory_term coord delta epsilon scale steps 0 vol q
      = (vol : ℝ) * (coord (scale_pt q scale) : ℝ) := by
  have hadv : advances steps (0 + 1) = 1 := by
    rw [advances_succ, if_pos (Nat.zero_mod steps)]
    rfl
  have ht : interp_weight (interp_t steps 0) = 0 := by
    simp [interp_t, interp_weight]
  unfold trajectory_term
  rw [hadv, ht]
  simp [interp_value, ic_iterate_zero]

theorem key_down_space_play_pt (s : state_t) :
    (key_down_space s).play_pt = ⟨0, 0⟩ ∧ (key_down_space s).old = s.old := by
  unfold key_down_space
  by_cases hv : s.params.view = true <;> simp [hv]

theorem trace_orbit_origin_run (orbit0 : ℕ → point_t) (delta epsilon : ℚ) :
    trace_orbit orbit0 ⟨0, 0⟩ delta epsilon
      = { p := ⟨0, 0⟩
          orbit := Function.update orbit0 0 ⟨0, 0⟩
          orbit_len := 1
          radius := 1 / 10 ^ 12 } := by
  unfold trace_orbit
  have hstep := orbit_loop_break delta epsilon ⟨0, 0⟩ 16383
    { p := ⟨0, 0⟩
      orbit := Function.update orbit0 0 ⟨0, 0⟩
      orbit_len := 1
      radius := 1 / 10 ^ 12 } (by simp [MAX_ITERS]) (ic_iter_origin delta epsilon)
  simpa using hstep

/-- C16: the Space key is to stop the audio, every sample written after it being zero.
The code does not do so. After a click on `(1, 0)`, a click on `(2, 0)` and Space, all
before the first frame, the playing point and the seed are at the origin but the old
slot holds `(1, 0)` with volume `1`; the frame then traces the orbit of the origin
(squared radius `1e-12`, radius `1e-6`), sets `start_volume = 0.4`, and with 15 samples
per step the first sample its audio-fill pass writes is `0.999 * 1e6 = 999000`. -/
theorem key_down_space_audio_not_silent :
    space_after_clicks.play_pt = ⟨0, 0⟩
      ∧ space_after_clicks.params.p = ⟨0, 0⟩
      ∧ space_after_clicks.params_changed = true
      ∧ space_after_clicks.old.p = ⟨1, 0⟩
      ∧ space_after_clicks.old.volume = 1
      ∧ (trace_orbit space_after_clicks.orbit space_after_clicks.params.p
          space_after_clicks.params.delta space_after_clicks.params.epsilon).radius
          = 1 / 10 ^ 12
      ∧ frame_radius (trace_orbit space_after_clicks.orbit space_after_clicks.params.p
          space_after_clicks.params.delta space_after_clicks.params.epsilon)
          = 1 / 10 ^ 6
      ∧ (synth_fill space_after_clicks.params.delta space_after_clicks.params.epsilon
          space_after_clicks.dampen (1 / 10 ^ 6) 15 15
          { audio_of_state space_after_clicks with start_volume := 4 / 10 }
          (fun _ => 0)).audio_buffer 0 = 999000 := by
  have hplay : space_after_clicks.play_pt = ⟨0, 0⟩ := (key_down_space_play_pt _).1
  have hseed : space_after_clicks.params.p = ⟨0, 0⟩ := by decide!
  have holdp : space_after_clicks.old.p = ⟨1, 0⟩ := by decide!
  have holdv : space_after_clicks.old.volume = 1 := by decide!
  have hrad : (trace_orbit space_after_clicks.orbit space_after_clicks.params.p
      space_after_clicks.params.delta space_after_clicks.params.epsilon).radius
      = 1 / 10 ^ 12 := by
    rw [hseed, trace_orbit_origin_run]
  refine ⟨hplay, hseed, by decide!, holdp, holdv, hrad, ?_, ?_⟩
  · unfold frame_radius
    rw [hrad]
    have h : (((1 / 10 ^ 12 : ℚ)) : ℝ) = (1 / 10 ^ 6 : ℝ) ^ 2 := by
      push_cast
      norm_num
    rw [h, Real.sqrt_sq (by norm_num)]
  · have h := (synth_fill_inv space_after_clicks.params.delta
      space_after_clicks.params.epsilon space_after_clicks.dampen (1 / 10 ^ 6) 15 15
      { audio_of_state space_after_clicks with start_volume := 4 / 10 }
      (fun _ => 0)).left 0 (by decide)
    have hp : ({ audio_of_state space_after_clicks with start_volume := 4 / 10 }
        : audio_vars).play_pt = ⟨0, 0⟩ := hplay
    have ho : ({ audio_of_state space_after_clicks with start_volume := 4 / 10 }
        : audio_vars).old_p = ⟨1, 0⟩ := holdp
    have hv : ({ audio_of_state space_after_clicks with start_volume := 4 / 10 }
        : audio_vars).old_volume = 1 := holdv
    rw [Nat.mul_zero] at h
    rw [h, hp, trajectory_term_x_origin, trajectory_term_first, audio_loop_old_volume, ho,
      hv]
    simp only [scale_pt]
    push_cast
    norm_num

/-- What the Space key does achieve: a Space key-down puts the playing point at the
origin and leaves the old slot untouched; in every audio-fill pass that starts with the playing
point at the origin (with a positive radius) the playing point stays at the origin and
each pair of samples written is the old-trajectory term alone, with the old volume
decayed by `0.999` per sample; every sample written is zero when the old volume is zero
or the old point is at the origin. -/
theorem key_down_space_new_silent (s : state_t) (delta epsilon : ℚ) (dampen : Bool)
    (radius : ℚ) (steps expect : ℕ) (st : audio_vars) (audio_buffer : ℕ → ℝ) (i : ℕ)
    (_hr : 0 < radius) (hst : st.play_pt = ⟨0, 0⟩)
    (hi : i < audio_nsamples steps expect) :
    (key_down_space s).play_pt = ⟨0, 0⟩
      ∧ (key_down_space s).old = s.old
      ∧ (synth_fill delta epsilon dampen radius steps expect st audio_buffer).st.play_pt
          = ⟨0, 0⟩
      ∧ (synth_fill delta epsilon dampen radius steps expect st audio_buffer).audio_buffer
            (2 * i)
          = trajectory_term point_t.x delta epsilon (1 / radius) steps i
              (st.old_volume * (999 / 1000) ^ (i + 1)) st.old_p
      ∧ (synth_fill delta epsilon dampen radius steps expect st audio_buffer).audio_buffer
            (2 * i + 1)
          = trajectory_term point_t.y delta epsilon (1 / radius) steps i
              (st.old_volume * (999 / 1000) ^ (i + 1)) st.old_p
      ∧ (st.old_volume = 0 ∨ st.old_p = ⟨0, 0⟩ →
          (synth_fill delta epsilon dampen radius steps expect st audio_buffer).audio_buffer
              (2 * i) = 0
            ∧ (synth_fill delta epsilon dampen radius steps expect st
                audio_buffer).audio_buffer (2 * i + 1) = 0) := by
  have hinv := synth_fill_inv delta epsilon dampen radius steps expect st audio_buffer
  have hl := hinv.left i hi
  have hrt := hinv.right i hi
  rw [hst, trajectory_term_x_origin, zero_add, audio_loop_old_volume] at hl
  rw [hst, trajectory_term_y_origin, zero_add, audio_loop_old_volume] at hrt
  refine ⟨(key_down_space_play_pt s).1, (key_down_space_play_pt s).2, ?_, hl, hrt, ?_⟩
  · rw [hinv.carried, audio_loop_play_pt, hst, ic_iterate_origin]
  · rintro (h0 | h0)
    · rw [hl, hrt, h0, zero_mul]
      exact ⟨trajectory_term_silent _ _ _ _ _ _ _, trajectory_term_silent _ _ _ _ _ _ _⟩
    · rw [hl, hrt, h0]
      exact ⟨trajectory_term_x_origin _ _ _ _ _ _, trajectory_term_y_origin _ _ _ _ _ _⟩

/-- An instance of the preceding theorem: Space pressed in the initial state, whose old
volume is zero; radius `1`, 15 samples per step, a request of 15 samples, the first
sample. -/
theorem key_down_space_new_silent_witness :
    (0 : ℚ) < 1
      ∧ (audio_of_state (key_down_space state_init)).play_pt = ⟨0, 0⟩
      ∧ 0 < audio_nsamples 15 15
      ∧ (synth_fill (1 / 2) (1381966 / 1000000) false 1 15 15
          (audio_of_state (key_down_space state_init)) (fun _ => 1)).audio_buffer (2 * 0) = 0 :=
  ⟨by norm_num, rfl, by decide,
    ((key_down_space_new_silent state_init (1 / 2) (1381966 / 1000000) false 1 15 15
      (audio_of_state (key_down_space state_init)) (fun _ => 1) 0 (by norm_num) rfl
      (by decide)).2.2.2.2.2 (Or.inl rfl)).1⟩

/-! ## The info display -/

theorem period_of_arg_eq_none_iff (a : ℝ) :
    period_of_arg a = none ↔ ¬ (0 < a ∧ a ≤ 1) := by
  unfold period_of_arg
  by_cases h1 : a < 0
  · rw [if_pos h1]
    constructor
    · intro _ hc
      linarith [hc.1]
    · intro _
      rfl
  · rw [if_neg h1]
    have ha : 0 ≤ a := not_lt.1 h1
    by_cases h2 : 1 < Real.sqrt a
    · rw [if_pos h2]
      constructor
      · intro _ hc
        have := Real.sqrt_le_sqrt hc.2
        rw [Real.sqrt_one] at this
        linarith
      · intro _
        rfl
    · rw [if_neg h2]
      have hs : Real.sqrt a ≤ 1 := not_lt.1 h2
      by_cases h3 : Real.arcsin (Real.sqrt a) = 0
      · rw [if_pos h3]
        constructor
        · intro _ hc
          have hz : Real.sqrt a = 0 := Real.arcsin_eq_zero_iff.1 h3
          have := Real.sqrt_pos.2 hc.1
          linarith
        · intro _
          rfl
      · rw [if_neg h3]
        constructor
        · intro hc
          exact absurd hc (by simp)
        · intro hc
          exfalso
          apply hc
          have hane : a ≠ 0 := by
            rintro rfl
            apply h3
            rw [Real.sqrt_zero, Real.arcsin_zero]
          refine ⟨lt_of_le_of_ne ha (Ne.symm hane), ?_⟩
          have hsq := Real.sq_sqrt ha
          nlinarith [Real.sqrt_nonneg a]

theorem period_of_arg_of_mem (a : ℝ) (h0 : 0 < a) (h1 : a ≤ 1) :
    period_of_arg a = some (Real.pi / Real.arcsin (Real.sqrt a)) := by
  have hne : period_of_arg a ≠ none := by
    rw [Ne, period_of_arg_eq_none_iff]
    exact fun h => h ⟨h0, h1⟩
  unfold period_of_arg at hne ⊢
  split_ifs at hne ⊢ with ha hb hc
  · exact absurd rfl hne
  · exact absurd rfl hne
  · exact absurd rfl hne
  · rfl

theorem calculate_period_nan_eq_none_iff (delta epsilon : ℚ) :
    calculate_period_nan delta epsilon = none
      ↔ ¬ ∃ a, period_arg delta epsilon = Binary32.float.fin a ∧ 0 < a ∧ a ≤ 1 := by
  unfold calculate_period_nan
  cases h : period_arg delta epsilon with
  | fin a =>
    simp only [period_of_arg_eq_none_iff]
    constructor
    · rintro hn ⟨b, hb, hb0, hb1⟩
      injection hb with hb
      subst hb
      exact hn ⟨by exact_mod_cast hb0, by exact_mod_cast hb1⟩
    · intro hn hc
      exact hn ⟨a, rfl, by exact_mod_cast hc.1, by exact_mod_cast hc.2⟩
  | inf s =>
    simp
  | nan =>
    simp

theorem calculate_period_nan_of_mem (delta epsilon a : ℚ)
    (h : period_arg delta epsilon = Binary32.float.fin a) (h0 : 0 < a) (h1 : a ≤ 1) :
    calculate_period_nan delta epsilon
      = some (Real.pi / Real.arcsin (Real.sqrt (a : ℝ))) := by
  unfold calculate_period_nan
  rw [h]
  exact period_of_arg_of_mem (a : ℝ) (by exact_mod_cast h0) (by exact_mod_cast h1)

theorem print_info_period_mem (s : state_t) :
    info_line.period
        (if s.params.view then calculate_period_nan s.params.delta s.params.epsilon
          else calculate_period_nan s.pointer.x s.pointer.y) ∈ print_info s := by
  unfold print_info
  by_cases hv : s.params.view = true <;> simp [hv]

theorem print_info_cycle_mem (s : state_t) (i : ℕ) (h1 : 1 ≤ i) (h2 : i < s.orbit_len)
    (hamp : cabsf (s.spectrum i) > 5 / 100) :
    cycle_line s (calculate_period_nan s.params.delta s.params.epsilon) i
      ∈ print_info s := by
  unfold print_info
  simp only [List.mem_append, List.mem_filterMap, List.mem_range']
  right
  refine ⟨i, ⟨i - 1, by omega, by omega⟩, ?_⟩
  rw [if_pos hamp]

theorem out_of_domain_amplitude : cabsf (out_of_domain_state.spectrum 1) = 3 / 4 := by
  show Real.sqrt (((0 * 0 + -3 / 4 * (-3 / 4) : ℚ)) : ℝ) = 3 / 4
  have h : (((0 * 0 + -3 / 4 * (-3 / 4) : ℚ)) : ℝ) = (3 / 4 : ℝ) ^ 2 := by
    push_cast
    norm_num
  rw [h, Real.sqrt_sq (by norm_num)]

/-- C15 as stated fails: with `delta = 3/4`, `epsilon = 3` the argument
`delta*epsilon/2 = 9/8` is outside `(0, 1]`; the seed `(0, -1)` has a closed orbit of
length `2`; `print_info` prints the period line, with a non-number in it, and for the
bin `1` (magnitude `3/4`) a spectrum line whose period ratio is a non-number. -/
theorem print_info_counterexample :
    ¬ (0 < (3 / 4 : ℚ) * 3 / 2 ∧ (3 / 4 : ℚ) * 3 / 2 ≤ 1)
      ∧ out_of_domain_state.params.delta = 3 / 4
      ∧ out_of_domain_state.params.epsilon = 3
      ∧ (trace_orbit out_of_domain_state.orbit out_of_domain_state.params.p
          out_of_domain_state.params.delta out_of_domain_state.params.epsilon).orbit_len
          = out_of_domain_state.orbit_len
      ∧ info_line.period none ∈ print_info out_of_domain_state
      ∧ info_line.cycle 2 none (3 / 4) 1600 ∈ print_info out_of_domain_state := by
  have hdom : ¬ (0 < (3 / 4 : ℚ) * 3 / 2 ∧ (3 / 4 : ℚ) * 3 / 2 ≤ 1) := by norm_num
  have harg : period_arg (3 / 4) 3 = Binary32.float.fin (9 / 8) := by decide!
  have hnone : calculate_period_nan out_of_domain_state.params.delta
      out_of_domain_state.params.epsilon = none := by
    refine (calculate_period_nan_eq_none_iff (3 / 4) 3).2 ?_
    rintro ⟨a, ha, _, ha1⟩
    rw [harg] at ha
    injection ha with ha
    rw [← ha] at ha1
    norm_num at ha1
  have hamp := out_of_domain_amplitude
  refine ⟨hdom, rfl, rfl, ?_, ?_, ?_⟩
  · exact trace_orbit_len_of_first_return _ ⟨0, -1⟩ (3 / 4) 3 2 (by decide) (by decide)
      (by decide!) (by decide!)
  · have h := print_info_period_mem out_of_domain_state
    rw [show out_of_domain_state.params.view = true from rfl, if_pos rfl, hnone] at h
    exact h
  · have h := print_info_cycle_mem out_of_domain_state 1 (le_refl 1) (by decide)
      (by rw [hamp]; norm_num)
    rw [hnone] at h
    have hline : cycle_line out_of_domain_state none 1
        = info_line.cycle 2 none (3 / 4) 1600 := by
      unfold cycle_line
      rw [hamp]
      simp only [Option.map_none']
      congr 1 <;> norm_num [out_of_domain_state, MAX_FREQ]
    rw [hline] at h
    exact h

/-- C15, as the code has it: `print_info` performs no check. For every state it prints
the period line, computed by `calculate_period` from `delta`, `epsilon` in the lattice
view and from the pointer in the parameter view, and for every bin `1 ≤ i < orbit_len`
of magnitude above `0.05` a spectrum line whose period ratio derives from the period of
`delta`, `epsilon`. The period is a non-number exactly when the argument the code
computes, the `float` product `delta*epsilon` divided by `2`, is not a finite number in
`(0, 1]`, and is a number otherwise. The rounded argument decides: for
`delta = 1 + 2^-23`, `epsilon = 2 - 2^-23` the exact `delta*epsilon/2` is above `1` but
the `float` argument is `1`, and the period is a number. -/
theorem print_info_period (s : state_t) (delta epsilon : ℚ) :
    info_line.period
        (if s.params.view then calculate_period_nan s.params.delta s.params.epsilon
          else calculate_period_nan s.pointer.x s.pointer.y) ∈ print_info s
      ∧ (∀ i, 1 ≤ i → i < s.orbit_len → cabsf (s.spectrum i) > 5 / 100 →
          cycle_line s (calculate_period_nan s.params.delta s.params.epsilon) i
            ∈ print_info s)
      ∧ (calculate_period_nan delta epsilon = none
          ↔ ¬ ∃ a, period_arg delta epsilon = Binary32.float.fin a ∧ 0 < a ∧ a ≤ 1)
      ∧ (∀ a, period_arg delta epsilon = Binary32.float.fin a → 0 < a → a ≤ 1 →
          calculate_period_nan delta epsilon
            = some (Real.pi / Real.arcsin (Real.sqrt (a : ℝ))))
      ∧ (1 < (8388609 / 8388608 : ℚ) * (16777215 / 8388608) / 2
          ∧ period_arg (8388609 / 8388608) (16777215 / 8388608) = Binary32.float.fin 1
          ∧ calculate_period_nan (8388609 / 8388608) (16777215 / 8388608) ≠ none) := by
  have harg : period_arg (8388609 / 8388608) (16777215 / 8388608)
      = Binary32.float.fin 1 := by decide!
  refine ⟨print_info_period_mem s, fun i h1 h2 hamp => print_info_cycle_mem s i h1 h2 hamp,
    calculate_period_nan_eq_none_iff delta epsilon,
    fun a h h0 h1 => calculate_period_nan_of_mem delta epsilon a h h0 h1,
    by norm_num, harg, ?_⟩
  rw [calculate_period_nan_of_mem _ _ 1 harg (by norm_num) (le_refl 1)]
  simp

/-- Witness for C15 as amended: the bin `1` of the state with `delta = 3/4`,
`epsilon = 3`, and the parameters `delta = 1/2`, `epsilon = 1`, for which the argument
is `1/4`. -/
theorem print_info_period_witness :
    1 ≤ 1 ∧ 1 < out_of_domain_state.orbit_len
      ∧ cycle_line out_of_domain_state
          (calculate_period_nan out_of_domain_state.params.delta
            out_of_domain_state.params.epsilon) 1 ∈ print_info out_of_domain_state
      ∧ period_arg (1 / 2) 1 = Binary32.float.fin (1 / 4)
      ∧ calculate_period_nan (1 / 2) 1
          = some (Real.pi / Real.arcsin (Real.sqrt (((1 / 4 : ℚ)) : ℝ))) :=
  ⟨le_refl 1, by decide,
    (print_info_period out_of_domain_state (1 / 2) 1).2.1 1 (le_refl 1) (by decide)
      (by rw [out_of_domain_amplitude]; norm_num),
    by decide!,
    (print_info_period out_of_domain_state (1 / 2) 1).2.2.2.1 (1 / 4) (by decide!)
      (by norm_num) (by norm_num)⟩

end IntegerCircle

namespace Binary32

/-! ## Rounding: basic facts -/

theorem rne_int (n : ℤ) : rne (n : ℚ) = n := by
  unfold rne
  simp

theorem floor_le_rne (q : ℚ) : ⌊q⌋ ≤ rne q := by
  unfold rne
  split_ifs <;> omega

theorem rne_le_floor_add_one (q : ℚ) : rne q ≤ ⌊q⌋ + 1 := by
  unfold rne
  split_ifs <;> omega

theorem rne_err (q : ℚ) : |(rne q : ℚ) - q| ≤ 1 / 2 := by
  have h1 := Int.floor_le q
  have h2 := Int.lt_floor_add_one q
  unfold rne
  rw [abs_le]
  split_ifs with ha hb hc
  · constructor <;> linarith
  · push_cast
    constructor <;> linarith
  · have hr : q - ⌊q⌋ = 1 / 2 := le_antisymm (not_lt.1 hb) (not_lt.1 ha)
    constructor <;> linarith
  · have hr : q - ⌊q⌋ = 1 / 2 := le_antisymm (not_lt.1 hb) (not_lt.1 ha)
    push_cast
    constructor <;> linarith

theorem le_rne_of_le (z : ℤ) (q : ℚ) (h : (z : ℚ) ≤ q) : z ≤ rne q :=
  le_trans (Int.le_floor.2 h) (floor_le_rne q)

theorem log2_fuel_spec : ∀ (fuel n : ℕ), n ≤ fuel → n ≠ 0 →
    2 ^ log2_fuel fuel n ≤ n ∧ n < 2 ^ (log2_fuel fuel n + 1) := by
  intro fuel
  induction fuel with
  | zero =>
    intro n hn h0
    omega
  | succ fuel ih =>
    intro n hn h0
    by_cases h2 : n < 2
    · have h1 : n = 1 := by omega
      simp [log2_fuel, h1]
    · simp only [log2_fuel, h2, if_false]
      have hih := ih (n / 2) (by omega) (by omega)
      rw [pow_succ] at hih ⊢
      rw [pow_succ]
      constructor <;> omega

theorem nat_log2_spec (n : ℕ) (h0 : n ≠ 0) :
    2 ^ nat_log2 n ≤ n ∧ n < 2 ^ (nat_log2 n + 1) :=
  log2_fuel_spec n n (le_refl n) h0

theorem abs_eq_natAbs_div_den (q : ℚ) : |q| = (q.num.natAbs : ℚ) / (q.den : ℚ) := by
  conv_lhs => rw [← Rat.num_div_den q]
  rw [abs_div, Nat.abs_cast, Nat.cast_natAbs, Int.cast_abs]

theorem fexp_spec (q : ℚ) (h0 : q ≠ 0) :
    (2 : ℚ) ^ fexp q ≤ |q| ∧ |q| < (2 : ℚ) ^ (fexp q + 1) := by
  have hn0 : q.num.natAbs ≠ 0 := by
    rw [Ne, Int.natAbs_eq_zero, Rat.num_eq_zero]
    exact h0
  have hd0 : q.den ≠ 0 := q.den_nz
  obtain ⟨hn1, hn2⟩ := nat_log2_spec q.num.natAbs hn0
  obtain ⟨hd1, hd2⟩ := nat_log2_spec q.den hd0
  have hn1q : (2 : ℚ) ^ nat_log2 q.num.natAbs ≤ (q.num.natAbs : ℚ) := by exact_mod_cast hn1
  have hn2q : (q.num.natAbs : ℚ) < 2 * (2 : ℚ) ^ nat_log2 q.num.natAbs := by
    rw [pow_succ] at hn2
    have : (q.num.natAbs : ℚ) < ((2 ^ nat_log2 q.num.natAbs * 2 : ℕ) : ℚ) := by
      exact_mod_cast hn2
    push_cast at this
    linarith
  have hd1q : (2 : ℚ) ^ nat_log2 q.den ≤ (q.den : ℚ) := by exact_mod_cast hd1
  have hd2q : (q.den : ℚ) < 2 * (2 : ℚ) ^ nat_log2 q.den := by
    rw [pow_succ] at hd2
    have : (q.den : ℚ) < ((2 ^ nat_log2 q.den * 2 : ℕ) : ℚ) := by
      exact_mod_cast hd2
    push_cast at this
    linarith
  have hApos : (0 : ℚ) < 2 ^ nat_log2 q.num.natAbs := by positivity
  have hBpos : (0 : ℚ) < 2 ^ nat_log2 q.den := by positivity
  have hdpos : (0 : ℚ) < (q.den : ℚ) := by exact_mod_cast Nat.pos_of_ne_zero hd0
  have he0 : (2 : ℚ) ^ ((nat_log2 q.num.natAbs : ℤ) - (nat_log2 q.den : ℤ))
      = 2 ^ nat_log2 q.num.natAbs / 2 ^ nat_log2 q.den := by
    rw [zpow_sub₀ (by norm_num), zpow_natCast, zpow_natCast]
  have habs := abs_eq_natAbs_div_den q
  generalize (2 : ℚ) ^ nat_log2 q.num.natAbs = A at *
  generalize (2 : ℚ) ^ nat_log2 q.den = B at *
  generalize (q.num.natAbs : ℚ) = n at *
  generalize (q.den : ℚ) = d at *
  unfold fexp
  by_cases hc : (2 : ℚ) ^ ((nat_log2 q.num.natAbs : ℤ) - (nat_log2 q.den : ℤ)) ≤ |q|
  · rw [if_pos hc]
    refine ⟨hc, ?_⟩
    rw [zpow_add_one₀ (by norm_num), he0, habs, div_lt_iff₀ hdpos]
    have h1 : A / B * 2 * d = A * 2 * (d / B) := by ring
    rw [h1]
    have h2 : 1 ≤ d / B := by
      rw [le_div_iff₀ hBpos]
      linarith
    nlinarith
  · rw [if_neg hc]
    have hlt := not_le.1 hc
    constructor
    · rw [zpow_sub_one₀ (by norm_num), he0, habs, le_div_iff₀ hdpos]
      have h1 : A / B * 2⁻¹ * d = A * (d / (2 * B)) := by
        field_simp
        ring
      rw [h1]
      have h2 : d / (2 * B) ≤ 1 := by
        rw [div_le_iff₀ (by linarith)]
        linarith
      nlinarith
    · rw [sub_add_cancel]
      exact hlt

theorem fexp_lt_of_abs_lt (q : ℚ) (k : ℤ) (h0 : q ≠ 0) (h : |q| < (2 : ℚ) ^ k) :
    fexp q < k := by
  have h1 := (fexp_spec q h0).1
  have h2 : (2 : ℚ) ^ fexp q < 2 ^ k := lt_of_le_of_lt h1 h
  exact (zpow_lt_zpow_iff_right₀ (by norm_num)).1 h2

theorem le_fexp_of_le_abs (q : ℚ) (k : ℤ) (h0 : q ≠ 0) (h : (2 : ℚ) ^ k ≤ |q|) :
    k ≤ fexp q := by
  have h1 := (fexp_spec q h0).2
  have h2 : (2 : ℚ) ^ k < 2 ^ (fexp q + 1) := lt_of_le_of_lt h h1
  have h3 := (zpow_lt_zpow_iff_right₀ (by norm_num)).1 h2
  omega

theorem round_fmt_zero (prec : ℕ) (emin : ℤ) : round_fmt prec emin 0 = 0 := by
  unfold round_fmt
  simp [rne]

theorem round_fmt_int_of_exp_nonpos (prec : ℕ) (emin : ℤ) (n : ℤ)
    (h : max (fexp (n : ℚ)) emin - ((prec : ℤ) - 1) ≤ 0) :
    round_fmt prec emin (n : ℚ) = n := by
  unfold round_fmt
  obtain ⟨j, hj⟩ : ∃ j : ℕ, max (fexp (n : ℚ)) emin - ((prec : ℤ) - 1) = -(j : ℤ) :=
    ⟨(-(max (fexp (n : ℚ)) emin - ((prec : ℤ) - 1))).toNat, by omega⟩
  rw [hj, zpow_neg, zpow_natCast, div_inv_eq_mul]
  have hcast : (n : ℚ) * 2 ^ j = ((n * 2 ^ j : ℤ) : ℚ) := by push_cast; ring
  rw [hcast, rne_int]
  push_cast
  field_simp

theorem round_fmt_int_exact (prec : ℕ) (emin : ℤ) (n : ℤ) (hemin : emin ≤ (prec : ℤ) - 1)
    (h : |(n : ℚ)| < 2 ^ prec) : round_fmt prec emin (n : ℚ) = n := by
  by_cases h0 : (n : ℚ) = 0
  · rw [h0, round_fmt_zero]
  · apply round_fmt_int_of_exp_nonpos
    have hlt : fexp (n : ℚ) < (prec : ℤ) := by
      apply fexp_lt_of_abs_lt _ _ h0
      rw [zpow_natCast]
      exact h
    have := max_le (show fexp (n : ℚ) ≤ (prec : ℤ) - 1 by omega) hemin
    omega

theorem round_fmt_int_isInt (prec : ℕ) (emin : ℤ) (n : ℤ) :
    ∃ z : ℤ, round_fmt prec emin (n : ℚ) = z := by
  by_cases h : max (fexp (n : ℚ)) emin - ((prec : ℤ) - 1) ≤ 0
  · exact ⟨n, round_fmt_int_of_exp_nonpos prec emin n h⟩
  · obtain ⟨j, hj⟩ : ∃ j : ℕ, max (fexp (n : ℚ)) emin - ((prec : ℤ) - 1) = (j : ℤ) :=
      ⟨(max (fexp (n : ℚ)) emin - ((prec : ℤ) - 1)).toNat, by omega⟩
    refine ⟨rne ((n : ℚ) / 2 ^ j) * 2 ^ j, ?_⟩
    unfold round_fmt
    rw [hj, zpow_natCast]
    push_cast
    rfl

theorem round_fmt_rel_err (prec : ℕ) (emin : ℤ) (q : ℚ) (h : (2 : ℚ) ^ emin ≤ |q|) :
    |round_fmt prec emin q - q| ≤ 2 ^ (-(prec : ℤ)) * |q| := by
  have hpos : (0 : ℚ) < 2 ^ emin := by positivity
  have h0 : q ≠ 0 := by
    rintro rfl
    rw [abs_zero] at h
    linarith
  have hmax : max (fexp q) emin = fexp q := max_eq_left (le_fexp_of_le_abs q emin h0 h)
  have hu : (0 : ℚ) < 2 ^ (fexp q - ((prec : ℤ) - 1)) := by positivity
  unfold round_fmt
  rw [hmax]
  have hsplit : (rne (q / 2 ^ (fexp q - ((prec : ℤ) - 1))) : ℚ)
        * 2 ^ (fexp q - ((prec : ℤ) - 1)) - q
      = ((rne (q / 2 ^ (fexp q - ((prec : ℤ) - 1))) : ℚ)
          - q / 2 ^ (fexp q - ((prec : ℤ) - 1))) * 2 ^ (fexp q - ((prec : ℤ) - 1)) := by
    field_simp
  rw [hsplit, abs_mul, abs_of_pos hu]
  have herr := rne_err (q / 2 ^ (fexp q - ((prec : ℤ) - 1)))
  have hexp : (2 : ℚ) ^ (fexp q - ((prec : ℤ) - 1))
      = 2 * (2 ^ (-(prec : ℤ)) * 2 ^ fexp q) := by
    rw [show fexp q - ((prec : ℤ) - 1) = 1 + (-(prec : ℤ) + fexp q) by ring,
      zpow_add₀ (by norm_num), zpow_add₀ (by norm_num), zpow_one]
  have hlow := (fexp_spec q h0).1
  have hp : (0 : ℚ) < 2 ^ (-(prec : ℤ)) := by positivity
  rw [hexp]
  have hf : (0 : ℚ) < 2 ^ fexp q := by positivity
  calc |(rne (q / (2 * (2 ^ (-(prec : ℤ)) * 2 ^ fexp q))) : ℚ)
          - q / (2 * (2 ^ (-(prec : ℤ)) * 2 ^ fexp q))|
        * (2 * (2 ^ (-(prec : ℤ)) * 2 ^ fexp q))
      ≤ 1 / 2 * (2 * (2 ^ (-(prec : ℤ)) * 2 ^ fexp q)) := by
        apply mul_le_mul_of_nonneg_right _ (by positivity)
        rw [← hexp]
        exact herr
    _ = 2 ^ (-(prec : ℤ)) * 2 ^ fexp q := by ring
    _ ≤ 2 ^ (-(prec : ℤ)) * |q| := mul_le_mul_of_nonneg_left hlow hp.le

theorem round_fmt_ge (prec : ℕ) (emin : ℤ) (q : ℚ) (k : ℤ) (hprec : 1 ≤ prec)
    (hk : emin ≤ k) (h : (2 : ℚ) ^ k ≤ q) : (2 : ℚ) ^ k ≤ round_fmt prec emin q := by
  have hkpos : (0 : ℚ) < 2 ^ k := by positivity
  have hq : 0 < q := lt_of_lt_of_le hkpos h
  have h0 : q ≠ 0 := ne_of_gt hq
  have habs : |q| = q := abs_of_pos hq
  have hle : k ≤ fexp q := le_fexp_of_le_abs q k h0 (by rw [habs]; exact h)
  have hmax : max (fexp q) emin = fexp q := max_eq_left (le_trans hk hle)
  have hlow := (fexp_spec q h0).1
  rw [habs] at hlow
  obtain ⟨p, hp⟩ : ∃ p : ℕ, prec = p + 1 := ⟨prec - 1, by omega⟩
  have hu : (0 : ℚ) < 2 ^ (fexp q - ((prec : ℤ) - 1)) := by positivity
  have hsplit : (2 : ℚ) ^ fexp q = 2 ^ p * 2 ^ (fexp q - ((prec : ℤ) - 1)) := by
    rw [← zpow_natCast, ← zpow_add₀ (by norm_num)]
    congr 1
    rw [hp]
    push_cast
    ring
  have hm : (((2 ^ p : ℕ) : ℤ) : ℚ) ≤ q / 2 ^ (fexp q - ((prec : ℤ) - 1)) := by
    rw [le_div_iff₀ hu]
    push_cast
    rw [← hsplit]
    exact hlow
  have hr := le_rne_of_le _ _ hm
  have hrq : (((2 ^ p : ℕ) : ℤ) : ℚ) ≤ (rne (q / 2 ^ (fexp q - ((prec : ℤ) - 1))) : ℚ) := by
    exact_mod_cast hr
  unfold round_fmt
  rw [hmax]
  calc (2 : ℚ) ^ k ≤ 2 ^ fexp q := (zpow_le_zpow_iff_right₀ (by norm_num)).2 hle
    _ = (((2 ^ p : ℕ) : ℤ) : ℚ) * 2 ^ (fexp q - ((prec : ℤ) - 1)) := by
        rw [hsplit]
        push_cast
        rfl
    _ ≤ (rne (q / 2 ^ (fexp q - ((prec : ℤ) - 1))) : ℚ)
          * 2 ^ (fexp q - ((prec : ℤ) - 1)) :=
        mul_le_mul_of_nonneg_right hrq hu.le

/-! ## Exact operations on small integers -/

theorem round32_int (z : ℤ) (h : |z| < 2 ^ 24) : round32 (z : ℚ) = z := by
  apply round_fmt_int_exact 24 (-126) z (by norm_num)
  have : |(z : ℚ)| < ((2 ^ 24 : ℤ) : ℚ) := by
    rw [← Int.cast_abs]
    exact_mod_cast h
  simpa using this

theorem round64_int (z : ℤ) (h : |z| < 2 ^ 53) : round64 (z : ℚ) = z := by
  apply round_fmt_int_exact 53 (-1022) z (by norm_num)
  have : |(z : ℚ)| < ((2 ^ 53 : ℤ) : ℚ) := by
    rw [← Int.cast_abs]
    exact_mod_cast h
  simpa using this

theorem to_float_of_lt (q : ℚ) (h : |round32 q| < 2 ^ 128) :
    to_float q = float.fin (round32 q) := by
  unfold to_float
  rw [if_neg (not_le.2 h)]

theorem to_float_int (z : ℤ) (h : |z| < 2 ^ 24) : to_float (z : ℚ) = float.fin z := by
  have hr := round32_int z h
  rw [to_float_of_lt, hr]
  rw [hr, ← Int.cast_abs]
  have : ((|z| : ℤ) : ℚ) < ((2 ^ 24 : ℤ) : ℚ) := by exact_mod_cast h
  have h2 : (((2 : ℤ) ^ 24 : ℤ) : ℚ) < 2 ^ 128 := by norm_num
  linarith

theorem add_d_int (a b : ℤ) (h : |a + b| < 2 ^ 24) :
    float.add_d (float.fin a) (float.fin b) = float.fin ((a + b : ℤ) : ℚ) := by
  have h53 : |a + b| < 2 ^ 53 := lt_trans h (by norm_num)
  show to_float (round64 ((a : ℚ) + b)) = _
  have hc : (a : ℚ) + b = ((a + b : ℤ) : ℚ) := by push_cast; ring
  rw [hc, round64_int _ h53, to_float_int _ h]

theorem sub_d_int (a b : ℤ) (h : |a - b| < 2 ^ 24) :
    float.sub_d (float.fin a) (float.fin b) = float.fin ((a - b : ℤ) : ℚ) := by
  have h2 := add_d_int a (-b) (by simpa [sub_eq_add_neg] using h)
  have hneg : float.neg (float.fin (b : ℚ)) = float.fin ((-b : ℤ) : ℚ) := by
    simp [float.neg]
  unfold float.sub_d
  rw [hneg, h2, sub_eq_add_neg]

theorem mul_fin_floor (a b : ℚ) (h : |⌊round32 (a * b)⌋| < 2 ^ 25) :
    float.floor (float.mul (float.fin a) (float.fin b))
      = float.fin (⌊round32 (a * b)⌋ : ℚ) := by
  have hfl := Int.floor_le (round32 (a * b))
  have hfl2 := Int.lt_floor_add_one (round32 (a * b))
  have hb := abs_lt.1 h
  have h1 : -(2 : ℚ) ^ 25 < (⌊round32 (a * b)⌋ : ℚ) := by exact_mod_cast hb.1
  have h2 : (⌊round32 (a * b)⌋ : ℚ) < (2 : ℚ) ^ 25 := by exact_mod_cast hb.2
  have hbig : (2 : ℚ) ^ 25 + 1 ≤ 2 ^ 128 := by norm_num
  have hlt : |round32 (a * b)| < 2 ^ 128 := by
    rw [abs_lt]
    constructor <;> linarith
  show float.floor (to_float (a * b)) = _
  rw [to_float_of_lt _ hlt]
  rfl

/-- The iteration on a lattice point in range: all three sums are exact. -/
theorem ic_iter_lattice (delta epsilon : ℚ) (p : ℤ × ℤ) (h : in_range delta epsilon p) :
    ic_iter (lattice_pt p) (float.fin delta) (float.fin epsilon)
      = lattice_pt (shear_floor delta epsilon p) := by
  obtain ⟨m, n⟩ := p
  obtain ⟨hm, hn, h1, h2, h3⟩ := h
  simp only [shear_x1, shear_floor] at h1 h2 h3
  have hf1 : |⌊round32 (delta * (n : ℚ))⌋| < 2 ^ 25 := by
    rw [abs_lt] at hm h1 ⊢
    constructor <;> omega
  have hf2 : |⌊round32 (epsilon * ((m - ⌊round32 (delta * (n : ℚ))⌋ : ℤ) : ℚ))⌋|
      < 2 ^ 25 := by
    rw [abs_lt] at hn h3 ⊢
    constructor <;> omega
  have hf3 : |⌊round32 (delta
      * ((n + ⌊round32 (epsilon * ((m - ⌊round32 (delta * (n : ℚ))⌋ : ℤ) : ℚ))⌋ : ℤ)
          : ℚ))⌋| < 2 ^ 25 := by
    rw [abs_lt] at h1 h2 ⊢
    constructor <;> omega
  simp only [ic_iter, lattice_pt, shear_floor]
  rw [mul_fin_floor _ _ hf1, sub_d_int _ _ h1, mul_fin_floor _ _ hf2,
    add_d_int _ _ h3, mul_fin_floor _ _ hf3, sub_d_int _ _ h2]

theorem main_ic_iter_eq (x y delta epsilon : float) :
    main_ic_iter x y delta epsilon
      = ((ic_iter ⟨x, y⟩ delta epsilon).x, (ic_iter ⟨x, y⟩ delta epsilon).y) := rfl

/-- C1 as stated fails: for the point `(100, 0)`, `delta = 0` and `epsilon` the `float`
nearest to `0.01` (which is `5368709 / 2^29`), the exact product `epsilon * 100` is
below `1` and the formula in exact arithmetic gives `(100, 0)`, but the `float` product rounds
to `1` and the code returns `(100, 1)`, in both variants. -/
theorem ic_iter_float_counterexample :
    to_float (1 / 100) = float.fin (5368709 / 536870912)
      ∧ ((100 : ℚ) - ⌊(0 : ℚ) * 0⌋
            - ⌊(0 : ℚ) * (0 + ⌊(5368709 / 536870912 : ℚ) * (100 - ⌊(0 : ℚ) * 0⌋)⌋)⌋,
          (0 : ℚ) + ⌊(5368709 / 536870912 : ℚ) * (100 - ⌊(0 : ℚ) * 0⌋)⌋) = (100, 0)
      ∧ shear_floor_exact 0 (5368709 / 536870912) (100, 0) = (100, 0)
      ∧ ic_iter ⟨float.fin 100, float.fin 0⟩ (float.fin 0)
          (float.fin (5368709 / 536870912)) = ⟨float.fin 100, float.fin 1⟩
      ∧ main_ic_iter (float.fin 100) (float.fin 0) (float.fin 0)
          (float.fin (5368709 / 536870912)) = (float.fin 100, float.fin 1) := by
  refine ⟨by decide!, by decide!, by decide!, by decide!, by decide!⟩

/-- C1, as the code has it: `ic_iter` returns `(x2, y1)` where `x1`, `y1`, `x2` are
obtained by the three shear-floor steps in `float` arithmetic, each product rounded to
`float` and each sum formed in `double` and rounded to `float`, in both variants; for a
lattice point whose coordinates and results are below `2^24` in magnitude the sums are
exact, so `x1 = x - floor(fl(delta*y))`, `y1 = y + floor(fl(epsilon*x1))`,
`x2 = x1 - floor(fl(delta*y1))` with `fl` the rounding of the product; and this is the
formula in exact arithmetic whenever rounding moves none of the three products across
an integer. -/
theorem ic_iter_float_formula (p : point_t) (dl ep : float) (delta epsilon : ℚ)
    (q : ℤ × ℤ) :
    ic_iter p dl ep
        = ⟨float.sub_d (float.sub_d p.x (float.floor (float.mul dl p.y)))
            (float.floor (float.mul dl (float.add_d p.y
              (float.floor (float.mul ep
                (float.sub_d p.x (float.floor (float.mul dl p.y)))))))),
           float.add_d p.y (float.floor (float.mul ep
              (float.sub_d p.x (float.floor (float.mul dl p.y)))))⟩
      ∧ main_ic_iter p.x p.y dl ep = ((ic_iter p dl ep).x, (ic_iter p dl ep).y)
      ∧ (in_range delta epsilon q →
          ic_iter (lattice_pt q) (float.fin delta) (float.fin epsilon)
              = lattice_pt (shear_floor delta epsilon q)
            ∧ main_ic_iter (float.fin q.1) (float.fin q.2) (float.fin delta)
                (float.fin epsilon)
              = (float.fin (shear_floor delta epsilon q).1,
                 float.fin (shear_floor delta epsilon q).2)
            ∧ (⌊round32 (delta * q.2)⌋ = ⌊delta * q.2⌋ →
                ⌊round32 (epsilon * ((q.1 - ⌊delta * q.2⌋ : ℤ) : ℚ))⌋
                  = ⌊epsilon * ((q.1 - ⌊delta * q.2⌋ : ℤ) : ℚ)⌋ →
                ⌊round32 (delta
                    * ((q.2 + ⌊epsilon * ((q.1 - ⌊delta * q.2⌋ : ℤ) : ℚ)⌋ : ℤ) : ℚ))⌋
                  = ⌊delta * ((q.2 + ⌊epsilon * ((q.1 - ⌊delta * q.2⌋ : ℤ) : ℚ)⌋ : ℤ) : ℚ)⌋ →
                ic_iter (lattice_pt q) (float.fin delta) (float.fin epsilon)
                  = lattice_pt (shear_floor_exact delta epsilon q))) := by
  refine ⟨rfl, rfl, fun h => ?_⟩
  have hl := ic_iter_lattice delta epsilon q h
  refine ⟨hl, ?_, ?_⟩
  · have hm := main_ic_iter_eq (float.fin q.1) (float.fin q.2) (float.fin delta)
      (float.fin epsilon)
    have hl2 : ic_iter ⟨float.fin q.1, float.fin q.2⟩ (float.fin delta) (float.fin epsilon)
        = lattice_pt (shear_floor delta epsilon q) := hl
    rw [hm, hl2]
    rfl
  · intro e1 e2 e3
    rw [hl]
    congr 1
    simp only [shear_floor, shear_floor_exact]
    rw [e1, e2, e3]

/-- Witness for C1 as amended: the start-up point `(1, 0)` with `delta = 1/2` and
`epsilon` the `float` nearest to `1.381966`; it is in range and none of its three
products is moved across an integer. -/
theorem ic_iter_float_formula_witness :
    in_range (1 / 2) (11592771 / 8388608) (1, 0)
      ∧ ic_iter (lattice_pt (1, 0)) (float.fin (1 / 2)) (float.fin (11592771 / 8388608))
          = lattice_pt (shear_floor (1 / 2) (11592771 / 8388608) (1, 0))
      ∧ ic_iter (lattice_pt (1, 0)) (float.fin (1 / 2)) (float.fin (11592771 / 8388608))
          = lattice_pt (shear_floor_exact (1 / 2) (11592771 / 8388608) (1, 0)) :=
  ⟨by decide!,
    ((ic_iter_float_formula (lattice_pt (1, 0)) (float.fin (1 / 2))
      (float.fin (11592771 / 8388608)) (1 / 2) (11592771 / 8388608) (1, 0)).2.2
      (by decide!)).1,
    ((ic_iter_float_formula (lattice_pt (1, 0)) (float.fin (1 / 2))
      (float.fin (11592771 / 8388608)) (1 / 2) (11592771 / 8388608) (1, 0)).2.2
      (by decide!)).2.2 (by decide!) (by decide!) (by decide!)⟩

/-! ## Comparisons -/

theorem float_lt_irrefl (a : float) : float.lt a a = false := by
  cases a with
  | fin q => simp [float.lt]
  | inf s => cases s <;> rfl
  | nan => rfl

theorem float_lt_trans (a b c : float) (h1 : float.lt a b = true)
    (h2 : float.lt b c = true) : float.lt a c = true := by
  cases a with
  | fin x =>
    cases b with
    | fin y =>
      cases c with
      | fin z =>
        simp only [float.lt, decide_eq_true_eq] at h1 h2 ⊢
        exact lt_trans h1 h2
      | inf u => exact h2
      | nan => exact absurd h2 (by simp [float.lt])
    | inf t =>
      cases c with
      | fin z =>
        simp only [float.lt] at h1 h2
        subst h2
        exact absurd h1 (by simp)
      | inf u =>
        simp only [float.lt, Bool.and_eq_true] at h1 h2 ⊢
        exact h2.2
      | nan => exact absurd h2 (by simp [float.lt])
    | nan => exact absurd h1 (by simp [float.lt])
  | inf s =>
    cases b with
    | fin y =>
      cases c with
      | fin z => exact h1
      | inf u =>
        simp only [float.lt, Bool.and_eq_true] at h1 h2 ⊢
        exact ⟨h1, h2⟩
      | nan => exact absurd h2 (by simp [float.lt])
    | inf t =>
      cases c with
      | fin z =>
        simp only [float.lt, Bool.and_eq_true] at h1 h2 ⊢
        exact h1.1
      | inf u =>
        simp only [float.lt, Bool.and_eq_true] at h1 h2 ⊢
        exact ⟨h1.1, h2.2⟩
      | nan => exact absurd h2 (by simp [float.lt])
    | nan => exact absurd h1 (by simp [float.lt])
  | nan => exact absurd h1 (by simp [float.lt])

theorem float_not_lt_of_lt (a b c : float) (h1 : float.lt a c = false)
    (h2 : float.lt a b = true) : float.lt b c = false := by
  cases hbc : float.lt b c with
  | false => rfl
  | true => rw [float_lt_trans a b c h2 hbc] at h1; exact absurd h1 (by simp)

theorem radius_floor_eq : radius_floor = float.fin (2305843 / 2305843009213693952) := by
  decide!

theorem radius_floor_pos : float.lt (float.fin 0) radius_floor = true := by
  decide!

/-! ## Iterates -/

theorem float_ic_iterate_succ (delta epsilon : float) (n : ℕ) (p : point_t) :
    ic_iterate delta epsilon (n + 1) p
      = ic_iter (ic_iterate delta epsilon n p) delta epsilon := by
  unfold ic_iterate
  rw [Function.iterate_succ_apply']

theorem float_ic_iterate_add (delta epsilon : float) (m n : ℕ) (p : point_t) :
    ic_iterate delta epsilon (m + n) p
      = ic_iterate delta epsilon m (ic_iterate delta epsilon n p) := by
  unfold ic_iterate
  rw [Function.iterate_add_apply]

/-! ## The orbit loop in `float` arithmetic -/

theorem float_orbit_loop_spec (delta epsilon : float) (orig : point_t) :
    ∀ (fuel : ℕ) (s : orbit_vars), orbit_inv delta epsilon orig s →
      s.p = ic_iterate delta epsilon (s.orbit_len - 1) orig →
      orbit_inv delta epsilon orig (orbit_loop delta epsilon orig fuel s) := by
  intro fuel
  induction fuel with
  | zero =>
    intro s hinv _
    exact hinv
  | succ fuel ih =>
    intro s hinv hp
    have hpos := hinv.len_pos
    have hnext : ic_iter s.p delta epsilon = ic_iterate delta epsilon s.orbit_len orig := by
      rw [hp, ← float_ic_iterate_succ]
      congr 1
      omega
    by_cases hlt : s.orbit_len < IntegerCircle.MAX_ITERS
    · by_cases heq : eq_pt (ic_iter s.p delta epsilon) orig = true
      · have hres : orbit_loop delta epsilon orig (fuel + 1) s
            = { s with p := ic_iter s.p delta epsilon } := by
          simp [orbit_loop, hlt, heq]
        rw [hres]
        exact ⟨hinv.len_pos, hinv.len_le, hinv.stored, hinv.rad_pos,
          hinv.rad_ge, hinv.rad_attained, hinv.rad_init⟩
      · have hres : orbit_loop delta epsilon orig (fuel + 1) s
            = orbit_loop delta epsilon orig fuel
                { p := ic_iter s.p delta epsilon
                  orbit := Function.update s.orbit s.orbit_len (ic_iter s.p delta epsilon)
                  orbit_len := s.orbit_len + 1
                  radius :=
                    if float.lt s.radius (sq_norm (ic_iter s.p delta epsilon))
                    then sq_norm (ic_iter s.p delta epsilon)
                    else s.radius } := by
          simp [orbit_loop, hlt, heq]
        rw [hres]
        apply ih
        · generalize ic_iter s.p delta epsilon = q at hnext
          refine ⟨by simp, by simpa using hlt, ?_, ?_, ?_, ?_, ?_⟩
          · intro i hi
            simp only at hi ⊢
            by_cases hi2 : i = s.orbit_len
            · subst hi2
              simpa using hnext
            · rw [Function.update_noteq hi2]
              exact hinv.stored i (by omega)
          · simp only
            split_ifs with h
            · exact float_lt_trans _ _ _ hinv.rad_pos h
            · exact hinv.rad_pos
          · intro i hi
            simp only at hi ⊢
            by_cases hi2 : i = s.orbit_len
            · subst hi2
              simp only [Function.update_same]
              split_ifs with h
              · exact float_lt_irrefl _
              · simpa using h
            · rw [Function.update_noteq hi2]
              have := hinv.rad_ge i (by omega)
              split_ifs with h
              · exact float_not_lt_of_lt _ _ _ this h
              · exact this
          · simp only
            split_ifs with h
            · exact Or.inl ⟨s.orbit_len, by omega, by simp⟩
            · rcases hinv.rad_attained with ⟨i, hi, hr⟩ | hr
              · refine Or.inl ⟨i, by omega, ?_⟩
                rw [Function.update_noteq (by omega)]
                exact hr
              · exact Or.inr hr
          · simp only
            by_cases h : float.lt s.radius (sq_norm q) = true
            · rw [if_pos h]
              exact float_not_lt_of_lt _ _ _ hinv.rad_init h
            · rw [if_neg h]
              exact hinv.rad_init
        · simpa using hnext
    · have hres : orbit_loop delta epsilon orig (fuel + 1) s = s := by
        simp [orbit_loop, hlt]
      rw [hres]
      exact hinv

theorem float_trace_orbit_inv (orbit0 : ℕ → point_t) (p : point_t) (delta epsilon : float) :
    orbit_inv delta epsilon p (trace_orbit orbit0 p delta epsilon) := by
  unfold trace_orbit
  apply float_orbit_loop_spec
  · refine ⟨le_refl _, (by decide : 1 ≤ IntegerCircle.MAX_ITERS), ?_, ?_, ?_, ?_,
      float_lt_irrefl _⟩
    · intro i hi
      simp only at hi
      have : i = 0 := by omega
      subst this
      simp [ic_iterate]
    · simp only
      split_ifs with h
      · exact h
      · exact radius_floor_pos
    · intro i hi
      simp only at hi
      have : i = 0 := by omega
      subst this
      simp only [Function.update_same]
      split_ifs with h
      · exact float_lt_irrefl _
      · exact float_not_lt_of_lt _ _ _ (by simpa using h) radius_floor_pos
    · simp only
      split_ifs with h
      · exact Or.inl ⟨0, by omega, by simp⟩
      · exact Or.inr ⟨by simpa using h, rfl⟩
  · simp [ic_iterate]

theorem float_orbit_loop_len_le (delta epsilon : float) (orig : point_t) :
    ∀ (fuel : ℕ) (s : orbit_vars),
      s.orbit_len ≤ (orbit_loop delta epsilon orig fuel s).orbit_len := by
  intro fuel
  induction fuel with
  | zero => intro s; exact le_refl _
  | succ fuel ih =>
    intro s
    by_cases hlt : s.orbit_len < IntegerCircle.MAX_ITERS
    · by_cases heq : eq_pt (ic_iter s.p delta epsilon) orig = true
      · simp [orbit_loop, hlt, heq]
      · simp only [orbit_loop, hlt, heq, if_true]
        refine le_trans ?_ (ih _)
        simp
    · simp [orbit_loop, hlt]

theorem float_orbit_loop_step (delta epsilon : float) (orig : point_t) (fuel : ℕ)
    (s : orbit_vars) (hlt : s.orbit_len < IntegerCircle.MAX_ITERS)
    (h : eq_pt (ic_iter s.p delta epsilon) orig = false) :
    orbit_loop delta epsilon orig (fuel + 1) s
      = orbit_loop delta epsilon orig fuel
          { p := ic_iter s.p delta epsilon
            orbit := Function.update s.orbit s.orbit_len (ic_iter s.p delta epsilon)
            orbit_len := s.orbit_len + 1
            radius :=
              if float.lt s.radius (sq_norm (ic_iter s.p delta epsilon))
              then sq_norm (ic_iter s.p delta epsilon)
              else s.radius } := by
  simp [orbit_loop, hlt, h]

theorem float_trace_orbit_two_le (orbit0 : ℕ → point_t) (p : point_t)
    (delta epsilon : float) (h : eq_pt (ic_iter p delta epsilon) p = false) :
    2 ≤ (trace_orbit orbit0 p delta epsilon).orbit_len := by
  unfold trace_orbit
  simp only
  have hlt : (1 : ℕ) < IntegerCircle.MAX_ITERS := by decide
  rw [show IntegerCircle.MAX_ITERS = 16383 + 1 from rfl,
    float_orbit_loop_step _ _ _ _ _ hlt h]
  refine le_trans (le_of_eq ?_) (float_orbit_loop_len_le delta epsilon p 16383 _)
  rfl

/-! ## Integer-valued points -/

theorem to_float_int_or_nonfinite (z : ℤ) : (to_float (z : ℚ)).int_or_nonfinite := by
  unfold to_float
  split_ifs
  · trivial
  · obtain ⟨w, hw⟩ := round_fmt_int_isInt 24 (-126) z
    show (⌊round32 (z : ℚ)⌋ : ℚ) = round32 (z : ℚ)
    unfold round32
    rw [hw]
    simp

theorem floor_int_or_nonfinite (v : float) : (float.floor v).int_or_nonfinite := by
  cases v with
  | fin q =>
    show (⌊((⌊q⌋ : ℤ) : ℚ)⌋ : ℚ) = ((⌊q⌋ : ℤ) : ℚ)
    simp
  | inf s => trivial
  | nan => trivial

theorem neg_int_or_nonfinite (v : float) (h : v.int_or_nonfinite) :
    (float.neg v).int_or_nonfinite := by
  cases v with
  | fin q =>
    have hq : -q = ((-⌊q⌋ : ℤ) : ℚ) := by
      rw [Int.cast_neg, show ((⌊q⌋ : ℤ) : ℚ) = q from h]
    show (⌊-q⌋ : ℚ) = -q
    rw [hq, Int.floor_intCast]
  | inf s => trivial
  | nan => trivial

theorem add_d_int_or_nonfinite (a b : float) (ha : a.int_or_nonfinite)
    (hb : b.int_or_nonfinite) : (float.add_d a b).int_or_nonfinite := by
  cases a with
  | fin x =>
    cases b with
    | fin y =>
      have hx : x = ((⌊x⌋ : ℤ) : ℚ) := Eq.symm ha
      have hy : y = ((⌊y⌋ : ℤ) : ℚ) := Eq.symm hb
      show (to_float (round64 (x + y))).int_or_nonfinite
      rw [hx, hy, ← Int.cast_add]
      obtain ⟨w, hw⟩ := round_fmt_int_isInt 53 (-1022) (⌊x⌋ + ⌊y⌋)
      unfold round64
      rw [hw]
      exact to_float_int_or_nonfinite w
    | inf t => trivial
    | nan => trivial
  | inf s =>
    cases b with
    | fin y => trivial
    | inf t =>
      show (if s = t then float.inf s else float.nan).int_or_nonfinite
      split_ifs <;> trivial
    | nan => trivial
  | nan => cases b <;> trivial

theorem sub_d_int_or_nonfinite (a b : float) (ha : a.int_or_nonfinite)
    (hb : b.int_or_nonfinite) : (float.sub_d a b).int_or_nonfinite :=
  add_d_int_or_nonfinite a (float.neg b) ha (neg_int_or_nonfinite b hb)

theorem ic_iter_int_or_nonfinite (p : point_t) (delta epsilon : float)
    (hp : p.int_or_nonfinite) : (ic_iter p delta epsilon).int_or_nonfinite := by
  obtain ⟨hx, hy⟩ := hp
  have h1 := sub_d_int_or_nonfinite p.x (float.floor (float.mul delta p.y)) hx
    (floor_int_or_nonfinite _)
  have h2 := add_d_int_or_nonfinite p.y
    (float.floor (float.mul epsilon
      (float.sub_d p.x (float.floor (float.mul delta p.y))))) hy
    (floor_int_or_nonfinite _)
  have h3 := sub_d_int_or_nonfinite _
    (float.floor (float.mul delta (float.add_d p.y
      (float.floor (float.mul epsilon
        (float.sub_d p.x (float.floor (float.mul delta p.y)))))))) h1
    (floor_int_or_nonfinite _)
  exact ⟨h3, h2⟩

theorem ic_iterate_int_or_nonfinite (p : point_t) (delta epsilon : float)
    (hp : p.int_or_nonfinite) (n : ℕ) :
    (ic_iterate delta epsilon n p).int_or_nonfinite := by
  induction n with
  | zero => exact hp
  | succ n ih =>
    rw [float_ic_iterate_succ]
    exact ic_iter_int_or_nonfinite _ _ _ ih

theorem int_or_nonfinite_of_is_int (v : float) (h : v.is_int) : v.int_or_nonfinite := by
  cases v with
  | fin q => exact h
  | inf s => trivial
  | nan => trivial

theorem int_or_nonfinite_of_integer_valued (p : point_t) (hp : integer_valued p) :
    p.int_or_nonfinite :=
  ⟨int_or_nonfinite_of_is_int _ hp.1, int_or_nonfinite_of_is_int _ hp.2⟩

theorem float_eq_self_of_is_int (v : float) (h : v.is_int) : float.eq v v = true := by
  cases v with
  | fin q => simp [float.eq]
  | inf s => exact absurd h (by simp [float.is_int])
  | nan => exact absurd h (by simp [float.is_int])

theorem float_eq_true (a b : float) (h : float.eq a b = true) : a = b := by
  cases a with
  | fin x =>
    cases b with
    | fin y =>
      simp only [float.eq, decide_eq_true_eq] at h
      rw [h]
    | inf t => exact absurd h (by simp [float.eq])
    | nan => exact absurd h (by simp [float.eq])
  | inf s =>
    cases b with
    | fin y => exact absurd h (by simp [float.eq])
    | inf t =>
      simp only [float.eq, decide_eq_true_eq] at h
      rw [h]
    | nan => exact absurd h (by simp [float.eq])
  | nan => cases b <;> exact absurd h (by simp [float.eq])

theorem float_eq_pt_true (p q : point_t) (h : eq_pt p q = true) : p = q := by
  cases p
  cases q
  simp only [eq_pt, Bool.and_eq_true] at h
  rw [float_eq_true _ _ h.1, float_eq_true _ _ h.2]

/-! ## The carried playback point -/

theorem float_audio_loop_succ (delta epsilon : float) (dampen : Bool) (steps n : ℕ)
    (s : audio_vars) :
    audio_loop delta epsilon dampen steps (n + 1) s
      = audio_sample delta epsilon dampen steps n
          (audio_loop delta epsilon dampen steps n s) := by
  unfold audio_loop
  rw [List.range_succ, List.foldl_append]
  rfl

theorem float_audio_sample_play_pt (delta epsilon : float) (dampen : Bool) (steps i : ℕ)
    (s : audio_vars) :
    (audio_sample delta epsilon dampen steps i s).play_pt
      = if i % steps = 0 then ic_iter s.play_pt delta epsilon else s.play_pt := by
  unfold audio_sample
  by_cases h : i % steps = 0 <;> simp only [h, if_true, if_false] <;>
    split_ifs <;> rfl

theorem float_audio_loop_play_pt (delta epsilon : float) (dampen : Bool) (steps n : ℕ)
    (s : audio_vars) :
    (audio_loop delta epsilon dampen steps n s).play_pt
      = ic_iterate delta epsilon (IntegerCircle.advances steps n) s.play_pt := by
  induction n with
  | zero => rfl
  | succ n ih =>
    rw [float_audio_loop_succ, float_audio_sample_play_pt, ih, IntegerCircle.advances_succ]
    by_cases h : n % steps = 0
    · rw [if_pos h, if_pos h, float_ic_iterate_succ]
    · rw [if_neg h, if_neg h]
      rfl

/-! ## The lattice map with rounded products -/

theorem shear_floor_inv_left (delta epsilon : ℚ) (p : ℤ × ℤ) :
    shear_floor_inv delta epsilon (shear_floor delta epsilon p) = p := by
  obtain ⟨m, n⟩ := p
  simp [shear_floor, shear_floor_inv]

theorem shear_floor_inv_right (delta epsilon : ℚ) (p : ℤ × ℤ) :
    shear_floor delta epsilon (shear_floor_inv delta epsilon p) = p := by
  obtain ⟨m, n⟩ := p
  simp [shear_floor, shear_floor_inv]

theorem shear_floor_injective (delta epsilon : ℚ) :
    Function.Injective (shear_floor delta epsilon) :=
  Function.LeftInverse.injective (g := shear_floor_inv delta epsilon)
    (shear_floor_inv_left delta epsilon)

theorem lattice_pt_injective : Function.Injective lattice_pt := by
  intro p q h
  obtain ⟨a, b⟩ := p
  obtain ⟨c, d⟩ := q
  simp only [lattice_pt, point_t.mk.injEq, float.fin.injEq, Int.cast_inj] at h
  rw [h.1, h.2]

theorem ic_iterate_lattice (delta epsilon : ℚ) (s : ℤ × ℤ) (n : ℕ)
    (h : ∀ i, i < n → in_range delta epsilon ((shear_floor delta epsilon)^[i] s)) :
    ic_iterate (float.fin delta) (float.fin epsilon) n (lattice_pt s)
      = lattice_pt ((shear_floor delta epsilon)^[n] s) := by
  induction n with
  | zero => rfl
  | succ n ih =>
    rw [float_ic_iterate_succ, ih (fun i hi => h i (by omega)),
      ic_iter_lattice _ _ _ (h n (by omega)), Function.iterate_succ_apply']

theorem integer_valued_lattice_pt (q : ℤ × ℤ) : integer_valued (lattice_pt q) := by
  constructor
  · show (⌊((q.1 : ℤ) : ℚ)⌋ : ℚ) = ((q.1 : ℤ) : ℚ)
    simp
  · show (⌊((q.2 : ℤ) : ℚ)⌋ : ℚ) = ((q.2 : ℤ) : ℚ)
    simp

/-- C10 as stated fails: the point `(1, 1e30f)` is integer-valued, yet with
`delta = 1e30f` and `epsilon = 1` the product `delta * y` overflows and `ic_iter`
returns `(NaN, -inf)`, which the orbit trace stores as `orbit[1]`; and with the
ordinary parameters `delta = 3/4`, `epsilon = 3` the iterates of `(1, 0)` grow until
iterate `128` is `(NaN, NaN)`, the playback point after `1920` samples of `15` samples
per step; `eq_pt` does not hold of such a point and itself. -/
theorem integer_valued_float_counterexample :
    integer_valued ⟨float.fin 1, float.fin 1000000015047466219876688855040⟩
      ∧ to_float (10 ^ 30) = float.fin 1000000015047466219876688855040
      ∧ ic_iter ⟨float.fin 1, float.fin 1000000015047466219876688855040⟩
          (float.fin 1000000015047466219876688855040) (float.fin 1)
          = ⟨float.nan, float.inf true⟩
      ∧ ¬ integer_valued (ic_iter ⟨float.fin 1, float.fin 1000000015047466219876688855040⟩
          (float.fin 1000000015047466219876688855040) (float.fin 1))
      ∧ 1 < (trace_orbit (fun _ => ⟨float.fin 0, float.fin 0⟩)
          ⟨float.fin 1, float.fin 1000000015047466219876688855040⟩
          (float.fin 1000000015047466219876688855040) (float.fin 1)).orbit_len
      ∧ (trace_orbit (fun _ => ⟨float.fin 0, float.fin 0⟩)
          ⟨float.fin 1, float.fin 1000000015047466219876688855040⟩
          (float.fin 1000000015047466219876688855040) (float.fin 1)).orbit 1
          = ⟨float.nan, float.inf true⟩
      ∧ integer_valued ⟨float.fin 1, float.fin 0⟩
      ∧ ic_iterate (float.fin (3 / 4)) (float.fin 3) 128 ⟨float.fin 1, float.fin 0⟩
          = ⟨float.nan, float.nan⟩
      ∧ (audio_loop (float.fin (3 / 4)) (float.fin 3) false 15 1920
          { play_pt := ⟨float.fin 1, float.fin 0⟩
            old_p := ⟨float.fin 0, float.fin 0⟩
            volume := float.fin 1
            start_volume := float.fin 1
            old_volume := float.fin 0 }).play_pt = ⟨float.nan, float.nan⟩
      ∧ eq_pt ⟨float.nan, float.nan⟩ ⟨float.nan, float.nan⟩ = false := by
  have h1 : ic_iter ⟨float.fin 1, float.fin 1000000015047466219876688855040⟩
      (float.fin 1000000015047466219876688855040) (float.fin 1)
      = ⟨float.nan, float.inf true⟩ := by decide!
  have h128 : ic_iterate (float.fin (3 / 4)) (float.fin 3) 128 ⟨float.fin 1, float.fin 0⟩
      = ⟨float.nan, float.nan⟩ := by decide!
  have hlen := float_trace_orbit_two_le (fun _ => ⟨float.fin 0, float.fin 0⟩)
    ⟨float.fin 1, float.fin 1000000015047466219876688855040⟩
    (float.fin 1000000015047466219876688855040) (float.fin 1) (by rw [h1]; rfl)
  refine ⟨by decide!, by decide!, h1, ?_, hlen, ?_, by decide!, h128, ?_, rfl⟩
  · rw [h1]
    intro h
    exact h.1
  · rw [(float_trace_orbit_inv _ _ _ _).stored 1 hlen]
    exact h1
  · rw [float_audio_loop_play_pt,
      show IntegerCircle.advances 15 1920 = 128 from
        IntegerCircle.advances_mul 15 (by decide) 128]
    exact h128

/-- C10, as the code has it: for every point `p` whose coordinates are finite integers
and all `float` parameters, each coordinate of `ic_iter p delta epsilon` is an integer
or is not finite (an infinity or a NaN); so is each coordinate of every iterate of `p`,
of every point the orbit trace stores from the seed `p`, and of every playback point
the sample loop reaches from `p`; as long as the iterates stay in the range where the
sums are exact (below `2^24` in magnitude) they are finite integers; and because the
seed `p` is finite, `eq_pt q p` holds exactly when `q` and `p` are the same point. -/
theorem integer_valued_float_invariant (p : point_t) (delta epsilon : float)
    (hp : integer_valued p) :
    (ic_iter p delta epsilon).int_or_nonfinite
      ∧ (∀ n, (ic_iterate delta epsilon n p).int_or_nonfinite)
      ∧ (∀ (orbit0 : ℕ → point_t) (i : ℕ),
          i < (trace_orbit orbit0 p delta epsilon).orbit_len →
          ((trace_orbit orbit0 p delta epsilon).orbit i).int_or_nonfinite)
      ∧ (∀ (dampen : Bool) (steps nsamples : ℕ) (s : audio_vars), s.play_pt = p →
          (audio_loop delta epsilon dampen steps nsamples s).play_pt.int_or_nonfinite)
      ∧ (∀ (dq eq : ℚ) (q : ℤ × ℤ) (n : ℕ), p = lattice_pt q →
          (∀ i, i < n → in_range dq eq ((shear_floor dq eq)^[i] q)) →
          integer_valued (ic_iterate (float.fin dq) (float.fin eq) n p))
      ∧ (∀ q, eq_pt q p = true ↔ q = p) := by
  have hp2 := int_or_nonfinite_of_integer_valued p hp
  refine ⟨ic_iter_int_or_nonfinite p delta epsilon hp2,
    ic_iterate_int_or_nonfinite p delta epsilon hp2, ?_, ?_, ?_, ?_⟩
  · intro orbit0 i hi
    rw [(float_trace_orbit_inv orbit0 p delta epsilon).stored i hi]
    exact ic_iterate_int_or_nonfinite p delta epsilon hp2 i
  · intro dampen steps nsamples s hs
    rw [float_audio_loop_play_pt, hs]
    exact ic_iterate_int_or_nonfinite p delta epsilon hp2 _
  · intro dq eq q n hq hr
    rw [hq, ic_iterate_lattice dq eq q n hr]
    exact integer_valued_lattice_pt _
  · intro q
    constructor
    · exact float_eq_pt_true q p
    · intro h
      rw [h]
      unfold eq_pt
      rw [float_eq_self_of_is_int _ hp.1, float_eq_self_of_is_int _ hp.2]
      rfl

/-- Witness for C10 as amended: the lattice point `(3, -2)` with `delta = 1/2` and
`epsilon` the `float` nearest to `1.381966`. -/
theorem integer_valued_float_invariant_witness :
    integer_valued ⟨float.fin 3, float.fin (-2)⟩
      ∧ (ic_iter ⟨float.fin 3, float.fin (-2)⟩ (float.fin (1 / 2))
          (float.fin (11592771 / 8388608))).int_or_nonfinite :=
  ⟨by decide!,
    (integer_valued_float_invariant ⟨float.fin 3, float.fin (-2)⟩ (float.fin (1 / 2))
      (float.fin (11592771 / 8388608)) (by decide!)).1⟩

/-- C17 as stated fails: with `delta = -1` and `epsilon = 0` the three lattice points
`(16777214, 1)`, `(16777215, 1)` and `(16777216, 1)` have the same image
`(16777216, 1)` under `ic_iter`, because the sum `16777216 + 1` is not a `float` and
rounds back to `16777216`; so the first and the second iterate of `(16777214, 1)`
coincide while the iterate number `2 - 1` is not the seed: the orbit enters a cycle
that excludes its seed. -/
theorem ic_iter_float_not_injective :
    ic_iter (lattice_pt (16777216, 1)) (float.fin (-1)) (float.fin 0)
        = lattice_pt (16777216, 1)
      ∧ ic_iter (lattice_pt (16777215, 1)) (float.fin (-1)) (float.fin 0)
        = lattice_pt (16777216, 1)
      ∧ ic_iter (lattice_pt (16777214, 1)) (float.fin (-1)) (float.fin 0)
        = lattice_pt (16777216, 1)
      ∧ lattice_pt (16777214, 1) ≠ lattice_pt (16777216, 1)
      ∧ ic_iterate (float.fin (-1)) (float.fin 0) 1 (lattice_pt (16777214, 1))
        = ic_iterate (float.fin (-1)) (float.fin 0) 2 (lattice_pt (16777214, 1))
      ∧ ic_iterate (float.fin (-1)) (float.fin 0) (2 - 1) (lattice_pt (16777214, 1))
        ≠ lattice_pt (16777214, 1) := by
  refine ⟨by decide!, by decide!, by decide!, by decide!, by decide!, by decide!⟩

/-- C17, as the code has it: the lattice map `shear_floor`, whose three steps use the
`float`-rounded products and exact sums, has the inverse `shear_floor_inv`
(`x1 = x' + floor(fl(delta*y'))`, `y = y' - floor(fl(epsilon*x1))`,
`x = x1 + floor(fl(delta*y))`) and is a bijection of the integer lattice; `ic_iter`
agrees with it on every lattice point whose coordinates and results are below `2^24` in
magnitude, so `ic_iter` is injective on these points; and for a seed whose iterates
before the `k`-th all stay in that range, if the iterates `j < k` coincide then iterate
`k - j` is the seed. -/
theorem ic_iter_float_bijective (delta epsilon : ℚ) :
    (∀ p, shear_floor_inv delta epsilon (shear_floor delta epsilon p) = p)
      ∧ (∀ p, shear_floor delta epsilon (shear_floor_inv delta epsilon p) = p)
      ∧ Function.Bijective (shear_floor delta epsilon)
      ∧ (∀ p, in_range delta epsilon p →
          ic_iter (lattice_pt p) (float.fin delta) (float.fin epsilon)
            = lattice_pt (shear_floor delta epsilon p))
      ∧ (∀ p q, in_range delta epsilon p → in_range delta epsilon q →
          ic_iter (lattice_pt p) (float.fin delta) (float.fin epsilon)
            = ic_iter (lattice_pt q) (float.fin delta) (float.fin epsilon) → p = q)
      ∧ (∀ (s : ℤ × ℤ) (j k : ℕ), j < k →
          (∀ i, i < k → in_range delta epsilon ((shear_floor delta epsilon)^[i] s)) →
          ic_iterate (float.fin delta) (float.fin epsilon) j (lattice_pt s)
            = ic_iterate (float.fin delta) (float.fin epsilon) k (lattice_pt s) →
          ic_iterate (float.fin delta) (float.fin epsilon) (k - j) (lattice_pt s)
            = lattice_pt s) := by
  have hinj := shear_floor_injective delta epsilon
  refine ⟨shear_floor_inv_left delta epsilon, shear_floor_inv_right delta epsilon,
    ⟨hinj, fun q => ⟨shear_floor_inv delta epsilon q,
      shear_floor_inv_right delta epsilon q⟩⟩,
    ic_iter_lattice delta epsilon, ?_, ?_⟩
  · intro p q hp hq h
    rw [ic_iter_lattice delta epsilon p hp, ic_iter_lattice delta epsilon q hq] at h
    exact hinj (lattice_pt_injective h)
  · intro s j k hjk hr h
    rw [ic_iterate_lattice delta epsilon s j (fun i hi => hr i (by omega)),
      ic_iterate_lattice delta epsilon s k hr] at h
    have h2 := lattice_pt_injective h
    have hk : k = j + (k - j) := by omega
    rw [hk, Function.iterate_add_apply] at h2
    have h3 := (hinj.iterate j) h2
    rw [ic_iterate_lattice delta epsilon s (k - j) (fun i hi => hr i (by omega)), ← h3]

/-- Witness for C17 as amended: with `delta = epsilon = 1` the iterates `1` and `5` of
`(0, 1)` coincide, all of them in range, and iterate `4` is `(0, 1)`. -/
theorem ic_iter_float_bijective_witness :
    1 < 5 ∧ (∀ i, i < 5 → in_range 1 1 ((shear_floor 1 1)^[i] (0, 1)))
      ∧ ic_iterate (float.fin 1) (float.fin 1) 1 (lattice_pt (0, 1))
          = ic_iterate (float.fin 1) (float.fin 1) 5 (lattice_pt (0, 1))
      ∧ ic_iterate (float.fin 1) (float.fin 1) (5 - 1) (lattice_pt (0, 1))
          = lattice_pt (0, 1) :=
  ⟨by decide, by decide!, by decide!,
    (ic_iter_float_bijective 1 1).2.2.2.2.2 (0, 1) 1 5 (by decide) (by decide!)
      (by decide!)⟩

/-! ## Volume envelopes in `float` arithmetic -/

theorem float_audio_sample_old_volume (delta epsilon : float) (dampen : Bool)
    (steps i : ℕ) (s : audio_vars) :
    (audio_sample delta epsilon dampen steps i s).old_volume
      = float.mul_d s.old_volume old_factor := by
  unfold audio_sample
  simp only
  split_ifs <;> rfl

theorem float_audio_sample_volume (delta epsilon : float) (dampen : Bool) (steps i : ℕ)
    (s : audio_vars) :
    (audio_sample delta epsilon dampen steps i s).volume
      = if dampen then float.mul_d s.volume dampen_factor else s.volume := by
  unfold audio_sample
  simp only
  split_ifs <;> rfl

theorem float_audio_loop_old_volume (delta epsilon : float) (dampen : Bool)
    (steps n : ℕ) (s : audio_vars) :
    (audio_loop delta epsilon dampen steps n s).old_volume
      = (fun w => float.mul_d w old_factor)^[n] s.old_volume := by
  induction n with
  | zero => rfl
  | succ n ih =>
    rw [float_audio_loop_succ, float_audio_sample_old_volume, ih,
      Function.iterate_succ_apply']

theorem float_audio_loop_volume (delta epsilon : float) (dampen : Bool) (steps n : ℕ)
    (s : audio_vars) :
    (audio_loop delta epsilon dampen steps n s).volume
      = if dampen then (fun w => float.mul_d w dampen_factor)^[n] s.volume
        else s.volume := by
  induction n with
  | zero =>
    cases dampen <;> rfl
  | succ n ih =>
    rw [float_audio_loop_succ, float_audio_sample_volume, ih]
    cases dampen
    · rfl
    · simp only [if_true]
      rw [Function.iterate_succ_apply']

theorem old_factor_eq : old_factor = 8998192055486251 / 9007199254740992 := by
  decide!

theorem dampen_factor_eq : dampen_factor = 9006748894778255 / 9007199254740992 := by
  decide!

/-- One multiplication by a `double` constant, stored as `float`: in the normal range
the stored value is the exact product up to the relative error `2^-23`. -/
theorem mul_d_bounds (v c : ℚ) (h1 : (2 : ℚ) ^ (-126 : ℤ) ≤ v * c)
    (h2 : v * c ≤ 2 ^ 127) :
    ∃ w, float.mul_d (float.fin v) c = float.fin w
      ∧ v * c * (1 - 2 ^ (-23 : ℤ)) ≤ w ∧ w ≤ v * c * (1 + 2 ^ (-23 : ℤ)) := by
  have hpos : (0 : ℚ) < 2 ^ (-126 : ℤ) := by positivity
  have hx : 0 < v * c := lt_of_lt_of_le hpos h1
  have h64low : (2 : ℚ) ^ (-1022 : ℤ) ≤ |v * c| := by
    rw [abs_of_pos hx]
    refine le_trans ?_ h1
    exact (zpow_le_zpow_iff_right₀ (by norm_num)).2 (by norm_num)
  have e64 := round_fmt_rel_err 53 (-1022) (v * c) h64low
  rw [abs_of_pos hx] at e64
  have g64 : (2 : ℚ) ^ (-126 : ℤ) ≤ round64 (v * c) :=
    round_fmt_ge 53 (-1022) (v * c) (-126) (by norm_num) (by norm_num) h1
  have hr64 : 0 < round64 (v * c) := lt_of_lt_of_le hpos g64
  have e32 := round_fmt_rel_err 24 (-126) (round64 (v * c))
    (by rw [abs_of_pos hr64]; exact g64)
  rw [abs_of_pos hr64] at e32
  have e64' := abs_le.1 e64
  have e32' := abs_le.1 e32
  have c53 : (2 : ℚ) ^ (-((53 : ℕ) : ℤ)) = 1 / 9007199254740992 := by norm_num
  have c24 : (2 : ℚ) ^ (-((24 : ℕ) : ℤ)) = 1 / 16777216 := by norm_num
  have c23 : (2 : ℚ) ^ (-23 : ℤ) = 1 / 8388608 := by norm_num
  rw [c53] at e64'
  rw [c24] at e32'
  rw [c23]
  have hlo : v * c * (1 - 1 / 8388608) ≤ round32 (round64 (v * c)) := by
    have : round64 (v * c) = round_fmt 53 (-1022) (v * c) := rfl
    have h32 : round32 (round64 (v * c)) = round_fmt 24 (-126) (round64 (v * c)) := rfl
    rw [h32]
    nlinarith [e64'.1, e32'.1]
  have hhi : round32 (round64 (v * c)) ≤ v * c * (1 + 1 / 8388608) := by
    have h32 : round32 (round64 (v * c)) = round_fmt 24 (-126) (round64 (v * c)) := rfl
    rw [h32]
    have : round64 (v * c) = round_fmt 53 (-1022) (v * c) := rfl
    nlinarith [e64'.2, e32'.2]
  refine ⟨round32 (round64 (v * c)), ?_, hlo, hhi⟩
  show to_float (round64 (v * c)) = _
  apply to_float_of_lt
  have hnn : 0 ≤ round32 (round64 (v * c)) := le_trans (by nlinarith) hlo
  rw [abs_of_nonneg hnn]
  have : v * c * (1 + 1 / 8388608) < 2 ^ 128 := by
    have h128 : (2 : ℚ) ^ 128 = 2 * 2 ^ 127 := by norm_num
    rw [h128]
    nlinarith
  linarith

/-- The accumulated bound over `n` multiplications by a constant `c` in `(0, 1)`: while
the values stay in the normal range, the result is the exact product `v * c^n` up to
the relative error `2^-23` per multiplication. -/
theorem mul_d_iterate_bounds (c : ℚ) (hc0 : 0 < c) (hc1 : c * (1 + 2 ^ (-23 : ℤ)) ≤ 1)
    (v : ℚ) (n : ℕ) (hv : v ≤ 2 ^ 127)
    (hlow : (2 : ℚ) ^ (-126 : ℤ) ≤ v * (c * (1 - 2 ^ (-23 : ℤ))) ^ n) :
    ∃ w, (fun u => float.mul_d u c)^[n] (float.fin v) = float.fin w
      ∧ v * (c * (1 - 2 ^ (-23 : ℤ))) ^ n ≤ w
      ∧ w ≤ v * (c * (1 + 2 ^ (-23 : ℤ))) ^ n := by
  have c23 : (2 : ℚ) ^ (-23 : ℤ) = 1 / 8388608 := by norm_num
  rw [c23] at hc1 hlow ⊢
  have hpos : (0 : ℚ) < 2 ^ (-126 : ℤ) := by positivity
  have hL0 : 0 < c * (1 - 1 / 8388608) := by positivity
  have hL1 : c * (1 - 1 / 8388608) ≤ 1 := by nlinarith
  have hU0 : 0 < c * (1 + 1 / 8388608) := by positivity
  have hc1' : c ≤ 1 := by nlinarith
  induction n with
  | zero =>
    refine ⟨v, rfl, ?_, ?_⟩ <;> simp
  | succ n ih =>
    have hLn : 0 < (c * (1 - 1 / 8388608)) ^ n := pow_pos hL0 n
    have hvpos : 0 < v := by
      by_contra hneg
      have hv0 : v ≤ 0 := not_lt.1 hneg
      have : v * (c * (1 - 1 / 8388608)) ^ (n + 1) ≤ 0 :=
        mul_nonpos_of_nonpos_of_nonneg hv0 (pow_pos hL0 _).le
      linarith
    have hstep : v * (c * (1 - 1 / 8388608)) ^ (n + 1)
        ≤ v * (c * (1 - 1 / 8388608)) ^ n := by
      rw [pow_succ, ← mul_assoc]
      exact mul_le_of_le_one_right (mul_pos hvpos hLn).le hL1
    obtain ⟨w, hw, hwl, hwu⟩ := ih (le_trans hlow hstep)
    have hw0 : 0 < w := lt_of_lt_of_le (mul_pos hvpos hLn) hwl
    have hUn : (c * (1 + 1 / 8388608)) ^ n ≤ 1 := pow_le_one₀ hU0.le hc1
    have h1 : (2 : ℚ) ^ (-126 : ℤ) ≤ w * c := by
      refine le_trans hlow ?_
      rw [pow_succ, ← mul_assoc]
      have : v * (c * (1 - 1 / 8388608)) ^ n * (c * (1 - 1 / 8388608))
          ≤ w * (c * (1 - 1 / 8388608)) :=
        mul_le_mul_of_nonneg_right hwl hL0.le
      have h3 : w * (c * (1 - 1 / 8388608)) ≤ w * c := by nlinarith
      linarith
    have h2 : w * c ≤ 2 ^ 127 := by
      have hwv : w ≤ v := le_trans hwu (mul_le_of_le_one_right hvpos.le hUn)
      have : w * c ≤ w := mul_le_of_le_one_right hw0.le hc1'
      linarith
    obtain ⟨w2, hw2, hl2, hu2⟩ := mul_d_bounds w c h1 h2
    rw [c23] at hl2 hu2
    refine ⟨w2, ?_, ?_, ?_⟩
    · rw [Function.iterate_succ_apply', hw]
      exact hw2
    · rw [pow_succ, ← mul_assoc]
      have : v * (c * (1 - 1 / 8388608)) ^ n * (c * (1 - 1 / 8388608))
          ≤ w * (c * (1 - 1 / 8388608)) :=
        mul_le_mul_of_nonneg_right hwl hL0.le
      linarith
    · rw [pow_succ, ← mul_assoc]
      have : w * (c * (1 + 1 / 8388608))
          ≤ v * (c * (1 + 1 / 8388608)) ^ n * (c * (1 + 1 / 8388608)) :=
        mul_le_mul_of_nonneg_right hwu hU0.le
      linarith

/-- C14 as stated fails: over `30` samples from the volumes `1.0`, with the dampen flag
set, the code leaves `old.volume = 4070283 / 2^22` (about `0.970431089`) and
`volume = 16752067 / 2^24` (about `0.998501003`); these are neither `0.999^30` and
`0.99995^30` nor the `float`s nearest to them, because every product is rounded to
`float` when it is stored. -/
theorem audio_volume_float_counterexample :
    (audio_loop (float.fin (1 / 2)) (float.fin (11592771 / 8388608)) true 15 30
        { play_pt := ⟨float.fin 1, float.fin 0⟩
          old_p := ⟨float.fin 1, float.fin 0⟩
          volume := float.fin 1
          start_volume := float.fin 1
          old_volume := float.fin 1 }).old_volume = float.fin (4070283 / 4194304)
      ∧ (4070283 / 4194304 : ℚ) ≠ 1 * (999 / 1000) ^ 30
      ∧ float.fin (4070283 / 4194304) ≠ to_float (1 * (999 / 1000) ^ 30)
      ∧ (audio_loop (float.fin (1 / 2)) (float.fin (11592771 / 8388608)) true 15 30
        { play_pt := ⟨float.fin 1, float.fin 0⟩
          old_p := ⟨float.fin 1, float.fin 0⟩
          volume := float.fin 1
          start_volume := float.fin 1
          old_volume := float.fin 1 }).volume = float.fin (16752067 / 16777216)
      ∧ (16752067 / 16777216 : ℚ) ≠ 1 * (99995 / 100000) ^ 30
      ∧ float.fin (16752067 / 16777216) ≠ to_float (1 * (99995 / 100000) ^ 30) := by
  refine ⟨?_, by norm_num, by decide!, ?_, by norm_num, by decide!⟩
  · rw [float_audio_loop_old_volume]
    decide!
  · rw [float_audio_loop_volume, if_pos rfl]
    decide!

/-- C14, as the code has it: over a sample loop of `n` samples the old-trajectory volume
is multiplied `n` times by the `double` nearest to `0.999`, each product being rounded
to `double` and then to `float`, whatever the flags are; `state.volume` is multiplied
`n` times in the same way by the `double` nearest to `0.99995` if the dampen flag is
set and is unchanged if it is clear; likewise over an audio-fill pass, where `n` is the
number of samples the pass generates. While the values stay in the normal range of
`float`, a positive volume `v` ends between `v * (c * (1 - 2^-23))^n` and
`v * (c * (1 + 2^-23))^n`, where `c` is the constant: it is `v * c^n` up to a relative
rounding error of `2^-23` per sample. -/
theorem audio_volume_float_decay (delta epsilon : float) (dampen : Bool)
    (steps n expect : ℕ) (s : audio_vars) (v : ℚ) :
    (audio_loop delta epsilon dampen steps n s).old_volume
        = (fun w => float.mul_d w old_factor)^[n] s.old_volume
      ∧ (audio_loop delta epsilon true steps n s).volume
        = (fun w => float.mul_d w dampen_factor)^[n] s.volume
      ∧ (audio_loop delta epsilon false steps n s).volume = s.volume
      ∧ (audio_fill delta epsilon dampen steps expect s).old_volume
        = (fun w => float.mul_d w old_factor)^[IntegerCircle.audio_nsamples steps expect]
            s.old_volume
      ∧ (audio_fill delta epsilon true steps expect s).volume
        = (fun w => float.mul_d w dampen_factor)^[IntegerCircle.audio_nsamples steps expect]
            s.volume
      ∧ (audio_fill delta epsilon false steps expect s).volume = s.volume
      ∧ (s.old_volume = float.fin v → v ≤ 2 ^ 127 →
          (2 : ℚ) ^ (-126 : ℤ) ≤ v * (old_factor * (1 - 2 ^ (-23 : ℤ))) ^ n →
          ∃ w, (audio_loop delta epsilon dampen steps n s).old_volume = float.fin w
            ∧ v * (old_factor * (1 - 2 ^ (-23 : ℤ))) ^ n ≤ w
            ∧ w ≤ v * (old_factor * (1 + 2 ^ (-23 : ℤ))) ^ n)
      ∧ (s.volume = float.fin v → v ≤ 2 ^ 127 →
          (2 : ℚ) ^ (-126 : ℤ) ≤ v * (dampen_factor * (1 - 2 ^ (-23 : ℤ))) ^ n →
          ∃ w, (audio_loop delta epsilon true steps n s).volume = float.fin w
            ∧ v * (dampen_factor * (1 - 2 ^ (-23 : ℤ))) ^ n ≤ w
            ∧ w ≤ v * (dampen_factor * (1 + 2 ^ (-23 : ℤ))) ^ n)
      ∧ |old_factor - 999 / 1000| ≤ 2 ^ (-53 : ℤ)
      ∧ |dampen_factor - 99995 / 100000| ≤ 2 ^ (-53 : ℤ) := by
  refine ⟨float_audio_loop_old_volume _ _ _ _ _ _, ?_, ?_,
    float_audio_loop_old_volume _ _ _ _ _ _, ?_, ?_, ?_, ?_, ?_, ?_⟩
  · rw [float_audio_loop_volume, if_pos rfl]
  · rw [float_audio_loop_volume]
    rfl
  · unfold audio_fill
    rw [float_audio_loop_volume, if_pos rfl]
  · unfold audio_fill
    rw [float_audio_loop_volume]
    rfl
  · intro hs hv hlow
    rw [float_audio_loop_old_volume, hs]
    exact mul_d_iterate_bounds old_factor (by rw [old_factor_eq]; norm_num)
      (by rw [old_factor_eq]; norm_num) v n hv hlow
  · intro hs hv hlow
    rw [float_audio_loop_volume, if_pos rfl, hs]
    exact mul_d_iterate_bounds dampen_factor (by rw [dampen_factor_eq]; norm_num)
      (by rw [dampen_factor_eq]; norm_num) v n hv hlow
  · rw [old_factor_eq]
    rw [abs_le]
    constructor <;> norm_num
  · rw [dampen_factor_eq]
    rw [abs_le]
    constructor <;> norm_num

/-- Witness for C14 as amended: `30` samples from the old volume `1.0`. -/
theorem audio_volume_float_decay_witness :
    (1 : ℚ) ≤ 2 ^ 127
      ∧ (2 : ℚ) ^ (-126 : ℤ) ≤ 1 * (old_factor * (1 - 2 ^ (-23 : ℤ))) ^ 30
      ∧ ∃ w, (audio_loop (float.fin (1 / 2)) (float.fin (11592771 / 8388608)) true 15 30
          { play_pt := ⟨float.fin 1, float.fin 0⟩
            old_p := ⟨float.fin 1, float.fin 0⟩
            volume := float.fin 1
            start_volume := float.fin 1
            old_volume := float.fin 1 }).old_volume = float.fin w
        ∧ 1 * (old_factor * (1 - 2 ^ (-23 : ℤ))) ^ 30 ≤ w
        ∧ w ≤ 1 * (old_factor * (1 + 2 ^ (-23 : ℤ))) ^ 30 :=
  ⟨by norm_num, by decide!,
    (audio_volume_float_decay (float.fin (1 / 2)) (float.fin (11592771 / 8388608)) true
      15 30 0
      { play_pt := ⟨float.fin 1, float.fin 0⟩
        old_p := ⟨float.fin 1, float.fin 0⟩
        volume := float.fin 1
        start_volume := float.fin 1
        old_volume := float.fin 1 } 1).2.2.2.2.2.2.1 rfl (by norm_num) (by decide!)⟩

/-! ## Parameter drift in `float` arithmetic -/

theorem to_float_eq_fin (q r : ℚ) (h : to_float q = float.fin r) : r = round32 q := by
  unfold to_float at h
  split_ifs at h
  injection h with h
  exact h.symm

theorem update_parameter_call_bound (d e : ℚ) (c : float)
    (h : normal_call (float.fin d) (float.fin e) c = true) :
    ∃ d1 e1, update_parameter (float.fin d) (float.fin e) c = (float.fin d1, float.fin e1)
      ∧ d1 ≠ 0
      ∧ |d1 * e1 - d * e| ≤ (2 ^ (-23 : ℤ) + 2 ^ (-48 : ℤ)) * |d * e| := by
  rcases hu : update_parameter (float.fin d) (float.fin e) c with ⟨a, b⟩
  unfold normal_call at h
  rw [hu] at h
  cases a with
  | inf s => exact absurd h (by simp)
  | nan => exact absurd h (by simp)
  | fin d1 =>
    cases b with
    | inf s => exact absurd h (by simp)
    | nan => exact absurd h (by simp)
    | fin e1 =>
      simp only [Bool.and_eq_true, decide_eq_true_eq] at h
      obtain ⟨h1, h2⟩ := h
      unfold update_parameter at hu
      simp only [Prod.mk.injEq] at hu
      obtain ⟨ha, hb⟩ := hu
      rw [ha] at hb
      have hp : float.mul (float.fin d) (float.fin e) = to_float (d * e) := rfl
      rw [hp] at hb
      have hpf : to_float (d * e) = float.fin (round32 (d * e)) := by
        unfold to_float at hb ⊢
        split_ifs at hb ⊢ with hbig
        · exact absurd hb (by simp [float.div])
        · rfl
      rw [hpf] at hb
      have hd1 : d1 ≠ 0 := by
        intro h0
        rw [h0] at hb
        simp only [float.div, if_true] at hb
        split_ifs at hb
      have hq : float.div (float.fin (round32 (d * e))) (float.fin d1)
          = to_float (round32 (d * e) / d1) := by
        simp [float.div, hd1]
      rw [hq] at hb
      have he1 := to_float_eq_fin _ _ hb
      refine ⟨d1, e1, rfl, hd1, ?_⟩
      have r1 := round_fmt_rel_err 24 (-126) (d * e) h1
      have r2 := round_fmt_rel_err 24 (-126) (round32 (d * e) / d1) h2
      have c24 : (2 : ℚ) ^ (-((24 : ℕ) : ℤ)) = 1 / 16777216 := by norm_num
      have c23 : (2 : ℚ) ^ (-23 : ℤ) + 2 ^ (-48 : ℤ)
          = 1 / 16777216 * (1 + 1 / 16777216) + 1 / 16777216 := by norm_num
      rw [c24] at r1 r2
      rw [c23]
      have hr1 : round_fmt 24 (-126) (d * e) = round32 (d * e) := rfl
      have hr2 : round_fmt 24 (-126) (round32 (d * e) / d1) = e1 := he1.symm
      rw [hr1] at r1
      rw [hr2] at r2
      have hsplit : d1 * e1 - d * e
          = d1 * (e1 - round32 (d * e) / d1) + (round32 (d * e) - d * e) := by
        field_simp
        ring
      have hpabs : |round32 (d * e)| ≤ (1 + 1 / 16777216) * |d * e| := by
        have := abs_sub_abs_le_abs_sub (round32 (d * e)) (d * e)
        linarith
      have hterm : |d1 * (e1 - round32 (d * e) / d1)|
          ≤ 1 / 16777216 * |round32 (d * e)| := by
        rw [abs_mul]
        have hd1pos : 0 < |d1| := abs_pos.2 hd1
        have : |d1| * |e1 - round32 (d * e) / d1|
            ≤ |d1| * (1 / 16777216 * |round32 (d * e) / d1|) :=
          mul_le_mul_of_nonneg_left r2 hd1pos.le
        refine le_trans this ?_
        rw [abs_div]
        have : |d1| * (1 / 16777216 * (|round32 (d * e)| / |d1|))
            = 1 / 16777216 * |round32 (d * e)| := by
          field_simp
          ring
        rw [this]
      rw [hsplit]
      refine le_trans (abs_add _ _) ?_
      nlinarith [abs_nonneg (d * e)]

/-- The accumulated change of the product over a run of calls in the normal range. -/
theorem update_parameter_seq_bound (changes : List float) :
    ∀ (d e : ℚ), normal_run (float.fin d, float.fin e) changes = true →
      ∃ d1 e1, update_parameter_seq changes (float.fin d, float.fin e)
          = (float.fin d1, float.fin e1)
        ∧ |d1 * e1 - d * e|
            ≤ ((1 + (2 ^ (-23 : ℤ) + 2 ^ (-48 : ℤ))) ^ changes.length - 1) * |d * e| := by
  induction changes with
  | nil =>
    intro d e _
    exact ⟨d, e, rfl, by simp⟩
  | cons c cs ih =>
    intro d e h
    simp only [normal_run, Bool.and_eq_true] at h
    obtain ⟨hc, hrest⟩ := h
    obtain ⟨d1, e1, hu, _, hb1⟩ := update_parameter_call_bound d e c hc
    rw [hu] at hrest
    obtain ⟨d2, e2, hseq, hb2⟩ := ih d1 e1 hrest
    refine ⟨d2, e2, ?_, ?_⟩
    · show update_parameter_seq cs (update_parameter (float.fin d) (float.fin e) c) = _
      rw [hu]
      exact hseq
    · have hk : (0 : ℚ) ≤ 2 ^ (-23 : ℤ) + 2 ^ (-48 : ℤ) := by positivity
      generalize (2 : ℚ) ^ (-23 : ℤ) + 2 ^ (-48 : ℤ) = k at hb1 hb2 hk ⊢
      have hP1 : |d1 * e1| ≤ (1 + k) * |d * e| := by
        have := abs_sub_abs_le_abs_sub (d1 * e1) (d * e)
        linarith
      have hpow : (1 : ℚ) ≤ (1 + k) ^ cs.length := one_le_pow₀ (by linarith)
      have htri : |d2 * e2 - d * e| ≤ |d2 * e2 - d1 * e1| + |d1 * e1 - d * e| := by
        have := abs_add (d2 * e2 - d1 * e1) (d1 * e1 - d * e)
        rwa [sub_add_sub_cancel] at this
      have h3 : ((1 + k) ^ cs.length - 1) * |d1 * e1|
          ≤ ((1 + k) ^ cs.length - 1) * ((1 + k) * |d * e|) :=
        mul_le_mul_of_nonneg_left hP1 (by linarith)
      have hlen : (1 + k) ^ (c :: cs).length = (1 + k) ^ cs.length * (1 + k) := by
        rw [List.length_cons, pow_succ]
      rw [hlen]
      nlinarith [abs_nonneg (d * e)]

/-- C6 as stated fails: from the start-up parameters `delta = 0.5`,
`epsilon = 1.381966f` and the change `0.00002f`, `update_parameter` returns
`(524309 / 2^20, 11592307 / 2^23)`, whose first entry is not `delta + change`, whose
second is not `delta*epsilon/(delta + change)` and whose product is not
`delta*epsilon`; one frame with `move` set turns the same parameters into
`(16776973 / 2^25, 11592939 / 2^23)`, again of another product; and a frame with `move`
clear changes `delta = 15379115 / 2^25` beside `epsilon = 11/8` to `3844779 / 2^23`. -/
theorem update_parameter_float_counterexample :
    move_change true = float.fin (2748779 / 137438953472)
      ∧ update_parameter (float.fin (1 / 2)) (float.fin (11592771 / 8388608))
          (float.fin (2748779 / 137438953472))
        = (float.fin (524309 / 1048576), float.fin (11592307 / 8388608))
      ∧ (524309 / 1048576 : ℚ) ≠ 1 / 2 + 2748779 / 137438953472
      ∧ (11592307 / 8388608 : ℚ)
        ≠ 1 / 2 * (11592771 / 8388608) / (1 / 2 + 2748779 / 137438953472)
      ∧ (524309 / 1048576 : ℚ) * (11592307 / 8388608) ≠ 1 / 2 * (11592771 / 8388608)
      ∧ frame_move (float.fin (1 / 2)) (float.fin (11592771 / 8388608)) true
        = (float.fin (16776973 / 33554432), float.fin (11592939 / 8388608))
      ∧ (16776973 / 33554432 : ℚ) * (11592939 / 8388608) ≠ 1 / 2 * (11592771 / 8388608)
      ∧ frame_move (float.fin (15379115 / 33554432)) (float.fin (11 / 8)) false
        = (float.fin (3844779 / 8388608), float.fin (11 / 8))
      ∧ (3844779 / 8388608 : ℚ) ≠ 15379115 / 33554432 := by
  refine ⟨by decide!, by decide!, by norm_num, by norm_num, by norm_num, by decide!,
    by norm_num, by decide!, by norm_num⟩

/-- C6, as the code has it: `update_parameter` maps `(delta, epsilon, change)` to
`(fl(delta + change), fl(fl(delta*epsilon) / fl(delta + change)))`, every operation
rounded to `float`. When a call stays in the normal range (finite arguments and
results, product and quotient not below `2^-126`), the new first parameter is not zero
and the product of the two new parameters differs from the old product by at most
`2^-23 + 2^-48` of it; over a run of `n` such calls the product differs from the
initial one by at most `(1 + 2^-23 + 2^-48)^n - 1` of it. The same bound holds for the
call of `frame`, which passes `epsilon` first. -/
theorem update_parameter_float_product (delta epsilon change : float)
    (changes : List float) (d e : ℚ) (move : Bool) :
    update_parameter delta epsilon change
        = (float.add delta change,
           float.div (float.mul delta epsilon) (float.add delta change))
      ∧ (normal_call (float.fin d) (float.fin e) change = true →
          ∃ d1 e1, update_parameter (float.fin d) (float.fin e) change
              = (float.fin d1, float.fin e1)
            ∧ d1 ≠ 0
            ∧ |d1 * e1 - d * e| ≤ (2 ^ (-23 : ℤ) + 2 ^ (-48 : ℤ)) * |d * e|)
      ∧ (normal_run (float.fin d, float.fin e) changes = true →
          ∃ d1 e1, update_parameter_seq changes (float.fin d, float.fin e)
              = (float.fin d1, float.fin e1)
            ∧ |d1 * e1 - d * e|
                ≤ ((1 + (2 ^ (-23 : ℤ) + 2 ^ (-48 : ℤ))) ^ changes.length - 1) * |d * e|)
      ∧ (normal_call (float.fin e) (float.fin d) (move_change move) = true →
          ∃ d1 e1, frame_move (float.fin d) (float.fin e) move
              = (float.fin d1, float.fin e1)
            ∧ e1 ≠ 0
            ∧ |d1 * e1 - d * e| ≤ (2 ^ (-23 : ℤ) + 2 ^ (-48 : ℤ)) * |d * e|) := by
  refine ⟨rfl, update_parameter_call_bound d e change,
    update_parameter_seq_bound changes d e, fun h => ?_⟩
  obtain ⟨e1, d1, hu, hne, hb⟩ := update_parameter_call_bound e d (move_change move) h
  refine ⟨d1, e1, ?_, hne, ?_⟩
  · unfold frame_move
    rw [hu]
  · rw [mul_comm d1 e1, mul_comm d e]
    exact hb

/-- Witness for C6 as amended: three frames with `move` set from the start-up
parameters `delta = 0.5`, `epsilon = 1.381966f`, as a run of calls with `epsilon`
first. -/
theorem update_parameter_float_product_witness :
    normal_run (float.fin (11592771 / 8388608), float.fin (1 / 2))
        [move_change true, move_change true, move_change true] = true
      ∧ ∃ d1 e1, update_parameter_seq [move_change true, move_change true, move_change true]
            (float.fin (11592771 / 8388608), float.fin (1 / 2))
          = (float.fin d1, float.fin e1)
        ∧ |d1 * e1 - 11592771 / 8388608 * (1 / 2)|
            ≤ ((1 + (2 ^ (-23 : ℤ) + 2 ^ (-48 : ℤ)))
                ^ [move_change true, move_change true, move_change true].length - 1)
              * |(11592771 / 8388608 : ℚ) * (1 / 2)| :=
  ⟨by decide!,
    (update_parameter_float_product (float.fin 0) (float.fin 0) (float.fin 0)
      [move_change true, move_change true, move_change true] (11592771 / 8388608) (1 / 2)
      false).2.2.1 (by decide!)⟩

/-! ## The square root -/

theorem isqrt_bits_spec (n : ℕ) : ∀ (k r : ℕ), r ^ 2 ≤ n → n < (r + 2 ^ k) ^ 2 →
    (isqrt_bits n k r) ^ 2 ≤ n ∧ n < (isqrt_bits n k r + 1) ^ 2 := by
  intro k
  induction k with
  | zero =>
    intro r h1 h2
    simp only [isqrt_bits]
    exact ⟨h1, by simpa using h2⟩
  | succ k ih =>
    intro r h1 h2
    simp only [isqrt_bits]
    split_ifs with h
    · apply ih _ h
      have : r + 2 ^ k + 2 ^ k = r + 2 ^ (k + 1) := by rw [pow_succ]; ring
      rw [this]
      exact h2
    · exact ih r h1 (not_le.1 h)

theorem isqrt_spec (n : ℕ) : (isqrt n) ^ 2 ≤ n ∧ n < (isqrt n + 1) ^ 2 := by
  unfold isqrt
  apply isqrt_bits_spec
  · simp
  · rw [zero_add, ← pow_mul]
    by_cases h0 : n = 0
    · rw [h0]
      positivity
    · have h := (nat_log2_spec n h0).2
      refine lt_of_lt_of_le h ?_
      apply Nat.pow_le_pow_right (by norm_num)
      omega

theorem sqrt64_spec (q : ℚ) (hq : 0 < q) :
    (2 : ℚ) ^ (fexp q / 2) ≤ sqrt64 q
      ∧ (sqrt64 q * (1 - 2 ^ (-53 : ℤ))) ^ 2 ≤ q
      ∧ q ≤ (sqrt64 q * (1 + 2 ^ (-53 : ℤ))) ^ 2 := by
  have h0 : q ≠ 0 := ne_of_gt hq
  obtain ⟨hlo, hhi⟩ := fexp_spec q h0
  rw [abs_of_pos hq] at hlo hhi
  have he1 : 2 * (fexp q / 2) ≤ fexp q := by omega
  have he2 : fexp q ≤ 2 * (fexp q / 2) + 1 := by omega
  generalize hedef : fexp q / 2 = e at he1 he2
  have hu : (0 : ℚ) < 2 ^ (e - 52) := by positivity
  have hu2 : (2 : ℚ) ^ (2 * (e - 52)) = (2 ^ (e - 52)) ^ 2 := by
    rw [← zpow_natCast, ← zpow_mul]
    congr 1
    ring
  obtain ⟨K, hK⟩ : ∃ K : ℕ, K = 2 ^ 52 := ⟨_, rfl⟩
  have hKq : (K : ℚ) = 2 ^ (52 : ℕ) := by
    rw [hK]
    push_cast
    rfl
  have hKz : (K : ℚ) = 2 ^ (52 : ℤ) := by
    rw [hKq]
    exact (zpow_natCast (2 : ℚ) 52).symm
  have hKhalf : (K : ℚ) * 2 ^ (-53 : ℤ) = 1 / 2 := by
    rw [hKz, ← zpow_add₀ (by norm_num)]
    norm_num
  have hK1 : (1 : ℚ) ≤ (K : ℚ) := by
    rw [hKq]
    exact one_le_pow₀ (by norm_num)
  -- the scaled argument is at least `2^104`
  have ht_lo : (K : ℚ) ^ 2 ≤ q / 2 ^ (2 * (e - 52)) := by
    rw [le_div_iff₀ (by positivity), hKz, ← zpow_natCast, ← zpow_mul,
      ← zpow_add₀ (by norm_num)]
    refine le_trans ?_ hlo
    apply (zpow_le_zpow_iff_right₀ (by norm_num)).2
    push_cast
    omega
  generalize htdef : q / 2 ^ (2 * (e - 52)) = t at ht_lo
  have htq : q = t * (2 ^ (e - 52)) ^ 2 := by
    rw [← htdef, ← hu2]
    field_simp
  have ht0 : 0 ≤ t := le_trans (by positivity) ht_lo
  have hfl0 : 0 ≤ ⌊t⌋ := Int.floor_nonneg.2 ht0
  have hcast : ((⌊t⌋.toNat : ℕ) : ℚ) = ((⌊t⌋ : ℤ) : ℚ) := by
    rw [← Int.cast_natCast, Int.toNat_of_nonneg hfl0]
  have hn_le : ((⌊t⌋.toNat : ℕ) : ℚ) ≤ t := by
    rw [hcast]
    exact Int.floor_le t
  have hn_gt : t < ((⌊t⌋.toNat : ℕ) : ℚ) + 1 := by
    rw [hcast]
    exact Int.lt_floor_add_one t
  have hn_lo : K ^ 2 ≤ ⌊t⌋.toNat := by
    have h1 : ((K ^ 2 : ℕ) : ℤ) ≤ ⌊t⌋ := by
      apply Int.le_floor.2
      push_cast
      exact ht_lo
    exact (Int.le_toNat hfl0).2 h1
  obtain ⟨hs1, hs2⟩ := isqrt_spec ⌊t⌋.toNat
  generalize hndef : ⌊t⌋.toNat = n at hn_le hn_gt hn_lo hs1 hs2
  generalize hm0def : isqrt n = m0 at hs1 hs2
  have hm0_lo : K ≤ m0 := by
    by_contra hc
    have hlt : m0 + 1 ≤ K := by omega
    have h2 : (m0 + 1) ^ 2 ≤ K ^ 2 := Nat.pow_le_pow_left hlt 2
    exact absurd (lt_of_lt_of_le hs2 (le_trans h2 hn_lo)) (lt_irrefl _)
  have hm0q : (K : ℚ) ≤ (m0 : ℚ) := by exact_mod_cast hm0_lo
  have hsq_lo : (m0 : ℚ) ^ 2 ≤ t := by
    have : ((m0 ^ 2 : ℕ) : ℚ) ≤ (n : ℚ) := by exact_mod_cast hs1
    push_cast at this
    linarith
  have hsq_hi : t < ((m0 : ℚ) + 1) ^ 2 := by
    have h1 : n + 1 ≤ (m0 + 1) ^ 2 := hs2
    have : ((n + 1 : ℕ) : ℚ) ≤ (((m0 + 1) ^ 2 : ℕ) : ℚ) := by exact_mod_cast h1
    push_cast at this
    linarith
  -- the rounded integer `m`
  have hmain : ∀ m : ℕ, (m0 : ℚ) ≤ (m : ℚ) → ((m : ℚ) - 1 / 2) ^ 2 ≤ t →
      t ≤ ((m : ℚ) + 1 / 2) ^ 2 →
      (2 : ℚ) ^ e ≤ (m : ℚ) * 2 ^ (e - 52)
        ∧ ((m : ℚ) * 2 ^ (e - 52) * (1 - 2 ^ (-53 : ℤ))) ^ 2 ≤ q
        ∧ q ≤ ((m : ℚ) * 2 ^ (e - 52) * (1 + 2 ^ (-53 : ℤ))) ^ 2 := by
    intro m hm h1 h2
    have hmq : (K : ℚ) ≤ (m : ℚ) := le_trans hm0q hm
    have hc0 : (0 : ℚ) ≤ 2 ^ (-53 : ℤ) := by positivity
    have hc1 : (2 : ℚ) ^ (-53 : ℤ) ≤ 1 := by
      apply zpow_le_one_of_nonpos₀ (by norm_num) (by norm_num)
    have hhalf : (1 : ℚ) / 2 ≤ (m : ℚ) * 2 ^ (-53 : ℤ) := by
      rw [← hKhalf]
      exact mul_le_mul_of_nonneg_right hmq hc0
    generalize (2 : ℚ) ^ (-53 : ℤ) = c at hc0 hc1 hhalf
    have hmpos : (0 : ℚ) ≤ (m : ℚ) - 1 / 2 := by linarith
    refine ⟨?_, ?_, ?_⟩
    · have : (2 : ℚ) ^ e = 2 ^ (52 : ℤ) * 2 ^ (e - 52) := by
        rw [← zpow_add₀ (by norm_num)]
        congr 1
        ring
      rw [this, ← hKz]
      exact mul_le_mul_of_nonneg_right hmq hu.le
    · rw [htq]
      have hA : (m : ℚ) * (1 - c) ≤ (m : ℚ) - 1 / 2 := by linarith
      have hA0 : (0 : ℚ) ≤ (m : ℚ) * (1 - c) := by
        apply mul_nonneg (by linarith)
        linarith
      have hB : ((m : ℚ) * (1 - c)) ^ 2 ≤ t :=
        le_trans (pow_le_pow_left₀ hA0 hA 2) h1
      have : ((m : ℚ) * 2 ^ (e - 52) * (1 - c)) ^ 2
          = ((m : ℚ) * (1 - c)) ^ 2 * (2 ^ (e - 52)) ^ 2 := by ring
      rw [this]
      exact mul_le_mul_of_nonneg_right hB (by positivity)
    · rw [htq]
      have hA : (m : ℚ) + 1 / 2 ≤ (m : ℚ) * (1 + c) := by linarith
      have hA0 : (0 : ℚ) ≤ (m : ℚ) + 1 / 2 := by linarith
      have hB : t ≤ ((m : ℚ) * (1 + c)) ^ 2 :=
        le_trans h2 (pow_le_pow_left₀ hA0 hA 2)
      have : ((m : ℚ) * 2 ^ (e - 52) * (1 + c)) ^ 2
          = ((m : ℚ) * (1 + c)) ^ 2 * (2 ^ (e - 52)) ^ 2 := by ring
      rw [this]
      exact mul_le_mul_of_nonneg_right hB (by positivity)
  have hm0one : (1 : ℚ) ≤ (m0 : ℚ) := le_trans hK1 hm0q
  unfold sqrt64
  simp only
  rw [hedef, htdef, hndef, hm0def]
  by_cases hc1 : t < ((m0 : ℚ) + 1 / 2) ^ 2
  · rw [if_pos hc1]
    apply hmain m0 (le_refl _) _ hc1.le
    refine le_trans ?_ hsq_lo
    apply pow_le_pow_left₀ (by linarith)
    linarith
  · rw [if_neg hc1]
    have hge : ((m0 : ℚ) + 1 / 2) ^ 2 ≤ t := not_lt.1 hc1
    have hup : ∀ m : ℕ, m = m0 + 1 →
        (m0 : ℚ) ≤ (m : ℚ) ∧ ((m : ℚ) - 1 / 2) ^ 2 ≤ t ∧ t ≤ ((m : ℚ) + 1 / 2) ^ 2 := by
      intro m hm
      subst hm
      push_cast
      refine ⟨by linarith, ?_, ?_⟩
      · have : (m0 : ℚ) + 1 - 1 / 2 = (m0 : ℚ) + 1 / 2 := by ring
        rw [this]
        exact hge
      · refine le_trans hsq_hi.le ?_
        apply pow_le_pow_left₀ (by linarith)
        linarith
    by_cases hc2 : ((m0 : ℚ) + 1 / 2) ^ 2 < t
    · rw [if_pos hc2]
      obtain ⟨a1, a2, a3⟩ := hup (m0 + 1) rfl
      exact hmain (m0 + 1) a1 a2 a3
    · rw [if_neg hc2]
      have heq : t = ((m0 : ℚ) + 1 / 2) ^ 2 := le_antisymm (not_lt.1 hc2) hge
      split_ifs
      · apply hmain m0 (le_refl _) _ heq.le
        refine le_trans ?_ hsq_lo
        apply pow_le_pow_left₀ (by linarith)
        linarith
      · obtain ⟨a1, a2, a3⟩ := hup (m0 + 1) rfl
        exact hmain (m0 + 1) a1 a2 a3

/-! ## Rounding bounds used for the radius -/

theorem round_fmt_nonneg (prec : ℕ) (emin : ℤ) (q : ℚ) (h : 0 ≤ q) :
    0 ≤ round_fmt prec emin q := by
  unfold round_fmt
  apply mul_nonneg
  · have h1 : 0 ≤ ⌊q / 2 ^ (max (fexp q) emin - ((prec : ℤ) - 1))⌋ :=
      Int.floor_nonneg.2 (div_nonneg h (zpow_nonneg (by norm_num) _))
    exact_mod_cast le_trans h1 (floor_le_rne _)
  · exact zpow_nonneg (by norm_num) _

theorem round32_bounds_normal (q : ℚ) (h : (2 : ℚ) ^ (-126 : ℤ) ≤ q) :
    q * (1 - 1 / 16777216) ≤ round32 q ∧ round32 q ≤ q * (1 + 1 / 16777216) := by
  have hpos : (0 : ℚ) < 2 ^ (-126 : ℤ) := by positivity
  have hq : 0 < q := lt_of_lt_of_le hpos h
  have e := round_fmt_rel_err 24 (-126) q (by rw [abs_of_pos hq]; exact h)
  rw [abs_of_pos hq] at e
  have c24 : (2 : ℚ) ^ (-((24 : ℕ) : ℤ)) = 1 / 16777216 := by norm_num
  rw [c24] at e
  have e' := abs_le.1 e
  have hr : round32 q = round_fmt 24 (-126) q := rfl
  rw [hr]
  constructor <;> linarith [e'.1, e'.2]

theorem round32_bounds (q : ℚ) (h : q = 0 ∨ 1 ≤ q) :
    q * (1 - 1 / 16777216) ≤ round32 q ∧ round32 q ≤ q * (1 + 1 / 16777216)
      ∧ (round32 q = 0 ∨ 1 ≤ round32 q) := by
  rcases h with h | h
  · have hz : round32 q = 0 := by
      rw [h]
      exact round_fmt_zero 24 (-126)
    rw [hz, h]
    exact ⟨by norm_num, by norm_num, Or.inl rfl⟩
  · have h126 : (2 : ℚ) ^ (-126 : ℤ) ≤ q := by
      refine le_trans ?_ h
      exact zpow_le_one_of_nonpos₀ (by norm_num) (by norm_num)
    obtain ⟨b1, b2⟩ := round32_bounds_normal q h126
    refine ⟨b1, b2, Or.inr ?_⟩
    have := round_fmt_ge 24 (-126) q 0 (by norm_num) (by norm_num) (by simpa using h)
    simpa using this

theorem int_sq_zero_or_one_le (a : ℚ) (ha : (⌊a⌋ : ℚ) = a) : a * a = 0 ∨ 1 ≤ a * a := by
  by_cases h0 : ⌊a⌋ = 0
  · left
    rw [← ha, h0]
    simp
  · right
    rw [← ha]
    have h1 : 1 ≤ ⌊a⌋ * ⌊a⌋ := by
      rcases lt_or_gt_of_ne h0 with h | h
      · nlinarith
      · nlinarith
    exact_mod_cast h1

/-! ## The squared norm -/

theorem to_float_sq_cases (q : ℚ) (hq : 0 ≤ q) :
    (to_float q = float.fin (round32 q) ∧ |round32 q| < 2 ^ 128)
      ∨ to_float q = float.inf false := by
  unfold to_float
  split_ifs with h
  · right
    have : ¬ q < 0 := not_lt.2 hq
    simp [this]
  · left
    exact ⟨rfl, not_le.1 h⟩

theorem sq_norm_fin_cases (a b : ℚ) :
    sq_norm ⟨float.fin a, float.fin b⟩
        = float.fin (round32 (round32 (a * a) + round32 (b * b)))
      ∨ sq_norm ⟨float.fin a, float.fin b⟩ = float.inf false := by
  have hsq : sq_norm ⟨float.fin a, float.fin b⟩
      = float.add (to_float (a * a)) (to_float (b * b)) := rfl
  rw [hsq]
  have ha0 : 0 ≤ a * a := mul_self_nonneg a
  have hb0 : 0 ≤ b * b := mul_self_nonneg b
  rcases to_float_sq_cases (a * a) ha0 with ⟨ha, ha2⟩ | ha
  · rcases to_float_sq_cases (b * b) hb0 with ⟨hb, hb2⟩ | hb
    · rw [ha, hb]
      have hsum : 0 ≤ round32 (a * a) + round32 (b * b) :=
        add_nonneg (round_fmt_nonneg 24 (-126) _ ha0) (round_fmt_nonneg 24 (-126) _ hb0)
      rcases to_float_sq_cases _ hsum with ⟨hs, _⟩ | hs
      · left
        exact hs
      · right
        exact hs
    · right
      rw [ha, hb]
      rfl
  · right
    rw [ha]
    rcases to_float_sq_cases (b * b) hb0 with ⟨hb, _⟩ | hb
    · rw [hb]
      rfl
    · rw [hb]
      rfl

theorem float_add_eq_fin (x y : float) (R : ℚ) (h : float.add x y = float.fin R) :
    ∃ a b, x = float.fin a ∧ y = float.fin b := by
  cases x with
  | fin a =>
    cases y with
    | fin b => exact ⟨a, b, rfl, rfl⟩
    | inf t => exact absurd h (by simp [float.add])
    | nan => exact absurd h (by simp [float.add])
  | inf s =>
    cases y with
    | fin b => exact absurd h (by simp [float.add])
    | inf t =>
      simp only [float.add] at h
      split_ifs at h
    | nan => exact absurd h (by simp [float.add])
  | nan => cases y <;> exact absurd h (by simp [float.add])

theorem float_mul_self_eq_fin (x : float) (R : ℚ) (h : float.mul x x = float.fin R) :
    ∃ a, x = float.fin a := by
  cases x with
  | fin a => exact ⟨a, rfl⟩
  | inf s => exact absurd h (by simp [float.mul])
  | nan => exact absurd h (by simp [float.mul])

theorem sq_norm_eq_fin (p : point_t) (R : ℚ) (h : sq_norm p = float.fin R) :
    ∃ a b, p = ⟨float.fin a, float.fin b⟩
      ∧ R = round32 (round32 (a * a) + round32 (b * b)) := by
  obtain ⟨x, y⟩ := p
  have h' : float.add (float.mul x x) (float.mul y y) = float.fin R := h
  obtain ⟨u, v, hu, hv⟩ := float_add_eq_fin _ _ _ h'
  obtain ⟨a, ha⟩ := float_mul_self_eq_fin x u hu
  obtain ⟨b, hb⟩ := float_mul_self_eq_fin y v hv
  subst ha
  subst hb
  refine ⟨a, b, rfl, ?_⟩
  rcases sq_norm_fin_cases a b with hc | hc
  · rw [hc] at h
    injection h with h
    exact h.symm
  · rw [hc] at h
    exact absurd h (by simp)

/-- The computed squared norm of a lattice point against the exact one. -/
theorem sq_norm_bounds (a b : ℚ) (ha : (⌊a⌋ : ℚ) = a) (hb : (⌊b⌋ : ℚ) = b) :
    (a * a + b * b) * (1 - 1 / 16777216) ^ 2
        ≤ round32 (round32 (a * a) + round32 (b * b))
      ∧ round32 (round32 (a * a) + round32 (b * b))
        ≤ (a * a + b * b) * (1 + 1 / 16777216) ^ 2
      ∧ ((a = 0 ∧ b = 0) ∨ 1 ≤ round32 (round32 (a * a) + round32 (b * b))) := by
  obtain ⟨a1, a2, a3⟩ := round32_bounds (a * a) (int_sq_zero_or_one_le a ha)
  obtain ⟨b1, b2, b3⟩ := round32_bounds (b * b) (int_sq_zero_or_one_le b hb)
  have ha0 : 0 ≤ a * a := mul_self_nonneg a
  have hb0 : 0 ≤ b * b := mul_self_nonneg b
  have hra0 : 0 ≤ round32 (a * a) := round_fmt_nonneg 24 (-126) _ ha0
  have hrb0 : 0 ≤ round32 (b * b) := round_fmt_nonneg 24 (-126) _ hb0
  have hS : round32 (a * a) + round32 (b * b) = 0
      ∨ 1 ≤ round32 (a * a) + round32 (b * b) := by
    rcases a3 with a3 | a3
    · rcases b3 with b3 | b3
      · left
        rw [a3, b3]
        norm_num
      · right
        linarith
    · right
      linarith
  obtain ⟨s1, s2, s3⟩ := round32_bounds _ hS
  refine ⟨?_, ?_, ?_⟩
  · nlinarith
  · nlinarith
  · rcases s3 with s3 | s3
    · left
      have hz : round32 (a * a) + round32 (b * b) = 0 := by
        rcases hS with hS | hS
        · exact hS
        · have := s1
          rw [s3] at this
          nlinarith
      have hza : a * a = 0 := by nlinarith
      have hzb : b * b = 0 := by nlinarith
      exact ⟨mul_self_eq_zero.1 hza, mul_self_eq_zero.1 hzb⟩
    · right
      exact s3

theorem integer_valued_cases (p : point_t) (hp : integer_valued p) :
    ∃ a b, p = ⟨float.fin a, float.fin b⟩ ∧ (⌊a⌋ : ℚ) = a ∧ (⌊b⌋ : ℚ) = b := by
  obtain ⟨x, y⟩ := p
  obtain ⟨hx, hy⟩ := hp
  cases x with
  | fin a =>
    cases y with
    | fin b => exact ⟨a, b, rfl, hx, hy⟩
    | inf t => exact absurd hy (by simp [float.is_int])
    | nan => exact absurd hy (by simp [float.is_int])
  | inf s => exact absurd hx (by simp [float.is_int])
  | nan => exact absurd hx (by simp [float.is_int])

theorem sq_norm_origin : sq_norm ⟨float.fin 0, float.fin 0⟩ = float.fin 0 := by
  decide!

/-- The squared norm the code computes for an integer-valued seed: `0` at the origin,
otherwise a number that is at least `1`, or an infinity. -/
theorem sq_norm_seed (p : point_t) (hp : integer_valued p) :
    p = ⟨float.fin 0, float.fin 0⟩ ∨ (∃ q, sq_norm p = float.fin q ∧ 1 ≤ q)
      ∨ sq_norm p = float.inf false := by
  obtain ⟨a, b, rfl, ha, hb⟩ := integer_valued_cases p hp
  rcases sq_norm_fin_cases a b with hc | hc
  · obtain ⟨_, _, h3⟩ := sq_norm_bounds a b ha hb
    rcases h3 with ⟨h0a, h0b⟩ | h3
    · left
      rw [h0a, h0b]
    · right
      left
      exact ⟨_, hc, h3⟩
  · right
    right
    exact hc

/-- The value the orbit trace leaves in `state.radius` before the square root is taken,
for an integer-valued seed: an infinity, or a number that is at least `2^-40`. -/
theorem trace_orbit_radius_cases (orbit0 : ℕ → point_t) (p : point_t)
    (delta epsilon : float) (hp : integer_valued p) :
    (trace_orbit orbit0 p delta epsilon).radius = float.inf false
      ∨ ∃ R, (trace_orbit orbit0 p delta epsilon).radius = float.fin R
          ∧ (2 : ℚ) ^ (-40 : ℤ) ≤ R := by
  have hinv := float_trace_orbit_inv orbit0 p delta epsilon
  have hpos := hinv.rad_pos
  have hinit := hinv.rad_init
  generalize (trace_orbit orbit0 p delta epsilon).radius = rad at hpos hinit
  cases rad with
  | inf s =>
    left
    cases s
    · rfl
    · exact absurd hpos (by simp [float.lt])
  | nan => exact absurd hpos (by simp [float.lt])
  | fin R =>
    right
    refine ⟨R, rfl, ?_⟩
    rcases sq_norm_seed p hp with h0 | ⟨q, hq, hq1⟩ | hinf
    · rw [h0, sq_norm_origin] at hinit
      have hlt : float.lt (float.fin 0) (float.fin 0) = false := float_lt_irrefl _
      rw [hlt, radius_floor_eq] at hinit
      simp only [Bool.false_eq_true, if_false, float.lt, decide_eq_false_iff_not,
        not_lt] at hinit
      refine le_trans ?_ hinit
      norm_num
    · rw [hq] at hinit
      have hlt : float.lt (float.fin 0) (float.fin q) = true := by
        simp only [float.lt, decide_eq_true_eq]
        linarith
      rw [hlt] at hinit
      simp only [if_true, float.lt, decide_eq_false_iff_not, not_lt] at hinit
      refine le_trans ?_ (le_trans hq1 hinit)
      exact zpow_le_one_of_nonpos₀ (by norm_num) (by norm_num)
    · rw [hinf] at hinit
      have hlt : float.lt (float.fin 0) (float.inf false) = true := rfl
      rw [hlt] at hinit
      exact absurd hinit (by simp [float.lt])

/-- The square root of a squared radius that is at least `2^-40`: an infinity, or the
rounded root, which is at least `2^-20`. -/
theorem float_sqrt_cases (R : ℚ) (hR : (2 : ℚ) ^ (-40 : ℤ) ≤ R) :
    float.sqrt (float.fin R) = float.inf false
      ∨ (float.sqrt (float.fin R) = float.fin (round32 (sqrt64 R))
          ∧ (2 : ℚ) ^ (-20 : ℤ) ≤ sqrt64 R
          ∧ (2 : ℚ) ^ (-20 : ℤ) ≤ round32 (sqrt64 R)) := by
  have hpos : (0 : ℚ) < 2 ^ (-40 : ℤ) := by positivity
  have hR0 : 0 < R := lt_of_lt_of_le hpos hR
  have hsq : float.sqrt (float.fin R) = to_float (sqrt64 R) := by
    simp only [float.sqrt]
    rw [if_neg (not_lt.2 hR0.le), if_neg (ne_of_gt hR0)]
  rw [hsq]
  obtain ⟨hd, _, _⟩ := sqrt64_spec R hR0
  have hfe : -40 ≤ fexp R :=
    le_fexp_of_le_abs R (-40) (ne_of_gt hR0) (by rw [abs_of_pos hR0]; exact hR)
  have hd20 : (2 : ℚ) ^ (-20 : ℤ) ≤ sqrt64 R := by
    refine le_trans ?_ hd
    apply (zpow_le_zpow_iff_right₀ (by norm_num)).2
    omega
  have hd0 : 0 ≤ sqrt64 R := le_trans (by positivity) hd20
  rcases to_float_sq_cases (sqrt64 R) hd0 with ⟨h1, _⟩ | h1
  · right
    refine ⟨h1, hd20, ?_⟩
    exact round_fmt_ge 24 (-126) (sqrt64 R) (-20) (by norm_num) (by norm_num) hd20
  · left
    exact h1

theorem stored_point_int (orbit0 : ℕ → point_t) (seed : point_t) (delta epsilon : float)
    (hseed : integer_valued seed) (i : ℕ) (a b : ℚ)
    (hi : i < (trace_orbit orbit0 seed delta epsilon).orbit_len)
    (h : (trace_orbit orbit0 seed delta epsilon).orbit i = ⟨float.fin a, float.fin b⟩) :
    (⌊a⌋ : ℚ) = a ∧ (⌊b⌋ : ℚ) = b := by
  have hst := (float_trace_orbit_inv orbit0 seed delta epsilon).stored i hi
  have hint := ic_iterate_int_or_nonfinite seed delta epsilon
    (int_or_nonfinite_of_integer_valued seed hseed) i
  rw [← hst, h] at hint
  exact hint

theorem radius_upper_algebra (N R d r : ℚ) (h1 : N * (1 - 1 / 16777216) ^ 2 ≤ R)
    (h2 : R ≤ (d * (1 + 2 ^ (-53 : ℤ))) ^ 2) (h3 : d * (1 - 1 / 16777216) ≤ r)
    (hd : 0 ≤ d) : N ≤ ((1 + 2 ^ (-22 : ℤ)) * r) ^ 2 := by
  have c53 : (2 : ℚ) ^ (-53 : ℤ) = 1 / 9007199254740992 := by norm_num
  have c22 : (2 : ℚ) ^ (-22 : ℤ) = 1 / 4194304 := by norm_num
  rw [c53] at h2
  rw [c22]
  have h4 : (d * (1 - 1 / 16777216)) ^ 2 ≤ r ^ 2 :=
    pow_le_pow_left₀ (mul_nonneg hd (by norm_num)) h3 2
  have k1 : N * (1 - 1 / 16777216) ^ 4 ≤ r ^ 2 * (1 + 1 / 9007199254740992) ^ 2 := by
    calc N * (1 - 1 / 16777216) ^ 4
        = (N * (1 - 1 / 16777216) ^ 2) * (1 - 1 / 16777216) ^ 2 := by ring
      _ ≤ R * (1 - 1 / 16777216) ^ 2 := mul_le_mul_of_nonneg_right h1 (sq_nonneg _)
      _ ≤ (d * (1 + 1 / 9007199254740992)) ^ 2 * (1 - 1 / 16777216) ^ 2 :=
          mul_le_mul_of_nonneg_right h2 (sq_nonneg _)
      _ = (d * (1 - 1 / 16777216)) ^ 2 * (1 + 1 / 9007199254740992) ^ 2 := by ring
      _ ≤ r ^ 2 * (1 + 1 / 9007199254740992) ^ 2 :=
          mul_le_mul_of_nonneg_right h4 (sq_nonneg _)
  have k2 : (1 + 1 / 9007199254740992 : ℚ) ^ 2
      ≤ (1 + 1 / 4194304) ^ 2 * (1 - 1 / 16777216) ^ 4 := by norm_num
  have k3 : N * (1 - 1 / 16777216) ^ 4
      ≤ ((1 + 1 / 4194304) * r) ^ 2 * (1 - 1 / 16777216) ^ 4 := by
    have : r ^ 2 * (1 + 1 / 9007199254740992) ^ 2
        ≤ r ^ 2 * ((1 + 1 / 4194304) ^ 2 * (1 - 1 / 16777216) ^ 4) :=
      mul_le_mul_of_nonneg_left k2 (sq_nonneg r)
    calc N * (1 - 1 / 16777216) ^ 4 ≤ r ^ 2 * (1 + 1 / 9007199254740992) ^ 2 := k1
      _ ≤ r ^ 2 * ((1 + 1 / 4194304) ^ 2 * (1 - 1 / 16777216) ^ 4) := this
      _ = ((1 + 1 / 4194304) * r) ^ 2 * (1 - 1 / 16777216) ^ 4 := by ring
  exact le_of_mul_le_mul_right k3 (by norm_num)

theorem radius_lower_algebra (N R d r : ℚ) (h1 : R ≤ N * (1 + 1 / 16777216) ^ 2)
    (h2 : (d * (1 - 2 ^ (-53 : ℤ))) ^ 2 ≤ R) (h3 : r ≤ d * (1 + 1 / 16777216))
    (hr : 0 ≤ r) : ((1 - 2 ^ (-22 : ℤ)) * r) ^ 2 ≤ N := by
  have c53 : (2 : ℚ) ^ (-53 : ℤ) = 1 / 9007199254740992 := by norm_num
  have c22 : (2 : ℚ) ^ (-22 : ℤ) = 1 / 4194304 := by norm_num
  rw [c53] at h2
  rw [c22]
  have h4 : r ^ 2 ≤ (d * (1 + 1 / 16777216)) ^ 2 := pow_le_pow_left₀ hr h3 2
  have k1 : r ^ 2 * (1 - 1 / 9007199254740992) ^ 2 ≤ N * (1 + 1 / 16777216) ^ 4 := by
    calc r ^ 2 * (1 - 1 / 9007199254740992) ^ 2
        ≤ (d * (1 + 1 / 16777216)) ^ 2 * (1 - 1 / 9007199254740992) ^ 2 :=
          mul_le_mul_of_nonneg_right h4 (sq_nonneg _)
      _ = (d * (1 - 1 / 9007199254740992)) ^ 2 * (1 + 1 / 16777216) ^ 2 := by ring
      _ ≤ R * (1 + 1 / 16777216) ^ 2 := mul_le_mul_of_nonneg_right h2 (sq_nonneg _)
      _ ≤ (N * (1 + 1 / 16777216) ^ 2) * (1 + 1 / 16777216) ^ 2 :=
          mul_le_mul_of_nonneg_right h1 (sq_nonneg _)
      _ = N * (1 + 1 / 16777216) ^ 4 := by ring
  have k2 : (1 - 1 / 4194304 : ℚ) ^ 2 * (1 + 1 / 16777216) ^ 4
      ≤ (1 - 1 / 9007199254740992) ^ 2 := by norm_num
  have k3 : ((1 - 1 / 4194304) * r) ^ 2 * (1 + 1 / 16777216) ^ 4
      ≤ N * (1 + 1 / 16777216) ^ 4 := by
    have : r ^ 2 * ((1 - 1 / 4194304) ^ 2 * (1 + 1 / 16777216) ^ 4)
        ≤ r ^ 2 * (1 - 1 / 9007199254740992) ^ 2 :=
      mul_le_mul_of_nonneg_left k2 (sq_nonneg r)
    calc ((1 - 1 / 4194304) * r) ^ 2 * (1 + 1 / 16777216) ^ 4
        = r ^ 2 * ((1 - 1 / 4194304) ^ 2 * (1 + 1 / 16777216) ^ 4) := by ring
      _ ≤ r ^ 2 * (1 - 1 / 9007199254740992) ^ 2 := this
      _ ≤ N * (1 + 1 / 16777216) ^ 4 := k1
  exact le_of_mul_le_mul_right k3 (by norm_num)

/-- The radius is a number only if the squared radius is one; then it is the rounded
root, in the normal range. -/
theorem frame_radius_fin (orbit0 : ℕ → point_t) (seed : point_t) (delta epsilon : float)
    (hseed : integer_valued seed) (r : ℚ)
    (hr : frame_radius (trace_orbit orbit0 seed delta epsilon).radius = float.fin r) :
    ∃ R, (trace_orbit orbit0 seed delta epsilon).radius = float.fin R ∧ 0 < R
      ∧ r = round32 (sqrt64 R) ∧ (2 : ℚ) ^ (-20 : ℤ) ≤ sqrt64 R
      ∧ (2 : ℚ) ^ (-20 : ℤ) ≤ r := by
  rcases trace_orbit_radius_cases orbit0 seed delta epsilon hseed with hinf | ⟨R, hR, hR40⟩
  · rw [hinf] at hr
    exact absurd hr (by simp [frame_radius, float.sqrt])
  · rw [hR] at hr
    have hpos : (0 : ℚ) < 2 ^ (-40 : ℤ) := by positivity
    rcases float_sqrt_cases R hR40 with hs | ⟨hs, hd, hrd⟩
    · unfold frame_radius at hr
      rw [hs] at hr
      exact absurd hr (by simp)
    · unfold frame_radius at hr
      rw [hs] at hr
      injection hr with hr
      refine ⟨R, hR, lt_of_lt_of_le hpos hR40, hr.symm, hd, ?_⟩
      rw [← hr]
      exact hrd

/-- C4 as stated fails: from the seed `(1, 1)` with `delta = epsilon = 0` the trace
stores the single point `(1, 1)` and the squared radius `2`, whose root the code rounds
to `11863283 / 2^23`; the square of this radius is below `2`, so the stored point has a
greater norm than the radius and the square of the radius is not the maximum squared
norm. From the seed `(4097, 1)` the squared norm `16785410` is itself rounded to
`16785408`, and the radius is `4097`, again below the norm of the stored point. -/
theorem frame_radius_float_counterexample :
    integer_valued ⟨float.fin 1, float.fin 1⟩
      ∧ (trace_orbit (fun _ => ⟨float.fin 0, float.fin 0⟩) ⟨float.fin 1, float.fin 1⟩
          (float.fin 0) (float.fin 0)).orbit_len = 1
      ∧ (trace_orbit (fun _ => ⟨float.fin 0, float.fin 0⟩) ⟨float.fin 1, float.fin 1⟩
          (float.fin 0) (float.fin 0)).orbit 0 = ⟨float.fin 1, float.fin 1⟩
      ∧ (trace_orbit (fun _ => ⟨float.fin 0, float.fin 0⟩) ⟨float.fin 1, float.fin 1⟩
          (float.fin 0) (float.fin 0)).radius = float.fin 2
      ∧ frame_radius (float.fin 2) = float.fin (11863283 / 8388608)
      ∧ (11863283 / 8388608 : ℚ) ^ 2 < 1 * 1 + 1 * 1
      ∧ integer_valued ⟨float.fin 4097, float.fin 1⟩
      ∧ (trace_orbit (fun _ => ⟨float.fin 0, float.fin 0⟩) ⟨float.fin 4097, float.fin 1⟩
          (float.fin 0) (float.fin 0)).orbit_len = 1
      ∧ (trace_orbit (fun _ => ⟨float.fin 0, float.fin 0⟩) ⟨float.fin 4097, float.fin 1⟩
          (float.fin 0) (float.fin 0)).orbit 0 = ⟨float.fin 4097, float.fin 1⟩
      ∧ (trace_orbit (fun _ => ⟨float.fin 0, float.fin 0⟩) ⟨float.fin 4097, float.fin 1⟩
          (float.fin 0) (float.fin 0)).radius = float.fin 16785408
      ∧ frame_radius (float.fin 16785408) = float.fin 4097
      ∧ (4097 : ℚ) ^ 2 < 4097 * 4097 + 1 * 1 := by
  refine ⟨by decide!, by decide!, by decide!, by decide!, by decide!, by norm_num,
    by decide!, by decide!, by decide!, by decide!, by decide!, by norm_num⟩

/-- C4, as the code has it: after the orbit trace from an integer-valued seed the
radius (the rounded square root of the value the loop leaves in `state.radius`) is
strictly positive and at least `1e-12`, possibly infinite; the squared norm the code
computes in `float` for a stored point is never greater than the squared radius; when
the radius is a number, every stored point with finite coordinates `(a, b)` has
`a^2 + b^2 ≤ ((1 + 2^-22) * radius)^2`; and when the seed is not the origin the squared
radius is the computed squared norm of some stored point, which has
`((1 - 2^-22) * radius)^2 ≤ a^2 + b^2` when the radius is a number: the radius is the
maximum norm up to the relative rounding error `2^-22`. -/
theorem frame_radius_float_spec (orbit0 : ℕ → point_t) (seed : point_t)
    (delta epsilon : float) (hseed : integer_valued seed) :
    float.lt (float.fin 0)
        (frame_radius (trace_orbit orbit0 seed delta epsilon).radius) = true
      ∧ float.lt (frame_radius (trace_orbit orbit0 seed delta epsilon).radius)
          (float.fin (1 / 10 ^ 12)) = false
      ∧ (∀ i, i < (trace_orbit orbit0 seed delta epsilon).orbit_len →
          float.lt (trace_orbit orbit0 seed delta epsilon).radius
            (sq_norm ((trace_orbit orbit0 seed delta epsilon).orbit i)) = false)
      ∧ (∀ i a b r, i < (trace_orbit orbit0 seed delta epsilon).orbit_len →
          (trace_orbit orbit0 seed delta epsilon).orbit i = ⟨float.fin a, float.fin b⟩ →
          frame_radius (trace_orbit orbit0 seed delta epsilon).radius = float.fin r →
          a * a + b * b ≤ ((1 + 2 ^ (-22 : ℤ)) * r) ^ 2)
      ∧ (seed ≠ ⟨float.fin 0, float.fin 0⟩ →
          ∃ i, i < (trace_orbit orbit0 seed delta epsilon).orbit_len
            ∧ (trace_orbit orbit0 seed delta epsilon).radius
              = sq_norm ((trace_orbit orbit0 seed delta epsilon).orbit i))
      ∧ (seed ≠ ⟨float.fin 0, float.fin 0⟩ → ∀ r,
          frame_radius (trace_orbit orbit0 seed delta epsilon).radius = float.fin r →
          ∃ i a b, i < (trace_orbit orbit0 seed delta epsilon).orbit_len
            ∧ (trace_orbit orbit0 seed delta epsilon).orbit i
              = ⟨float.fin a, float.fin b⟩
            ∧ ((1 - 2 ^ (-22 : ℤ)) * r) ^ 2 ≤ a * a + b * b) := by
  have hinv := float_trace_orbit_inv orbit0 seed delta epsilon
  have hatt : seed ≠ ⟨float.fin 0, float.fin 0⟩ →
      ∃ i, i < (trace_orbit orbit0 seed delta epsilon).orbit_len
        ∧ (trace_orbit orbit0 seed delta epsilon).radius
          = sq_norm ((trace_orbit orbit0 seed delta epsilon).orbit i) := by
    intro hne
    rcases hinv.rad_attained with h | ⟨h, _⟩
    · exact h
    · exfalso
      rcases sq_norm_seed seed hseed with h0 | ⟨q, hq, hq1⟩ | hinf
      · exact hne h0
      · rw [hq] at h
        simp only [float.lt, decide_eq_false_iff_not, not_lt] at h
        linarith
      · rw [hinf] at h
        exact absurd h (by simp [float.lt])
  refine ⟨?_, ?_, hinv.rad_ge, ?_, hatt, ?_⟩
  · rcases trace_orbit_radius_cases orbit0 seed delta epsilon hseed with h | ⟨R, hR, hR40⟩
    · rw [h]
      rfl
    · rw [hR]
      unfold frame_radius
      rcases float_sqrt_cases R hR40 with hs | ⟨hs, _, hrd⟩
      · rw [hs]
        rfl
      · rw [hs]
        simp only [float.lt, decide_eq_true_eq]
        exact lt_of_lt_of_le (by positivity) hrd
  · rcases trace_orbit_radius_cases orbit0 seed delta epsilon hseed with h | ⟨R, hR, hR40⟩
    · rw [h]
      rfl
    · rw [hR]
      unfold frame_radius
      rcases float_sqrt_cases R hR40 with hs | ⟨hs, _, hrd⟩
      · rw [hs]
        rfl
      · rw [hs]
        simp only [float.lt, decide_eq_false_iff_not, not_lt]
        refine le_trans ?_ hrd
        norm_num
  · intro i a b r hi hpt hr
    obtain ⟨R, hR, hR0, hrd, hd20, hr20⟩ :=
      frame_radius_fin orbit0 seed delta epsilon hseed r hr
    obtain ⟨ha, hb⟩ := stored_point_int orbit0 seed delta epsilon hseed i a b hi hpt
    have hge := hinv.rad_ge i hi
    rw [hR, hpt] at hge
    obtain ⟨b1, _, _⟩ := sq_norm_bounds a b ha hb
    have hX : round32 (round32 (a * a) + round32 (b * b)) ≤ R := by
      rcases sq_norm_fin_cases a b with hc | hc
      · rw [hc] at hge
        simpa [float.lt] using hge
      · rw [hc] at hge
        exact absurd hge (by simp [float.lt])
    obtain ⟨_, _, s3⟩ := sqrt64_spec R hR0
    have hd0 : 0 ≤ sqrt64 R := le_trans (by positivity) hd20
    have hd126 : (2 : ℚ) ^ (-126 : ℤ) ≤ sqrt64 R := by
      refine le_trans ?_ hd20
      exact (zpow_le_zpow_iff_right₀ (by norm_num)).2 (by norm_num)
    obtain ⟨r1, _⟩ := round32_bounds_normal (sqrt64 R) hd126
    rw [← hrd] at r1
    exact radius_upper_algebra _ R (sqrt64 R) r (le_trans b1 hX) s3 r1 hd0
  · intro hne r hr
    obtain ⟨R, hR, hR0, hrd, hd20, hr20⟩ :=
      frame_radius_fin orbit0 seed delta epsilon hseed r hr
    obtain ⟨i, hi, hatti⟩ := hatt hne
    rw [hR] at hatti
    obtain ⟨a, b, hpt, hX⟩ := sq_norm_eq_fin _ R hatti.symm
    obtain ⟨ha, hb⟩ := stored_point_int orbit0 seed delta epsilon hseed i a b hi hpt
    obtain ⟨_, b2, _⟩ := sq_norm_bounds a b ha hb
    rw [← hX] at b2
    obtain ⟨_, s2, _⟩ := sqrt64_spec R hR0
    have hd126 : (2 : ℚ) ^ (-126 : ℤ) ≤ sqrt64 R := by
      refine le_trans ?_ hd20
      exact (zpow_le_zpow_iff_right₀ (by norm_num)).2 (by norm_num)
    obtain ⟨_, r2⟩ := round32_bounds_normal (sqrt64 R) hd126
    rw [← hrd] at r2
    have hr0 : 0 ≤ r := le_trans (by positivity) hr20
    exact ⟨i, a, b, hi, hpt, radius_lower_algebra _ R (sqrt64 R) r b2 s2 r2 hr0⟩

/-- Witness for C4 as amended: the seed `(1, 1)` with `delta = epsilon = 0`, whose
stored point `(1, 1)` is within the bound of the radius `11863283 / 2^23`. -/
theorem frame_radius_float_spec_witness :
    integer_valued ⟨float.fin 1, float.fin 1⟩
      ∧ float.lt (float.fin 0)
          (frame_radius (trace_orbit (fun _ => ⟨float.fin 0, float.fin 0⟩)
            ⟨float.fin 1, float.fin 1⟩ (float.fin 0) (float.fin 0)).radius) = true
      ∧ (1 : ℚ) * 1 + 1 * 1 ≤ ((1 + 2 ^ (-22 : ℤ)) * (11863283 / 8388608)) ^ 2 :=
  ⟨by decide!,
    (frame_radius_float_spec (fun _ => ⟨float.fin 0, float.fin 0⟩)
      ⟨float.fin 1, float.fin 1⟩ (float.fin 0) (float.fin 0) (by decide!)).1,
    (frame_radius_float_spec (fun _ => ⟨float.fin 0, float.fin 0⟩)
      ⟨float.fin 1, float.fin 1⟩ (float.fin 0) (float.fin 0) (by decide!)).2.2.2.1
      0 1 1 (11863283 / 8388608) (by decide!) (by decide!) (by decide!)⟩

end Binary32
